import Mathlib

/-!
# Billiards core (`game_cpp/game.cpp`): a shallow embedding

Numbers.  The program computes with `float`.  The embedding computes with exact
rationals; a statement about a definition without roundings is about the exact
arithmetic the program approximates.  Where the rounding of a `float` operation decides
a property (the sweep, `Normalized`, the wall branches of `Update`), the section
"Binary32 arithmetic" repeats the definition with the roundings, and the statement is
about that definition.  Two operations of the program have no total rational
counterpart and are made explicit:

* a division whose divisor is zero yields an infinity or a NaN in the program;
  here it yields `none` (`fdiv`), and `none` propagates to whatever is computed
  from it;
* `std::sqrt` is a parameter `sqrt : ℚ → ℚ` of every definition that calls it.
  Theorems state which properties of the square root they use (`IsSqrt`);
  `sqrtQ` is a computable function having them.

Pointers.  `RigidBody2D*` values are addresses (`Ptr`), the objects they point to
live in a heap `Ptr → RigidBody2D`; `Scene::Mesh*` values are handles (`Mesh`),
`nullptr` is `0`.  Calls into the scene are not modelled, except that
`Scene::destroyMesh` appends the handle to a log.
-/

namespace Billiards

/-! ## Vector2 -/

/-- The class `Vector2` (lines 19-109). -/
structure Vector2 where
  x : ℚ
  y : ℚ
  deriving DecidableEq

/-- Division of two floats: `none` when the divisor is zero (the program obtains an
infinity or a NaN there), the quotient otherwise. -/
def fdiv (a b : ℚ) : Option ℚ :=
  if b = 0 then none else some (a / b)

/-- The function `round` of `<cmath>`: nearest integer, halfway cases away from zero. -/
def cround (q : ℚ) : ℚ :=
  if 0 ≤ q then (⌊q + 1 / 2⌋ : ℤ) else (⌈q - 1 / 2⌉ : ℤ)

namespace Vector2

/-- Member `operator+` (line 70). -/
def add (a b : Vector2) : Vector2 := ⟨a.x + b.x, a.y + b.y⟩

/-- Member `operator-` (line 74). -/
def sub (a b : Vector2) : Vector2 := ⟨a.x - b.x, a.y - b.y⟩

/-- Member `operator*(float)` (line 78), also the free `operator*(float, Vector2)` (line 111). -/
def smul (a : Vector2) (scalar : ℚ) : Vector2 := ⟨a.x * scalar, a.y * scalar⟩

/-- Function `DistanceTo` (line 29). -/
def DistanceTo (sqrt : ℚ → ℚ) (a other : Vector2) : ℚ :=
  sqrt ((a.x - other.x) ^ 2 + (a.y - other.y) ^ 2)

/-- Function `DirectionTo` (line 34): both components are divided by the distance, with no test
of the distance. -/
def DirectionTo (sqrt : ℚ → ℚ) (a other : Vector2) : Option Vector2 :=
  let distance := DistanceTo sqrt a other
  match fdiv (other.x - a.x) distance, fdiv (other.y - a.y) distance with
  | some dx, some dy => some ⟨dx, dy⟩
  | _, _ => none

/-- Function `Length` (line 43). -/
def Length (sqrt : ℚ → ℚ) (a : Vector2) : ℚ := sqrt (a.x ^ 2 + a.y ^ 2)

/-- Function `LengthPow2` (line 48). -/
def LengthPow2 (a : Vector2) : ℚ := a.x ^ 2 + a.y ^ 2

/-- Function `Dot` (line 55). -/
def Dot (a other : Vector2) : ℚ := a.x * other.x + a.y * other.y

/-- Function `Normalized` (line 60). -/
def Normalized (sqrt : ℚ → ℚ) (a : Vector2) : Vector2 :=
  let mag := Length sqrt a
  if mag ≠ 0 then ⟨cround (a.x / mag * 1000) / 1000, cround (a.y / mag * 1000) / 1000⟩
  else ⟨0, 0⟩

end Vector2

/-- Scalar `Lerp` (line 122); note that `t` weighs the first argument. -/
def Lerp (x y t : ℚ) : ℚ := t * x + (1 - t) * y

/-- Vector `Lerp` (line 126). -/
def LerpV (pos1 pos2 : Vector2) (t : ℚ) : Vector2 :=
  ⟨Lerp pos1.x pos2.x t, Lerp pos1.y pos2.y t⟩

/-! ## Params -/

namespace Params

/-- Constant `Params::Table::width`. -/
def width : ℚ := 15
/-- Constant `Params::Table::height`. -/
def height : ℚ := 8
/-- Constant `Params::Table::pocketRadius`. -/
def pocketRadius : ℚ := 4 / 10
/-- Constant `Params::Ball::radius`. -/
def radius : ℚ := 3 / 10
/-- Constant `Params::Ball::maxSpeed`. -/
def maxSpeed : ℚ := 19
/-- Constant `Params::Ball::speedModificatory`. -/
def speedModificatory : ℚ := 98 / 100
/-- Constant `Params::Shot::chargeTime`. -/
def chargeTime : ℚ := 1

/-- Constant `Params::Table::pocketsPositions` (lines 149-157). -/
def pocketsPositions : List Vector2 :=
  [⟨-(1 / 2) * width, -(1 / 2) * height⟩, ⟨0, -(1 / 2) * height⟩, ⟨1 / 2 * width, -(1 / 2) * height⟩,
   ⟨-(1 / 2) * width, 1 / 2 * height⟩, ⟨0, 1 / 2 * height⟩, ⟨1 / 2 * width, 1 / 2 * height⟩]

end Params

/-! ## Bodies -/

/-- A `Scene::Mesh*`; `0` is `nullptr`. -/
abbrev Mesh := ℕ

/-- The class `PhysicBody2D` (lines 260-287). -/
structure PhysicBody2D where
  position : Vector2
  radius : ℚ
  mesh : Mesh
  deriving DecidableEq

/-- The class `RigidBody2D` (lines 291-363): a `PhysicBody2D` with a velocity. -/
structure RigidBody2D extends PhysicBody2D where
  velocity : Vector2
  deriving DecidableEq

/-- Function `PhysicBody2D::CheckCollision` (line 275). -/
def PhysicBody2D.CheckCollision (sqrt : ℚ → ℚ) (a other : PhysicBody2D) : Bool :=
  decide (Vector2.DistanceTo sqrt a.position other.position ≤ a.radius + other.radius)

/-- What `RigidBody2D::Update` leaves in the body.  The velocity is always a pair of
numbers.  The position is `none` when `collideTime` was obtained by a division by zero:
the program stores a NaN coordinate in that case. -/
structure Updated where
  velocity : Vector2
  position : Option Vector2
  deriving DecidableEq

namespace RigidBody2D

/-- The array `box` of `Update` (line 303): 0 left, 1 top, 2 right, 3 bottom. -/
def box : Fin 4 → ℚ
  | 0 => Params.width * -(1 / 2)
  | 1 => Params.height * (1 / 2)
  | 2 => Params.width * (1 / 2)
  | 3 => Params.height * -(1 / 2)

/-- Function `GetNextFramePos` (line 348). -/
def GetNextFramePos (b : RigidBody2D) (deltaTime : ℚ) : Vector2 :=
  b.position.add (b.velocity.smul deltaTime)

/-- Both overloads of `Move` (lines 351-361): store the position, damp the velocity. -/
def Move (velocity : Vector2) (newPosition : Option Vector2) : Updated :=
  { velocity := velocity.smul Params.speedModificatory, position := newPosition }

/-- Function `RigidBody2D::Update` (lines 302-346). -/
def Update (b : RigidBody2D) (deltaTime : ℚ) : Updated :=
  let newPos := b.GetNextFramePos deltaTime
  if newPos.y - b.radius ≤ box 3 then
    let collideTime := fdiv (box 3 + b.radius - newPos.y) (b.position.y - newPos.y)
    let collisionPoint := collideTime.map (LerpV b.position newPos)
    let velocity : Vector2 := ⟨b.velocity.x, b.velocity.y * -1⟩
    Move velocity (collisionPoint.map fun cp => ⟨newPos.x, cp.y + |newPos.y - cp.y|⟩)
  else if newPos.y + b.radius ≥ box 1 then
    let collideTime := fdiv (box 1 + b.radius - newPos.y) (b.position.y - newPos.y)
    let collisionPoint := collideTime.map (LerpV b.position newPos)
    let velocity : Vector2 := ⟨b.velocity.x, b.velocity.y * -1⟩
    Move velocity (collisionPoint.map fun cp => ⟨newPos.x, cp.y - |newPos.y - cp.y|⟩)
  else if newPos.x - b.radius ≤ box 0 then
    let collideTime := fdiv (box 3 + b.radius - newPos.x) (b.position.x - newPos.x)
    let collisionPoint := collideTime.map (LerpV b.position newPos)
    let velocity : Vector2 := ⟨b.velocity.x * -1, b.velocity.y⟩
    Move velocity (collisionPoint.map fun cp => ⟨cp.x - |newPos.x - cp.x|, newPos.y⟩)
  else if newPos.x + b.radius ≥ box 2 then
    let collideTime := fdiv (box 1 + b.radius - newPos.x) (b.position.x - newPos.x)
    let collisionPoint := collideTime.map (LerpV b.position newPos)
    let velocity : Vector2 := ⟨b.velocity.x * -1, b.velocity.y⟩
    Move velocity (collisionPoint.map fun cp => ⟨cp.x + |newPos.x - cp.x|, newPos.y⟩)
  else
    Move b.velocity (some newPos)

end RigidBody2D

/-- Function `Game::UpdateVelocity` (lines 422-431), as the pair of new velocities of `rb1` and
`rb2`.  Both quotients are formed without a test of the divisor; `none` when one of
them divides by zero. -/
def UpdateVelocity (rb1 rb2 : RigidBody2D) : Option (Vector2 × Vector2) :=
  let v12 := rb1.velocity.sub rb2.velocity
  let x12 := rb1.position.sub rb2.position
  let v21 := rb2.velocity.sub rb1.velocity
  let x21 := rb2.position.sub rb1.position
  match fdiv (v12.Dot x12) x12.LengthPow2, fdiv (v21.Dot x21) x21.LengthPow2 with
  | some k1, some k2 => some (rb1.velocity.sub (x12.smul k1), rb2.velocity.sub (x21.smul k2))
  | _, _ => none

/-! ## Table -/

/-- The class `Table` (lines 193-226): the two arrays of mesh handles. -/
structure Table where
  balls : List Mesh
  pockets : List Mesh
  deriving DecidableEq

/-- The effect of `Table::removeBall` (line 214) on the array `balls`: `std::find` stops at
the first slot holding the handle, every later slot moves one place down and the last
slot becomes `nullptr`; an array without the handle is left as it is. -/
def removeBallSlots : List Mesh → Mesh → List Mesh
  | [], _ => []
  | b :: rest, ballToRemove =>
    if b = ballToRemove then rest ++ [0] else b :: removeBallSlots rest ballToRemove

/-- Function `Table::removeBall` (line 214). -/
def Table.removeBall (t : Table) (ballToRemove : Mesh) : Table :=
  { t with balls := removeBallSlots t.balls ballToRemove }

/-! ## Game -/

/-- A `RigidBody2D*`. -/
abbrev Ptr := ℕ

/-- The globals `isChargingShot` and `shotChargeProgress` (lines 378-379). -/
structure Shot where
  isChargingShot : Bool
  shotChargeProgress : ℚ
  deriving DecidableEq

/-- The globals of namespace `Game` (lines 377-383), the heap of ball objects the
pointers refer to, and the log of `Scene::destroyMesh` calls. -/
structure Game extends Shot where
  table : Table
  playerBall : Ptr
  ballsObjects : List Ptr
  pocketObjects : List PhysicBody2D
  heap : Ptr → RigidBody2D
  destroyed : List Mesh

namespace Shot

/-- The initial values of the two globals (lines 378-379). -/
def init : Shot := ⟨false, 0⟩

/-- What `Game::update` does to the two globals (lines 435-436); the rest of `update`
assigns neither of them. -/
def update (s : Shot) (dt : ℚ) : Shot :=
  if s.isChargingShot then
    { s with shotChargeProgress := min (s.shotChargeProgress + dt / Params.chargeTime) 1 }
  else s

/-- What `Game::mouseButtonPressed` does (line 482). -/
def mouseButtonPressed (s : Shot) : Shot := { s with isChargingShot := true }

/-- What `Game::mouseButtonReleased` does to the two globals (lines 490-491). -/
def mouseButtonReleased (_s : Shot) : Shot := { isChargingShot := false, shotChargeProgress := 0 }

/-- The three entry points that the host calls between `init` and `deinit`. -/
inductive Event where
  | pressed (x y : ℚ)
  | released (x y : ℚ)
  | tick (dt : ℚ)
  deriving DecidableEq

/-- One call of an entry point, seen on the two globals. -/
def step (s : Shot) : Event → Shot
  | .pressed _ _ => s.mouseButtonPressed
  | .released _ _ => s.mouseButtonReleased
  | .tick dt => s.update dt

/-- A sequence of calls, the first event first. -/
def run (s : Shot) (events : List Event) : Shot := events.foldl step s

/-- Every `update` of the sequence has `dt ≥ 0`. -/
def NonnegTicks (events : List Event) : Prop := ∀ dt, Event.tick dt ∈ events → 0 ≤ dt

end Shot

namespace Game

/-- Function `Game::mouseButtonPressed` (line 480). -/
def mouseButtonPressed (g : Game) (_x _y : ℚ) : Game :=
  { g with toShot := g.toShot.mouseButtonPressed }

/-- Function `Game::mouseButtonReleased` (line 486); `none` when the launch direction is not a
pair of numbers, that is when `DirectionTo` divided by zero. -/
def mouseButtonReleased (sqrt : ℚ → ℚ) (g : Game) (x y : ℚ) : Option Game :=
  match (g.heap g.playerBall).position.DirectionTo sqrt ⟨x, y⟩ with
  | none => none
  | some dir =>
    some { g with
      heap := Function.update g.heap g.playerBall
        { g.heap g.playerBall with
          velocity := ((dir.Normalized sqrt).smul g.shotChargeProgress).smul Params.maxSpeed }
      toShot := g.toShot.mouseButtonReleased }

/-- The body of the loop of `Game::HandlePocketCollision` (lines 412-417) for one pocket. -/
def handlePocket (sqrt : ℚ → ℚ) (ball : Ptr) (g : Game) (pocket : PhysicBody2D) : Game :=
  if (g.heap ball).toPhysicBody2D.CheckCollision sqrt pocket then
    { g with
      table := g.table.removeBall (g.heap ball).mesh
      destroyed := g.destroyed ++ [(g.heap ball).mesh]
      ballsObjects := g.ballsObjects.filter (fun p => p ≠ ball) }
  else g

/-- Function `Game::HandlePocketCollision` (line 410): every pocket is tested, a hit does not end
the loop. -/
def HandlePocketCollision (sqrt : ℚ → ℚ) (g : Game) (ball : Ptr) : Game :=
  g.pocketObjects.foldl (handlePocket sqrt ball) g

/-! ### The per-ball loop of `update` (lines 438-441)

The range-based `for` takes `begin()` and `end()` of `ballsObjects` once and then reads one
slot of the vector's storage after the other.  `erase(remove(...))` inside
`HandlePocketCollision` moves the kept pointers to the front of that storage and leaves
the slots behind the new end as they are; the loop still runs up to the old end. -/

/-- State of the loop: the game, the storage as the loop's iterators see it, and the
balls visited so far. -/
structure LoopState where
  game : Game
  storage : List Ptr
  visited : List Ptr

/-- One iteration on storage slot `i`; `none` when `Update` stored a NaN position. -/
def ballLoopStep (sqrt : ℚ → ℚ) (dt : ℚ) (s : Option LoopState) (i : ℕ) : Option LoopState :=
  match s with
  | none => none
  | some s =>
    match s.storage.get? i with
    | none => none
    | some ball =>
      let u := (s.game.heap ball).Update dt
      match u.position with
      | none => none
      | some pos =>
        let moved : RigidBody2D := { s.game.heap ball with position := pos, velocity := u.velocity }
        let g := HandlePocketCollision sqrt { s.game with heap := Function.update s.game.heap ball moved } ball
        some { game := g
               storage := g.ballsObjects ++ s.storage.drop g.ballsObjects.length
               visited := s.visited ++ [ball] }

/-- The loop of lines 438-441. -/
def ballLoop (sqrt : ℚ → ℚ) (g : Game) (dt : ℚ) : Option LoopState :=
  (List.range g.ballsObjects.length).foldl (ballLoopStep sqrt dt)
    (some { game := g, storage := g.ballsObjects, visited := [] })

/-! ### Sweep and prune (lines 446-475) -/

/-- Function `CompareByX` (line 366), on the objects two pointers refer to. -/
def CompareByX (heap : Ptr → RigidBody2D) (rb1 rb2 : Ptr) : Bool :=
  decide ((heap rb1).position.x < (heap rb2).position.x)

/-- One result of `std::sort(snp.begin(), snp.end(), CompareByX)` (line 447).  `std::sort`
does not fix the order of bodies with equal `x`. -/
def sortSnp (heap : Ptr → RigidBody2D) (snp : List Ptr) : List Ptr :=
  snp.insertionSort (fun a b => CompareByX heap b a = false)

/-- What `std::sort` guarantees of its result `snp` for the input `balls`: the same
pointers, and no body is followed by one that `CompareByX` puts before it. -/
def IsSortOf (heap : Ptr → RigidBody2D) (balls snp : List Ptr) : Prop :=
  snp.Perm balls ∧ snp.Pairwise (fun a b => CompareByX heap b a = false)

/-- The variables of the sweep: `start`, `end`, `active`, `globalIt`. -/
structure Sweep where
  start : ℚ
  stop : ℚ
  active : List (List Ptr)
  globalIt : ℕ

/-- The statement `active[globalIt].push_back(p)`. -/
def pushBackAt : List (List Ptr) → ℕ → Ptr → List (List Ptr)
  | [], _, _ => []
  | act :: rest, 0, p => (act ++ [p]) :: rest
  | act :: rest, n + 1, p => act :: pushBackAt rest n p

/-- The body of the loop of lines 454-466 for `snp[i] = p`. -/
def sweepStep (heap : Ptr → RigidBody2D) (s : Sweep) (p : Ptr) : Sweep :=
  if (heap p).position.x - (heap p).radius ≤ s.stop then
    { s with
      active := pushBackAt s.active s.globalIt p
      stop := (heap p).position.x + (heap p).radius }
  else
    { start := (heap p).position.x - (heap p).radius
      stop := (heap p).position.x + (heap p).radius
      globalIt := s.globalIt + 1
      active := s.active ++ [[p]] }

/-- Lines 448-466 on the sorted snapshot: the clusters `active`.  The program reads
`snp[0]` before it looks at the size of `snp`; `none` stands for that read when `snp` is
empty. -/
def broadPhase (heap : Ptr → RigidBody2D) : List Ptr → Option (List (List Ptr))
  | [] => none
  | p :: rest =>
    some (rest.foldl (sweepStep heap)
      { start := (heap p).position.x - (heap p).radius
        stop := (heap p).position.x + (heap p).radius
        active := [[p]]
        globalIt := 0 }).active

/-- The index pairs of the loops `for i`, `for j = i + 1` (lines 468-469), in the order
in which they are visited. -/
def pairs : List Ptr → List (Ptr × Ptr)
  | [] => []
  | a :: rest => rest.map (fun b => (a, b)) ++ pairs rest

/-- The test of line 470 on the objects two pointers refer to. -/
def overlap (sqrt : ℚ → ℚ) (heap : Ptr → RigidBody2D) (pq : Ptr × Ptr) : Bool :=
  (heap pq.1).toPhysicBody2D.CheckCollision sqrt (heap pq.2).toPhysicBody2D

/-- Lines 467-475: the pairs on which `UpdateVelocity` is called.  `UpdateVelocity` assigns
velocities only, so every test sees the positions and radii of `heap`. -/
def narrowPhase (sqrt : ℚ → ℚ) (heap : Ptr → RigidBody2D) : List (List Ptr) → List (Ptr × Ptr)
  | [] => []
  | act :: rest => (pairs act).filter (overlap sqrt heap) ++ narrowPhase sqrt heap rest

/-- Lines 446-475 of `update`: the pairs on which `UpdateVelocity` is called when the sort
produced `snp`. -/
def collisionCalls (sqrt : ℚ → ℚ) (heap : Ptr → RigidBody2D) (snp : List Ptr) :
    Option (List (Ptr × Ptr)) :=
  (broadPhase heap snp).map (narrowPhase sqrt heap)

/-- The exhaustive test the sweep is compared with: `CheckCollision` on all unordered
pairs of the live balls. -/
def exhaustivePairs (sqrt : ℚ → ℚ) (heap : Ptr → RigidBody2D) (balls : List Ptr) :
    List (Ptr × Ptr) :=
  (pairs balls).filter (overlap sqrt heap)

end Game

/-! ## The square root -/

/-- The properties of the square root that the theorems use: it is exact on squares, and
it is not below `|a|` on a number that is at least `a * a`. -/
structure IsSqrt (sqrt : ℚ → ℚ) : Prop where
  sqrt_mul_self : ∀ q : ℚ, 0 ≤ q → sqrt (q * q) = q
  abs_le_sqrt : ∀ a s : ℚ, a * a ≤ s → |a| ≤ sqrt s

/-- A computable function with the properties `IsSqrt`: the root of a square of a
rational, and the upper bound `(s + 1) / 2` of the root elsewhere. -/
def sqrtQ (s : ℚ) : ℚ :=
  if Rat.sqrt s * Rat.sqrt s = s then Rat.sqrt s else (s + 1) / 2

namespace Game

/-- The value of `active` at the end of the sweep as a function of the current cluster
`cur`, its right end `stop`, and the bodies `rest` that lines 454-466 have still to look at;
`foldl_sweepStep_active` shows that this is what the loop computes. -/
def clusters (heap : Ptr → RigidBody2D) (stop : ℚ) (cur : List Ptr) :
    List Ptr → List (List Ptr)
  | [] => [cur]
  | p :: rest =>
    if (heap p).position.x - (heap p).radius ≤ stop then
      clusters heap ((heap p).position.x + (heap p).radius) (cur ++ [p]) rest
    else
      cur :: clusters heap ((heap p).position.x + (heap p).radius) [p] rest

end Game

/-! ## The branches of `RigidBody2D::Update` -/

/-- The four boundaries, in the order in which `Update` tests them. -/
inductive Wall where
  | bottom
  | top
  | left
  | right
  deriving DecidableEq

namespace RigidBody2D

/-- The branch that `Update` takes: the first of the tests of lines 307, 316, 325 and 334 that
holds for `newPos`, or `none` when `Update` ends with `Move(deltaTime)`. -/
def wall (b : RigidBody2D) (deltaTime : ℚ) : Option Wall :=
  let newPos := b.GetNextFramePos deltaTime
  if newPos.y - b.radius ≤ box 3 then some Wall.bottom
  else if newPos.y + b.radius ≥ box 1 then some Wall.top
  else if newPos.x - b.radius ≤ box 0 then some Wall.left
  else if newPos.x + b.radius ≥ box 2 then some Wall.right
  else none

/-- The divisor of `collideTime` in the branch of a wall (lines 308, 317, 326, 335). -/
def divisor (b : RigidBody2D) (deltaTime : ℚ) : Wall → ℚ
  | Wall.bottom => b.position.y - (b.GetNextFramePos deltaTime).y
  | Wall.top => b.position.y - (b.GetNextFramePos deltaTime).y
  | Wall.left => b.position.x - (b.GetNextFramePos deltaTime).x
  | Wall.right => b.position.x - (b.GetNextFramePos deltaTime).x

/-- The local `collideTime` of the branch of a wall (lines 308, 317, 326, 335), with the
constants as the program has them: `box[3]` in the bottom and in the left branch, `box[1]`
in the top and in the right branch. -/
def collideTime (b : RigidBody2D) (deltaTime : ℚ) : Wall → Option ℚ
  | Wall.bottom =>
    fdiv (box 3 + b.radius - (b.GetNextFramePos deltaTime).y) (b.divisor deltaTime Wall.bottom)
  | Wall.top =>
    fdiv (box 1 + b.radius - (b.GetNextFramePos deltaTime).y) (b.divisor deltaTime Wall.top)
  | Wall.left =>
    fdiv (box 3 + b.radius - (b.GetNextFramePos deltaTime).x) (b.divisor deltaTime Wall.left)
  | Wall.right =>
    fdiv (box 1 + b.radius - (b.GetNextFramePos deltaTime).x) (b.divisor deltaTime Wall.right)

/-- The local `collisionPoint` of the branch of a wall (lines 309, 318, 327, 336). -/
def collisionPoint (b : RigidBody2D) (deltaTime : ℚ) (w : Wall) : Option Vector2 :=
  (b.collideTime deltaTime w).map (LerpV b.position (b.GetNextFramePos deltaTime))

/-- The assignment to `newPos` in the branch of a wall (lines 311, 320, 329, 338). -/
def reposition (newPos : Vector2) (w : Wall) (cp : Vector2) : Vector2 :=
  match w with
  | Wall.bottom => ⟨newPos.x, cp.y + |newPos.y - cp.y|⟩
  | Wall.top => ⟨newPos.x, cp.y - |newPos.y - cp.y|⟩
  | Wall.left => ⟨cp.x - |newPos.x - cp.x|, newPos.y⟩
  | Wall.right => ⟨cp.x + |newPos.x - cp.x|, newPos.y⟩

/-- The coordinate at which the edge of the ball touches a wall: `-height/2 + radius`,
`height/2 - radius`, `-width/2 + radius`, `width/2 - radius`. -/
def touchLine (b : RigidBody2D) : Wall → ℚ
  | Wall.bottom => -(Params.height / 2) + b.radius
  | Wall.top => Params.height / 2 - b.radius
  | Wall.left => -(Params.width / 2) + b.radius
  | Wall.right => Params.width / 2 - b.radius

/-- The coordinate of a point on the axis of a wall: `y` for bottom and top, `x` for left and
right. -/
def axisCoord (w : Wall) (p : Vector2) : ℚ :=
  match w with
  | Wall.bottom => p.y
  | Wall.top => p.y
  | Wall.left => p.x
  | Wall.right => p.x

end RigidBody2D

/-! ## Setup and teardown -/

namespace Params

/-- Constant `Params::Table::ballsPositions` (lines 159-170). -/
def ballsPositions : List Vector2 :=
  [⟨-(3 / 10) * width, 0⟩, ⟨2 / 10 * width, 0⟩, ⟨25 / 100 * width, 5 / 100 * height⟩,
   ⟨25 / 100 * width, -(5 / 100) * height⟩, ⟨3 / 10 * width, 1 / 10 * height⟩,
   ⟨3 / 10 * width, 0⟩, ⟨3 / 10 * width, -(1 / 10) * height⟩]

end Params

/-- Function `Table::init` (line 229).  The handles are those that `Scene::createPocketMesh` and
`Scene::createBallMesh` return for the `i`-th call; `none` when one of the assertions
`!pockets[i]`, `!balls[i]` fails. -/
def Table.init (t : Table) (pocketMesh ballMesh : ℕ → Mesh) : Option Table :=
  if t.pockets.all (fun m => m == 0) && t.balls.all (fun m => m == 0) then
    some { pockets := (List.range 6).map pocketMesh, balls := (List.range 7).map ballMesh }
  else none

/-- The handles that `Table::deinit` (line 247) passes to `Scene::destroyMesh`: every pocket
slot, and every ball slot that is not `nullptr`. -/
def Table.deinitDestroys (t : Table) : List Mesh :=
  t.pockets ++ t.balls.filter (fun m => m ≠ 0)

/-- The arrays after `Table::deinit` (lines 255-256): all slots `nullptr`. -/
def Table.cleared : Table :=
  { pockets := List.replicate 6 0, balls := List.replicate 7 0 }

namespace Game

/-- Function `Game::deinit` (line 401).  The `delete playerBall` frees an object; the lifetime of
objects is not part of the model. -/
def deinit (g : Game) : Game :=
  { g with
    ballsObjects := []
    pocketObjects := []
    destroyed := g.destroyed ++ g.table.deinitDestroys
    table := Table.cleared }

/-- Function `Game::init` (line 384).  The address of the `i`-th ball object that `new` returns is
`newBall i`; `none` when an assertion of `Table::init` fails. -/
def init (g : Game) (pocketMesh ballMesh : ℕ → Mesh) (newBall : ℕ → Ptr) : Option Game :=
  match g.table.init pocketMesh ballMesh with
  | none => none
  | some t =>
    let ballsObjects := g.ballsObjects ++ (List.range 7).map newBall
    some { g with
      table := t
      ballsObjects := ballsObjects
      heap := (List.range 7).foldl
        (fun heap i => Function.update heap (newBall i)
          ⟨⟨Params.ballsPositions.getD i ⟨0, 0⟩, Params.radius, t.balls.getD i 0⟩, ⟨0, 0⟩⟩)
        g.heap
      pocketObjects := g.pocketObjects ++ (List.range 6).map
        (fun i => ⟨Params.pocketsPositions.getD i ⟨0, 0⟩, Params.pocketRadius, t.pockets.getD i 0⟩)
      playerBall := ballsObjects.headD 0 }

end Game

/-! ## Binary32 arithmetic

Every `float` operation of the program rounds its exact result to the nearest binary32
number.  The definitions above leave that rounding out.  The definitions of this section
repeat those of them for which the rounding decides a property stated below: they take the
rounding `fl : ℚ → ℚ` as a parameter and apply it to the result of every `float`
operation, in the order in which the program evaluates its expressions.  With `fl = id`
they are the definitions above; with `fl = f32` they compute what the program computes
on values within the exponent range of binary32 (an overflow to an infinity and the
subnormal numbers are not modelled).  The stored numbers (positions, radii, velocities,
`deltaTime`) are floats: an example gives them as `f32` of their decimal literals.
-/

/-- The integer nearest to `q`, halfway cases to the even integer. -/
def rne (q : ℚ) : ℤ :=
  if q - ⌊q⌋ < 1 / 2 then ⌊q⌋
  else if 1 / 2 < q - ⌊q⌋ then ⌊q⌋ + 1
  else if ⌊q⌋ % 2 = 0 then ⌊q⌋ else ⌊q⌋ + 1

/-- Rounding to binary32 (round to nearest, ties to even): `q` is scaled by the power of two
that brings `|q|` into `[2^23, 2^24)`, rounded to an integer of `24` bits and scaled back. -/
def f32 (q : ℚ) : ℚ :=
  rne (q / 2 ^ (Int.log 2 |q| - 23)) * 2 ^ (Int.log 2 |q| - 23)

/-- Division of two floats, rounded: `none` when the divisor is zero. -/
def fdivF (fl : ℚ → ℚ) (a b : ℚ) : Option ℚ :=
  if b = 0 then none else some (fl (a / b))

namespace Vector2

/-- Function `DistanceTo` (line 29) with its roundings.  The differences are `float`
operations.  `std::pow(float, int)` and `std::sqrt` of its sum compute in `double`, where the
square of a float is exact: `sqrt` stands for the `double` root of the sum of the two squares.
The `return` narrows the root to `float`. -/
def DistanceToF (fl sqrt : ℚ → ℚ) (a other : Vector2) : ℚ :=
  fl (sqrt (fl (a.x - other.x) ^ 2 + fl (a.y - other.y) ^ 2))

/-- Function `Length` (line 43) with its roundings: the root is computed in `double` (see
`DistanceToF`) and narrowed to `float`. -/
def LengthF (fl sqrt : ℚ → ℚ) (a : Vector2) : ℚ := fl (sqrt (a.x ^ 2 + a.y ^ 2))

/-- Function `Normalized` (line 60) with its roundings: the quotient `x / mag` and its product
with `1000` are `float` operations, `round` yields an integer `n`, and the quotient of `n` by
`1000` is stored in a `float`.  Where `round` returns a `double`, that quotient is formed in
`double` and narrowed by the constructor; a multiple of `1/1000` is much farther from the
middle of two neighbouring floats than from its `double`, so the narrowing yields the float
nearest to `n / 1000` all the same. -/
def NormalizedF (fl sqrt : ℚ → ℚ) (a : Vector2) : Vector2 :=
  let mag := LengthF fl sqrt a
  if mag ≠ 0 then
    ⟨fl (cround (fl (fl (a.x / mag) * 1000)) / 1000),
     fl (cround (fl (fl (a.y / mag) * 1000)) / 1000)⟩
  else ⟨0, 0⟩

end Vector2

/-- Scalar `Lerp` (line 122) with its roundings. -/
def LerpF (fl : ℚ → ℚ) (x y t : ℚ) : ℚ := fl (fl (t * x) + fl (fl (1 - t) * y))

/-- Vector `Lerp` (line 126) with its roundings. -/
def LerpVF (fl : ℚ → ℚ) (pos1 pos2 : Vector2) (t : ℚ) : Vector2 :=
  ⟨LerpF fl pos1.x pos2.x t, LerpF fl pos1.y pos2.y t⟩

/-- Function `PhysicBody2D::CheckCollision` (line 275) with its roundings. -/
def PhysicBody2D.CheckCollisionF (fl sqrt : ℚ → ℚ) (a other : PhysicBody2D) : Bool :=
  decide (Vector2.DistanceToF fl sqrt a.position other.position ≤ fl (a.radius + other.radius))

namespace RigidBody2D

/-- Function `GetNextFramePos` (line 348) with its roundings: `velocity * deltaTime` is
rounded, and so is the sum. -/
def GetNextFramePosF (fl : ℚ → ℚ) (b : RigidBody2D) (deltaTime : ℚ) : Vector2 :=
  ⟨fl (b.position.x + fl (b.velocity.x * deltaTime)),
   fl (b.position.y + fl (b.velocity.y * deltaTime))⟩

/-- Both overloads of `Move` (lines 351-361) with their rounding; the constant is the float
`0.98f`. -/
def MoveF (fl : ℚ → ℚ) (velocity : Vector2) (newPosition : Option Vector2) : Updated :=
  { velocity := ⟨fl (velocity.x * fl Params.speedModificatory),
                 fl (velocity.y * fl Params.speedModificatory)⟩
    position := newPosition }

/-- Function `RigidBody2D::Update` (lines 302-346) with its roundings.  The entries of `box` are
floats (`-7.5`, `4`, `7.5`, `-4`); the change of sign of a velocity component is exact. -/
def UpdateF (fl : ℚ → ℚ) (b : RigidBody2D) (deltaTime : ℚ) : Updated :=
  let newPos := b.GetNextFramePosF fl deltaTime
  if fl (newPos.y - b.radius) ≤ box 3 then
    let collideTime :=
      fdivF fl (fl (fl (box 3 + b.radius) - newPos.y)) (fl (b.position.y - newPos.y))
    let collisionPoint := collideTime.map (LerpVF fl b.position newPos)
    let velocity : Vector2 := ⟨b.velocity.x, b.velocity.y * -1⟩
    MoveF fl velocity
      (collisionPoint.map fun cp => ⟨newPos.x, fl (cp.y + |fl (newPos.y - cp.y)|)⟩)
  else if fl (newPos.y + b.radius) ≥ box 1 then
    let collideTime :=
      fdivF fl (fl (fl (box 1 + b.radius) - newPos.y)) (fl (b.position.y - newPos.y))
    let collisionPoint := collideTime.map (LerpVF fl b.position newPos)
    let velocity : Vector2 := ⟨b.velocity.x, b.velocity.y * -1⟩
    MoveF fl velocity
      (collisionPoint.map fun cp => ⟨newPos.x, fl (cp.y - |fl (newPos.y - cp.y)|)⟩)
  else if fl (newPos.x - b.radius) ≤ box 0 then
    let collideTime :=
      fdivF fl (fl (fl (box 3 + b.radius) - newPos.x)) (fl (b.position.x - newPos.x))
    let collisionPoint := collideTime.map (LerpVF fl b.position newPos)
    let velocity : Vector2 := ⟨b.velocity.x * -1, b.velocity.y⟩
    MoveF fl velocity
      (collisionPoint.map fun cp => ⟨fl (cp.x - |fl (newPos.x - cp.x)|), newPos.y⟩)
  else if fl (newPos.x + b.radius) ≥ box 2 then
    let collideTime :=
      fdivF fl (fl (fl (box 1 + b.radius) - newPos.x)) (fl (b.position.x - newPos.x))
    let collisionPoint := collideTime.map (LerpVF fl b.position newPos)
    let velocity : Vector2 := ⟨b.velocity.x * -1, b.velocity.y⟩
    MoveF fl velocity
      (collisionPoint.map fun cp => ⟨fl (cp.x + |fl (newPos.x - cp.x)|), newPos.y⟩)
  else
    MoveF fl b.velocity (some newPos)

end RigidBody2D

namespace Game

/-- The body of the loop of lines 454-466 for `snp[i] = p`, with its roundings: the left and
the right edge of a body are rounded. -/
def sweepStepF (fl : ℚ → ℚ) (heap : Ptr → RigidBody2D) (s : Sweep) (p : Ptr) : Sweep :=
  if fl ((heap p).position.x - (heap p).radius) ≤ s.stop then
    { s with
      active := pushBackAt s.active s.globalIt p
      stop := fl ((heap p).position.x + (heap p).radius) }
  else
    { start := fl ((heap p).position.x - (heap p).radius)
      stop := fl ((heap p).position.x + (heap p).radius)
      globalIt := s.globalIt + 1
      active := s.active ++ [[p]] }

/-- Lines 448-466 on the sorted snapshot, with their roundings; `none` on an empty
snapshot as in `broadPhase`. -/
def broadPhaseF (fl : ℚ → ℚ) (heap : Ptr → RigidBody2D) : List Ptr → Option (List (List Ptr))
  | [] => none
  | p :: rest =>
    some (rest.foldl (sweepStepF fl heap)
      { start := fl ((heap p).position.x - (heap p).radius)
        stop := fl ((heap p).position.x + (heap p).radius)
        active := [[p]]
        globalIt := 0 }).active

/-- The test of line 470 with its roundings. -/
def overlapF (fl sqrt : ℚ → ℚ) (heap : Ptr → RigidBody2D) (pq : Ptr × Ptr) : Bool :=
  (heap pq.1).toPhysicBody2D.CheckCollisionF fl sqrt (heap pq.2).toPhysicBody2D

/-- Lines 467-475 with their roundings: the pairs on which `UpdateVelocity` is called. -/
def narrowPhaseF (fl sqrt : ℚ → ℚ) (heap : Ptr → RigidBody2D) :
    List (List Ptr) → List (Ptr × Ptr)
  | [] => []
  | act :: rest => (pairs act).filter (overlapF fl sqrt heap) ++ narrowPhaseF fl sqrt heap rest

/-- Lines 446-475 of `update` with their roundings: the pairs on which `UpdateVelocity` is
called when the sort produced `snp`.  The sort compares stored floats and does not round. -/
def collisionCallsF (fl sqrt : ℚ → ℚ) (heap : Ptr → RigidBody2D) (snp : List Ptr) :
    Option (List (Ptr × Ptr)) :=
  (broadPhaseF fl heap snp).map (narrowPhaseF fl sqrt heap)

/-- The exhaustive test with the roundings of `CheckCollision`: all unordered pairs of the
live balls that `CheckCollision` accepts. -/
def exhaustivePairsF (fl sqrt : ℚ → ℚ) (heap : Ptr → RigidBody2D) (balls : List Ptr) :
    List (Ptr × Ptr) :=
  (pairs balls).filter (overlapF fl sqrt heap)

/-- Two bodies truly overlap: the exact distance of their centres is at most the exact sum of
their radii (both sides squared; the radii are not negative). -/
def TrulyOverlaps (heap : Ptr → RigidBody2D) (a b : Ptr) : Prop :=
  ((heap a).position.x - (heap b).position.x) ^ 2 +
      ((heap a).position.y - (heap b).position.y) ^ 2 ≤
    ((heap a).radius + (heap b).radius) ^ 2

instance (heap : Ptr → RigidBody2D) (a b : Ptr) : Decidable (TrulyOverlaps heap a b) :=
  inferInstanceAs (Decidable (_ ≤ _))

/-- The value of `active` at the end of the rounded sweep as a function of the current
cluster, its right end and the bodies still to look at (`clusters` with the roundings). -/
def clustersF (fl : ℚ → ℚ) (heap : Ptr → RigidBody2D) (stop : ℚ) (cur : List Ptr) :
    List Ptr → List (List Ptr)
  | [] => [cur]
  | p :: rest =>
    if fl ((heap p).position.x - (heap p).radius) ≤ stop then
      clustersF fl heap (fl ((heap p).position.x + (heap p).radius)) (cur ++ [p]) rest
    else
      cur :: clustersF fl heap (fl ((heap p).position.x + (heap p).radius)) [p] rest

end Game

/-- A computable square root with `52` binary digits after the point, rounded down. -/
def sqrtD (s : ℚ) : ℚ := (Nat.sqrt ⌊s * 4 ^ 52⌋₊ : ℚ) / 2 ^ 52

/-! ## Example states -/

/-- Three bodies on the x axis: radius `3` at `x = 0`, radius `1/2` at `x = 1`, radius `1` at
`x = 3`. -/
def unequalHeap : Ptr → RigidBody2D
  | 0 => ⟨⟨⟨0, 0⟩, 3, 1⟩, ⟨0, 0⟩⟩
  | 1 => ⟨⟨⟨1, 0⟩, 1 / 2, 2⟩, ⟨0, 0⟩⟩
  | _ => ⟨⟨⟨3, 0⟩, 1, 3⟩, ⟨0, 0⟩⟩

/-- Three balls of radius `0.3` on the x axis at `x = 0`, `x = 1/2` and `x = 3`. -/
def equalHeap : Ptr → RigidBody2D
  | 0 => ⟨⟨⟨0, 0⟩, 3 / 10, 1⟩, ⟨0, 0⟩⟩
  | 1 => ⟨⟨⟨1 / 2, 0⟩, 3 / 10, 2⟩, ⟨0, 0⟩⟩
  | _ => ⟨⟨⟨3, 0⟩, 3 / 10, 3⟩, ⟨0, 0⟩⟩

/-- The six pocket objects that `Game::init` creates (line 394), with the mesh handles
`8, ..., 13`. -/
def sixPockets : List PhysicBody2D :=
  List.zipWith (fun p m => ⟨p, Params.pocketRadius, m⟩) Params.pocketsPositions [8, 9, 10, 11, 12, 13]

/-- Seven live balls of radius `0.3` at rest; ball `0` is centred on the pocket `(0, -4)`, ball
`p > 0` is at `(p, 0)`. -/
def sevenBallGame : Game :=
  { toShot := Shot.init
    table := ⟨[1, 2, 3, 4, 5, 6, 7], [8, 9, 10, 11, 12, 13]⟩
    playerBall := 0
    ballsObjects := [0, 1, 2, 3, 4, 5, 6]
    pocketObjects := sixPockets
    heap := fun p =>
      if p = 0 then ⟨⟨⟨0, -4⟩, Params.radius, 1⟩, ⟨0, 0⟩⟩
      else ⟨⟨⟨p, 0⟩, Params.radius, p + 1⟩, ⟨0, 0⟩⟩
    destroyed := [] }

/-- Three live balls of radius `0.3` at rest: ball `0` at `(0, 3.5)`, which overlaps the pocket
`(0, 4)`, ball `1` at `(1, 0)` and ball `2` at `(3, 0)`. -/
def threeBallGame : Game :=
  { toShot := Shot.init
    table := ⟨[1, 2, 3, 0, 0, 0, 0], [8, 9, 10, 11, 12, 13]⟩
    playerBall := 0
    ballsObjects := [0, 1, 2]
    pocketObjects := sixPockets
    heap := fun p =>
      if p = 0 then ⟨⟨⟨0, 7 / 2⟩, Params.radius, 1⟩, ⟨0, 0⟩⟩
      else if p = 1 then ⟨⟨⟨1, 0⟩, Params.radius, 2⟩, ⟨0, 0⟩⟩
      else ⟨⟨⟨3, 0⟩, Params.radius, 3⟩, ⟨0, 0⟩⟩
    destroyed := [] }

/-- The player ball at its initial position `(-4.5, 0)` after a press and two updates with
`dt = 0.5`. -/
def chargedGame : Game :=
  { toShot := Shot.init.run [.pressed 0 0, .tick (1 / 2), .tick (1 / 2)]
    table := ⟨[1, 0, 0, 0, 0, 0, 0], [8, 9, 10, 11, 12, 13]⟩
    playerBall := 0
    ballsObjects := [0]
    pocketObjects := sixPockets
    heap := fun _ => ⟨⟨⟨-(9 / 2), 0⟩, Params.radius, 1⟩, ⟨0, 0⟩⟩
    destroyed := [] }

/-- One ball at its initial position while a shot is charged: `isChargingShot` is set and
`shotChargeProgress` is `1/2` (a press and one update with `dt = 0.5`). -/
def halfChargedGame : Game :=
  { toShot := Shot.init.run [.pressed 0 0, .tick (1 / 2)]
    table := ⟨[1, 0, 0, 0, 0, 0, 0], [8, 9, 10, 11, 12, 13]⟩
    playerBall := 0
    ballsObjects := [0]
    pocketObjects := sixPockets
    heap := fun _ => ⟨⟨⟨-(9 / 2), 0⟩, Params.radius, 1⟩, ⟨0, 0⟩⟩
    destroyed := [] }

/-- The player ball at its initial position after a press, an update with `dt = 0.5` and a
release: the controller is idle again. -/
def releasedGame : Game :=
  { toShot := Shot.init.run [.pressed 0 0, .tick (1 / 2), .released 1 1]
    table := ⟨[1, 0, 0, 0, 0, 0, 0], [8, 9, 10, 11, 12, 13]⟩
    playerBall := 0
    ballsObjects := [0]
    pocketObjects := sixPockets
    heap := fun _ => ⟨⟨⟨-(9 / 2), 0⟩, Params.radius, 1⟩, ⟨0, 0⟩⟩
    destroyed := [] }

def lastBallGame : Game :=
  { toShot := Shot.init
    table := ⟨[1, 0, 0, 0, 0, 0, 0], [8, 9, 10, 11, 12, 13]⟩
    playerBall := 0
    ballsObjects := [0]
    pocketObjects := sixPockets
    heap := fun _ => ⟨⟨⟨0, 7 / 2⟩, Params.radius, 1⟩, ⟨0, 0⟩⟩
    destroyed := [] }

/-- A ball of radius `0.3f` at `(0, -3.7f)` with the velocity `(0, 1e-6f)`. -/
def absorbedBall : RigidBody2D :=
  ⟨⟨⟨0, f32 (-(37 / 10))⟩, f32 (3 / 10), 1⟩, ⟨0, f32 (1 / 1000000)⟩⟩

/-- Three balls of radius `0.3f` at rest on the x axis, at `x = -1.098f`, `x = -0.498f` and
`x = 0`. -/
def grazingHeap : Ptr → RigidBody2D
  | 0 => ⟨⟨⟨f32 (-(1098 / 1000)), 0⟩, f32 (3 / 10), 1⟩, ⟨0, 0⟩⟩
  | 1 => ⟨⟨⟨f32 (-(498 / 1000)), 0⟩, f32 (3 / 10), 2⟩, ⟨0, 0⟩⟩
  | _ => ⟨⟨⟨0, 0⟩, f32 (3 / 10), 3⟩, ⟨0, 0⟩⟩

/-! ## Lemmas -/

open Game

theorem Vector2.eq_iff (a b : Vector2) : a = b ↔ a.x = b.x ∧ a.y = b.y := by
  cases a; cases b; simp

theorem isSqrt_sqrtQ : IsSqrt sqrtQ := by
  constructor
  · intro q hq
    simp [sqrtQ, Rat.sqrt_eq, abs_of_nonneg hq]
  · intro a s has
    unfold sqrtQ
    split_ifs with h
    · have h0 := Rat.sqrt_nonneg s
      have h2 : |a| * |a| = a * a := abs_mul_abs_self a
      by_contra hc
      push_neg at hc
      nlinarith [abs_nonneg a]
    · have h1 : |a| * |a| = a * a := abs_mul_abs_self a
      nlinarith [sq_nonneg (|a| - 1)]

theorem cround_natCast (n : ℕ) : cround (n : ℚ) = n := by
  have h : (0 : ℚ) ≤ n := Nat.cast_nonneg n
  simp only [cround, h, if_true]
  have : ⌊(n : ℚ) + 1 / 2⌋ = (n : ℤ) := by
    rw [Int.floor_eq_iff]
    constructor <;> push_cast <;> linarith
  rw [this]; simp

theorem LengthPow2_sub_ne_zero {a b : Vector2} (h : a ≠ b) : (a.sub b).LengthPow2 ≠ 0 := by
  intro h0
  apply h
  simp only [Vector2.LengthPow2, Vector2.sub] at h0
  have hx : a.x - b.x = 0 := by nlinarith [sq_nonneg (a.x - b.x), sq_nonneg (a.y - b.y)]
  have hy : a.y - b.y = 0 := by nlinarith [sq_nonneg (a.x - b.x), sq_nonneg (a.y - b.y)]
  rw [Vector2.eq_iff]
  constructor <;> linarith

theorem UpdateVelocity_of_ne (rb1 rb2 : RigidBody2D) (hx : rb1.position ≠ rb2.position) :
    UpdateVelocity rb1 rb2 =
      some (rb1.velocity.sub ((rb1.position.sub rb2.position).smul
              ((rb1.velocity.sub rb2.velocity).Dot (rb1.position.sub rb2.position) /
                (rb1.position.sub rb2.position).LengthPow2)),
            rb2.velocity.sub ((rb2.position.sub rb1.position).smul
              ((rb2.velocity.sub rb1.velocity).Dot (rb2.position.sub rb1.position) /
                (rb2.position.sub rb1.position).LengthPow2))) := by
  have ha := LengthPow2_sub_ne_zero hx
  have hb := LengthPow2_sub_ne_zero (Ne.symm hx)
  simp [UpdateVelocity, fdiv, ha, hb]

theorem UpdateVelocity_of_eq (rb1 rb2 : RigidBody2D) (h : rb1.position = rb2.position) :
    UpdateVelocity rb1 rb2 = none := by
  simp [UpdateVelocity, fdiv, Vector2.sub, Vector2.LengthPow2, h]

theorem Shot.run_invariant (events : List Shot.Event) (s : Shot) (h : Shot.NonnegTicks events)
    (h0 : 0 ≤ s.shotChargeProgress) (h1 : s.shotChargeProgress ≤ 1) :
    0 ≤ (s.run events).shotChargeProgress ∧ (s.run events).shotChargeProgress ≤ 1 := by
  induction events generalizing s with
  | nil => exact ⟨h0, h1⟩
  | cons e es ih =>
    have hes : Shot.NonnegTicks es := fun dt hdt => h dt (List.mem_cons_of_mem _ hdt)
    show 0 ≤ ((s.step e).run es).shotChargeProgress ∧ ((s.step e).run es).shotChargeProgress ≤ 1
    apply ih _ hes
    · cases e with
      | pressed x y => exact h0
      | released x y => simp [Shot.step, Shot.mouseButtonReleased]
      | tick dt =>
        have hdt : 0 ≤ dt := h dt (List.mem_cons_self _ _)
        simp only [Shot.step, Shot.update, Params.chargeTime, div_one]
        split_ifs
        · exact le_min (add_nonneg h0 hdt) zero_le_one
        · exact h0
    · cases e with
      | pressed x y => exact h1
      | released x y => simp [Shot.step, Shot.mouseButtonReleased]
      | tick dt =>
        simp only [Shot.step, Shot.update]
        split_ifs
        · exact min_le_right _ _
        · exact h1

theorem Shot.update_le_one (s : Shot) (dt : ℚ) (h1 : s.shotChargeProgress ≤ 1) :
    (s.update dt).shotChargeProgress ≤ 1 := by
  simp only [Shot.update]
  split_ifs
  · exact min_le_right _ _
  · exact h1

theorem DirectionTo_right (sqrt : ℚ → ℚ) (hs : IsSqrt sqrt) (p : Vector2) (d : ℚ) (hd : 0 < d) :
    p.DirectionTo sqrt ⟨p.x + d, p.y⟩ = some ⟨1, 0⟩ := by
  have hdist : Vector2.DistanceTo sqrt p ⟨p.x + d, p.y⟩ = d := by
    unfold Vector2.DistanceTo
    have : (p.x - (p.x + d)) ^ 2 + (p.y - p.y) ^ 2 = d * d := by ring
    rw [this]
    exact hs.sqrt_mul_self d hd.le
  have hd0 : d ≠ 0 := ne_of_gt hd
  simp [Vector2.DirectionTo, hdist, fdiv, hd0]

theorem Normalized_unit_x (sqrt : ℚ → ℚ) (hs : IsSqrt sqrt) :
    Vector2.Normalized sqrt ⟨1, 0⟩ = ⟨1, 0⟩ := by
  have hlen : Vector2.Length sqrt ⟨1, 0⟩ = 1 := by
    unfold Vector2.Length
    have : ((1 : ℚ)) ^ 2 + (0 : ℚ) ^ 2 = 1 * 1 := by norm_num
    simp only [this]
    exact hs.sqrt_mul_self 1 zero_le_one
  have h1000 : cround 1000 = 1000 := by exact_mod_cast cround_natCast 1000
  have h0 : cround 0 = 0 := by exact_mod_cast cround_natCast 0
  simp [Vector2.Normalized, hlen, h1000, h0]

theorem CheckCollision_abs_le (sqrt : ℚ → ℚ) (hs : IsSqrt sqrt) (a b : PhysicBody2D)
    (h : a.CheckCollision sqrt b = true) :
    |a.position.x - b.position.x| ≤ a.radius + b.radius ∧
      |a.position.y - b.position.y| ≤ a.radius + b.radius := by
  simp only [PhysicBody2D.CheckCollision, Vector2.DistanceTo, decide_eq_true_eq] at h
  constructor
  · exact le_trans (hs.abs_le_sqrt _ _ (by nlinarith [sq_nonneg (a.position.y - b.position.y)])) h
  · exact le_trans (hs.abs_le_sqrt _ _ (by nlinarith [sq_nonneg (a.position.x - b.position.x)])) h

theorem pocketsPositions_nodup : Params.pocketsPositions.Nodup := by
  simp [Params.pocketsPositions, Params.width, Params.height, Vector2.eq_iff]
  norm_num

theorem pocket_unique (c P Q : Vector2) (hP : P ∈ Params.pocketsPositions)
    (hQ : Q ∈ Params.pocketsPositions)
    (hPx : |c.x - P.x| ≤ 7 / 10) (hPy : |c.y - P.y| ≤ 7 / 10)
    (hQx : |c.x - Q.x| ≤ 7 / 10) (hQy : |c.y - Q.y| ≤ 7 / 10) : P = Q := by
  rw [abs_le] at hPx hPy hQx hQy
  simp only [Params.pocketsPositions, Params.width, Params.height, List.mem_cons,
    List.mem_singleton, List.not_mem_nil, or_false] at hP hQ
  rcases hP with rfl | rfl | rfl | rfl | rfl | rfl <;>
    rcases hQ with rfl | rfl | rfl | rfl | rfl | rfl <;>
    first
      | rfl
      | (exfalso; simp only at hPx hPy hQx hQy; linarith [hPx.1, hPx.2, hPy.1, hPy.2, hQx.1, hQx.2, hQy.1, hQy.2])

theorem handlePocket_heap (sqrt : ℚ → ℚ) (ball : Ptr) (g : Game) (p : PhysicBody2D) :
    (handlePocket sqrt ball g p).heap = g.heap := by
  unfold handlePocket; split_ifs <;> rfl

theorem foldl_handlePocket_heap (sqrt : ℚ → ℚ) (ball : Ptr) (ps : List PhysicBody2D) (g : Game) :
    (ps.foldl (handlePocket sqrt ball) g).heap = g.heap := by
  induction ps generalizing g with
  | nil => rfl
  | cons p ps ih => rw [List.foldl_cons, ih, handlePocket_heap]

theorem foldl_handlePocket_of_no_hit (sqrt : ℚ → ℚ) (ball : Ptr) (ps : List PhysicBody2D)
    (g : Game)
    (h : ∀ p ∈ ps, (g.heap ball).toPhysicBody2D.CheckCollision sqrt p = false) :
    ps.foldl (handlePocket sqrt ball) g = g := by
  induction ps with
  | nil => rfl
  | cons p ps ih =>
    have hp := h p (List.mem_cons_self _ _)
    have : handlePocket sqrt ball g p = g := by simp [handlePocket, hp]
    rw [List.foldl_cons, this]
    exact ih (fun q hq => h q (List.mem_cons_of_mem _ hq))

theorem pushBackAt_append_length (done : List (List Ptr)) (cur : List Ptr) (p : Ptr) :
    pushBackAt (done ++ [cur]) done.length p = done ++ [cur ++ [p]] := by
  induction done with
  | nil => rfl
  | cons d ds ih => simp [pushBackAt, ih]

theorem foldl_sweepStep_active (heap : Ptr → RigidBody2D) (rest : List Ptr) (s : Sweep)
    (done : List (List Ptr)) (cur : List Ptr)
    (hact : s.active = done ++ [cur]) (hit : s.globalIt = done.length) :
    (rest.foldl (sweepStep heap) s).active = done ++ clusters heap s.stop cur rest := by
  induction rest generalizing s done cur with
  | nil => simpa [clusters] using hact
  | cons p rest ih =>
    rw [List.foldl_cons]
    by_cases hj : (heap p).position.x - (heap p).radius ≤ s.stop
    · rw [ih (sweepStep heap s p) done (cur ++ [p])]
      · simp [sweepStep, clusters, hj]
      · simp [sweepStep, hj, hact, hit, pushBackAt_append_length]
      · simp [sweepStep, hj, hit]
    · rw [ih (sweepStep heap s p) (done ++ [cur]) [p]]
      · simp [sweepStep, clusters, hj]
      · simp [sweepStep, hj, hact]
      · simp [sweepStep, hj, hit]

theorem broadPhase_cons (heap : Ptr → RigidBody2D) (p : Ptr) (rest : List Ptr) :
    broadPhase heap (p :: rest) =
      some (clusters heap ((heap p).position.x + (heap p).radius) [p] rest) := by
  show some _ = some _
  rw [foldl_sweepStep_active heap rest _ [] [p] rfl rfl]
  simp

theorem mem_pairs_cons (a b c : Ptr) (l : List Ptr) :
    (a, b) ∈ pairs (c :: l) ↔ (a = c ∧ b ∈ l) ∨ (a, b) ∈ pairs l := by
  simp only [pairs, List.mem_append, List.mem_map, Prod.mk.injEq]
  constructor
  · rintro (⟨x, hx, rfl, rfl⟩ | h)
    · exact Or.inl ⟨rfl, hx⟩
    · exact Or.inr h
  · rintro (⟨rfl, hb⟩ | h)
    · exact Or.inl ⟨b, hb, rfl, rfl⟩
    · exact Or.inr h

theorem mem_pairs_append (a b : Ptr) (l₁ l₂ : List Ptr) :
    (a, b) ∈ pairs (l₁ ++ l₂) ↔
      (a, b) ∈ pairs l₁ ∨ (a ∈ l₁ ∧ b ∈ l₂) ∨ (a, b) ∈ pairs l₂ := by
  induction l₁ with
  | nil => simp [pairs]
  | cons c l ih =>
    rw [List.cons_append, mem_pairs_cons, mem_pairs_cons, ih]
    simp only [List.mem_append, List.mem_cons]
    tauto

theorem mem_of_mem_pairs {a b : Ptr} {l : List Ptr} (h : (a, b) ∈ pairs l) : a ∈ l ∧ b ∈ l := by
  induction l with
  | nil => simp [pairs] at h
  | cons c l ih =>
    rw [mem_pairs_cons] at h
    rcases h with ⟨rfl, hb⟩ | h
    · exact ⟨List.mem_cons_self _ _, List.mem_cons_of_mem _ hb⟩
    · exact ⟨List.mem_cons_of_mem _ (ih h).1, List.mem_cons_of_mem _ (ih h).2⟩

theorem pairs_perm {l₁ l₂ : List Ptr} (h : l₁.Perm l₂) (a b : Ptr) :
    ((a, b) ∈ pairs l₁ ∨ (b, a) ∈ pairs l₁) ↔ ((a, b) ∈ pairs l₂ ∨ (b, a) ∈ pairs l₂) := by
  induction h with
  | nil => rfl
  | cons x hp ih =>
    simp only [mem_pairs_cons, hp.mem_iff]
    tauto
  | swap x y l =>
    simp only [mem_pairs_cons, List.mem_cons]
    tauto
  | trans _ _ ih₁ ih₂ => exact ih₁.trans ih₂

theorem pairs_clusters_subset (heap : Ptr → RigidBody2D) (rest : List Ptr) (stop : ℚ)
    (cur : List Ptr) (c : List Ptr) (hc : c ∈ clusters heap stop cur rest) (a b : Ptr)
    (hab : (a, b) ∈ pairs c) : (a, b) ∈ pairs (cur ++ rest) := by
  induction rest generalizing stop cur with
  | nil =>
    simp only [clusters, List.mem_singleton] at hc
    subst hc
    simpa using hab
  | cons p rest ih =>
    unfold clusters at hc
    split_ifs at hc with hj
    · have := ih _ _ hc
      simpa using this
    · rcases List.mem_cons.1 hc with rfl | hc
      · exact (mem_pairs_append a b _ _).2 (Or.inl hab)
      · have := ih _ _ hc
        exact (mem_pairs_append a b _ _).2 (Or.inr (Or.inr this))

theorem pairs_clusters_of_close (heap : Ptr → RigidBody2D) (r : ℚ) (rest : List Ptr) (stop : ℚ)
    (cur : List Ptr)
    (hinv : ∀ a ∈ cur, (heap a).position.x + r ≤ stop)
    (hsorted : (cur ++ rest).Pairwise (fun a b => (heap a).position.x ≤ (heap b).position.x))
    (hrad : ∀ a ∈ rest, (heap a).radius = r)
    (a b : Ptr) (hab : (a, b) ∈ pairs (cur ++ rest))
    (hclose : (heap b).position.x - r ≤ (heap a).position.x + r) :
    ∃ c ∈ clusters heap stop cur rest, (a, b) ∈ pairs c := by
  induction rest generalizing stop cur with
  | nil => exact ⟨cur, by simp [clusters], by simpa using hab⟩
  | cons p rest ih =>
    have hp : (heap p).radius = r := hrad p (List.mem_cons_self _ _)
    have hrad2 : ∀ a ∈ rest, (heap a).radius = r := fun a ha => hrad a (List.mem_cons_of_mem _ ha)
    unfold clusters
    rw [hp]
    split_ifs with hj
    · apply ih
      · intro c hc
        rcases List.mem_append.1 hc with hc | hc
        · have := (List.pairwise_append.1 hsorted).2.2 c hc p (List.mem_cons_self _ _)
          linarith
        · rw [List.mem_singleton.1 hc]
      · simpa using hsorted
      · exact hrad2
      · simpa using hab
    · rcases (mem_pairs_append a b _ _).1 hab with h | ⟨ha, hb⟩ | h
      · exact ⟨cur, List.mem_cons_self _ _, h⟩
      · exfalso
        apply hj
        have h1 := hinv a ha
        have h2 : (heap p).position.x ≤ (heap b).position.x := by
          rcases List.mem_cons.1 hb with rfl | hb
          · exact le_refl _
          · exact List.rel_of_pairwise_cons (List.pairwise_append.1 hsorted).2.1 hb
        linarith
      · have hs2 : ([p] ++ rest).Pairwise
            (fun a b => (heap a).position.x ≤ (heap b).position.x) :=
          (List.pairwise_append.1 hsorted).2.1
        obtain ⟨c, hc, hcab⟩ := ih ((heap p).position.x + r) [p]
          (by intro c hc; rw [List.mem_singleton.1 hc]) hs2 hrad2 (by simpa using h)
        exact ⟨c, List.mem_cons_of_mem _ hc, hcab⟩

theorem mem_narrowPhase (sqrt : ℚ → ℚ) (heap : Ptr → RigidBody2D) (active : List (List Ptr))
    (ab : Ptr × Ptr) :
    ab ∈ narrowPhase sqrt heap active ↔
      ∃ c ∈ active, ab ∈ pairs c ∧ overlap sqrt heap ab = true := by
  induction active with
  | nil => simp [narrowPhase]
  | cons act rest ih =>
    simp only [narrowPhase, List.mem_append, List.mem_filter, ih, List.mem_cons]
    constructor
    · rintro (h | ⟨c, hc, h⟩)
      · exact ⟨act, Or.inl rfl, h⟩
      · exact ⟨c, Or.inr hc, h⟩
    · rintro ⟨c, rfl | hc, h⟩
      · exact Or.inl h
      · exact Or.inr ⟨c, hc, h⟩

theorem overlap_symm (sqrt : ℚ → ℚ) (heap : Ptr → RigidBody2D) (a b : Ptr) :
    overlap sqrt heap (a, b) = overlap sqrt heap (b, a) := by
  simp only [overlap, PhysicBody2D.CheckCollision, Vector2.DistanceTo]
  have e : ((heap a).position.x - (heap b).position.x) ^ 2 +
      ((heap a).position.y - (heap b).position.y) ^ 2 =
      ((heap b).position.x - (heap a).position.x) ^ 2 +
      ((heap b).position.y - (heap a).position.y) ^ 2 := by ring
  simp only [e, add_comm (heap a).radius]

theorem isSortOf_pairwise_le {heap : Ptr → RigidBody2D} {balls snp : List Ptr}
    (h : IsSortOf heap balls snp) :
    snp.Pairwise (fun a b => (heap a).position.x ≤ (heap b).position.x) := by
  refine h.2.imp ?_
  intro a b hab
  simpa [CompareByX] using hab

theorem isSortOf_sortSnp (heap : Ptr → RigidBody2D) (balls : List Ptr) :
    IsSortOf heap balls (sortSnp heap balls) := by
  haveI : IsTotal Ptr (fun a b => CompareByX heap b a = false) :=
    ⟨fun a b => by simp only [CompareByX, decide_eq_false_iff_not, not_lt]; exact le_total _ _⟩
  haveI : IsTrans Ptr (fun a b => CompareByX heap b a = false) :=
    ⟨fun a b c => by
      simp only [CompareByX, decide_eq_false_iff_not, not_lt]; exact fun h1 h2 => le_trans h1 h2⟩
  exact ⟨List.perm_insertionSort _ _, List.sorted_insertionSort _ _⟩

theorem HandlePocketCollision_of_hit (sqrt : ℚ → ℚ) (hs : IsSqrt sqrt) (g : Game) (ball : Ptr)
    (hpos : g.pocketObjects.map (fun p => p.position) = Params.pocketsPositions)
    (hrad : ∀ p ∈ g.pocketObjects, p.radius = Params.pocketRadius)
    (hball : (g.heap ball).radius = Params.radius)
    (hhit : ∃ p ∈ g.pocketObjects, (g.heap ball).toPhysicBody2D.CheckCollision sqrt p = true) :
    HandlePocketCollision sqrt g ball =
      { g with
        table := g.table.removeBall (g.heap ball).mesh
        destroyed := g.destroyed ++ [(g.heap ball).mesh]
        ballsObjects := g.ballsObjects.filter (fun q => q ≠ ball) } := by
  obtain ⟨p, hp, hphit⟩ := hhit
  obtain ⟨s, t, hst⟩ := List.append_of_mem hp
  have hothers : ∀ q ∈ s ++ t, (g.heap ball).toPhysicBody2D.CheckCollision sqrt q = false := by
    intro q hq
    by_contra hc
    rw [Bool.not_eq_false] at hc
    have hqmem : q ∈ g.pocketObjects := by
      rw [hst]; rcases List.mem_append.1 hq with h | h
      · exact List.mem_append_left _ h
      · exact List.mem_append_right _ (List.mem_cons_of_mem _ h)
    have hP := CheckCollision_abs_le sqrt hs _ _ hphit
    have hQ := CheckCollision_abs_le sqrt hs _ _ hc
    rw [hball, hrad p hp] at hP
    rw [hball, hrad q hqmem] at hQ
    have e : Params.radius + Params.pocketRadius = 7 / 10 := by
      norm_num [Params.radius, Params.pocketRadius]
    rw [e] at hP hQ
    have hPm : p.position ∈ Params.pocketsPositions := by
      rw [← hpos]; exact List.mem_map_of_mem _ hp
    have hQm : q.position ∈ Params.pocketsPositions := by
      rw [← hpos]; exact List.mem_map_of_mem _ hqmem
    have heq := pocket_unique _ _ _ hPm hQm hP.1 hP.2 hQ.1 hQ.2
    have hnodup := pocketsPositions_nodup
    rw [← hpos, hst, List.map_append, List.map_cons] at hnodup
    rw [List.nodup_append] at hnodup
    obtain ⟨_, h2, h3⟩ := hnodup
    rcases List.mem_append.1 hq with h | h
    · exact h3 (List.mem_map_of_mem _ h) (by rw [← heq]; exact List.mem_cons_self _ _)
    · rw [List.nodup_cons] at h2
      exact h2.1 (by rw [heq]; exact List.mem_map_of_mem _ h)
  have hfold : HandlePocketCollision sqrt g ball = handlePocket sqrt ball g p := by
    unfold HandlePocketCollision
    rw [hst, List.foldl_append, List.foldl_cons, foldl_handlePocket_of_no_hit sqrt ball s g
      (fun q hq => hothers q (List.mem_append_left _ hq))]
    apply foldl_handlePocket_of_no_hit
    rw [handlePocket_heap]
    exact fun q hq => hothers q (List.mem_append_right _ hq)
  rw [hfold]
  simp [handlePocket, hphit]

theorem CheckCollision_of_far (sqrt : ℚ → ℚ) (hs : IsSqrt sqrt) (a b : PhysicBody2D)
    (h : a.radius + b.radius < a.position.x - b.position.x ∨
      a.radius + b.radius < b.position.x - a.position.x ∨
      a.radius + b.radius < a.position.y - b.position.y ∨
      a.radius + b.radius < b.position.y - a.position.y) :
    a.CheckCollision sqrt b = false := by
  by_contra hc
  rw [Bool.not_eq_false] at hc
  have h2 := CheckCollision_abs_le sqrt hs a b hc
  have hx := abs_le.1 h2.1
  have hy := abs_le.1 h2.2
  rcases h with h | h | h | h <;> linarith [hx.1, hx.2, hy.1, hy.2]

theorem sixPockets_position : sixPockets.map (fun p => p.position) = Params.pocketsPositions := rfl

theorem sixPockets_radius : ∀ p ∈ sixPockets, p.radius = Params.pocketRadius := by
  intro p hp
  simp only [sixPockets, Params.pocketsPositions, List.zipWith, List.mem_cons, List.mem_singleton,
    List.not_mem_nil, or_false] at hp
  rcases hp with rfl | rfl | rfl | rfl | rfl | rfl <;> rfl

theorem sqrtQ_zero : sqrtQ 0 = 0 := by
  simpa using isSqrt_sqrtQ.sqrt_mul_self 0 le_rfl

theorem HandlePocketCollision_of_far (sqrt : ℚ → ℚ) (hs : IsSqrt sqrt) (g : Game) (ball : Ptr)
    (h : ∀ p ∈ g.pocketObjects,
      (g.heap ball).radius + p.radius < (g.heap ball).position.x - p.position.x ∨
      (g.heap ball).radius + p.radius < p.position.x - (g.heap ball).position.x ∨
      (g.heap ball).radius + p.radius < (g.heap ball).position.y - p.position.y ∨
      (g.heap ball).radius + p.radius < p.position.y - (g.heap ball).position.y) :
    HandlePocketCollision sqrt g ball = g :=
  foldl_handlePocket_of_no_hit sqrt ball _ g
    (fun p hp => CheckCollision_of_far sqrt hs _ p (h p hp))

theorem sqrtQ_quarter : sqrtQ (1 / 4) = 1 / 2 := by
  have := isSqrt_sqrtQ.sqrt_mul_self (1 / 2) (by norm_num)
  norm_num at this
  simpa using this

theorem ballLoopStep_of_unmoved (sqrt : ℚ → ℚ) (dt : ℚ) (s : LoopState) (i : ℕ) (ball : Ptr)
    (hget : s.storage.get? i = some ball)
    (hU : (s.game.heap ball).Update dt =
      ⟨(s.game.heap ball).velocity, some (s.game.heap ball).position⟩) :
    ballLoopStep sqrt dt (some s) i =
      some { game := HandlePocketCollision sqrt s.game ball
             storage := (HandlePocketCollision sqrt s.game ball).ballsObjects ++
               s.storage.drop (HandlePocketCollision sqrt s.game ball).ballsObjects.length
             visited := s.visited ++ [ball] } := by
  have hmoved : ({ s.game.heap ball with
      position := (s.game.heap ball).position, velocity := (s.game.heap ball).velocity } :
      RigidBody2D) = s.game.heap ball := rfl
  have hgame : ({ s.game with heap := Function.update s.game.heap ball (s.game.heap ball) } : Game)
      = s.game := by
    rw [Function.update_eq_self]
  simp only [ballLoopStep, hget, hU, hmoved, hgame]

theorem sqrtQ_of_sq (q : ℚ) (hq : 0 ≤ q) (s : ℚ) (h : s = q * q) : sqrtQ s = q := by
  rw [h]; exact isSqrt_sqrtQ.sqrt_mul_self q hq

theorem isSortOf_unequal : IsSortOf unequalHeap [0, 1, 2] [0, 1, 2] := by
  refine ⟨List.Perm.refl _, ?_⟩
  simp [CompareByX, unequalHeap]

theorem isSortOf_equal : IsSortOf equalHeap [2, 0, 1] [0, 1, 2] := by
  refine ⟨by decide, ?_⟩
  simp [CompareByX, equalHeap]
  norm_num

theorem box_three : RigidBody2D.box 3 = -(Params.height / 2) := by simp [RigidBody2D.box]; ring

theorem box_one : RigidBody2D.box 1 = Params.height / 2 := by simp [RigidBody2D.box]; ring

theorem box_zero : RigidBody2D.box 0 = -(Params.width / 2) := by simp [RigidBody2D.box]; ring

theorem box_two : RigidBody2D.box 2 = Params.width / 2 := by simp [RigidBody2D.box]; ring

theorem Update_of_wall (b : RigidBody2D) (deltaTime : ℚ) (w : Wall)
    (hw : b.wall deltaTime = some w) :
    (b.Update deltaTime).position =
      (b.collisionPoint deltaTime w).map (RigidBody2D.reposition (b.GetNextFramePos deltaTime) w) := by
  unfold RigidBody2D.wall at hw
  unfold RigidBody2D.Update
  simp only at hw ⊢
  split_ifs at hw ⊢ with h3 h1 h0 h2
  all_goals
    simp only [Option.some.injEq] at hw
    subst hw
    simp only [RigidBody2D.Move, RigidBody2D.collisionPoint, RigidBody2D.collideTime,
      RigidBody2D.divisor, Option.map_map]
    rfl

theorem Update_of_no_wall (b : RigidBody2D) (deltaTime : ℚ) (hw : b.wall deltaTime = none) :
    (b.Update deltaTime).position = some (b.GetNextFramePos deltaTime) := by
  unfold RigidBody2D.wall at hw
  unfold RigidBody2D.Update
  simp only at hw ⊢
  split_ifs at hw ⊢ with h3 h1 h0 h2
  simp [RigidBody2D.Move]

theorem Lerp_fdiv (p q L : ℚ) (h : p - q ≠ 0) : Lerp p q ((L - q) / (p - q)) = L := by
  unfold Lerp
  field_simp
  ring

theorem collisionPoint_axisCoord (b : RigidBody2D) (deltaTime : ℚ) (w : Wall)
    (h : b.divisor deltaTime w ≠ 0) :
    ∃ cp, b.collisionPoint deltaTime w = some cp ∧
      RigidBody2D.axisCoord w cp =
        match w with
        | Wall.bottom => RigidBody2D.box 3 + b.radius
        | Wall.top => RigidBody2D.box 1 + b.radius
        | Wall.left => RigidBody2D.box 3 + b.radius
        | Wall.right => RigidBody2D.box 1 + b.radius := by
  cases w <;>
    simp only [RigidBody2D.divisor] at h <;>
    simp only [RigidBody2D.collisionPoint, RigidBody2D.collideTime, RigidBody2D.divisor, fdiv, h,
      if_false, Option.map_some', RigidBody2D.axisCoord, LerpV] <;>
    exact ⟨_, rfl, Lerp_fdiv _ _ _ h⟩

theorem wall_bottom (b : RigidBody2D) (deltaTime : ℚ)
    (h : (b.GetNextFramePos deltaTime).y - b.radius ≤ -(Params.height / 2)) :
    b.wall deltaTime = some Wall.bottom := by
  simp [RigidBody2D.wall, box_three, h]

theorem Shot.run_idle (events : List Shot.Event) (s : Shot)
    (h : s.isChargingShot = false → s.shotChargeProgress = 0) :
    (s.run events).isChargingShot = false → (s.run events).shotChargeProgress = 0 := by
  induction events generalizing s with
  | nil => exact h
  | cons e es ih =>
    show ((s.step e).run es).isChargingShot = false → ((s.step e).run es).shotChargeProgress = 0
    apply ih
    cases e with
    | pressed x y => simp [Shot.step, Shot.mouseButtonPressed]
    | released x y => simp [Shot.step, Shot.mouseButtonReleased]
    | tick dt =>
      simp only [Shot.step, Shot.update]
      split_ifs with hc
      · intro hf; simp [hc] at hf
      · exact h

theorem DistanceTo_pos (sqrt : ℚ → ℚ) (hs : IsSqrt sqrt) (a b : Vector2) (h : a ≠ b) :
    0 < Vector2.DistanceTo sqrt a b := by
  unfold Vector2.DistanceTo
  by_cases hx : a.x = b.x
  · have hy : a.y ≠ b.y := fun hy => h ((Vector2.eq_iff a b).2 ⟨hx, hy⟩)
    have := hs.abs_le_sqrt (a.y - b.y) ((a.x - b.x) ^ 2 + (a.y - b.y) ^ 2)
      (by nlinarith [sq_nonneg (a.x - b.x)])
    exact lt_of_lt_of_le (abs_pos.2 (sub_ne_zero.2 hy)) this
  · have := hs.abs_le_sqrt (a.x - b.x) ((a.x - b.x) ^ 2 + (a.y - b.y) ^ 2)
      (by nlinarith [sq_nonneg (a.y - b.y)])
    exact lt_of_lt_of_le (abs_pos.2 (sub_ne_zero.2 hx)) this

theorem DirectionTo_of_ne (sqrt : ℚ → ℚ) (hs : IsSqrt sqrt) (a b : Vector2) (h : a ≠ b) :
    a.DirectionTo sqrt b =
      some ⟨(b.x - a.x) / Vector2.DistanceTo sqrt a b, (b.y - a.y) / Vector2.DistanceTo sqrt a b⟩ := by
  have hd := ne_of_gt (DistanceTo_pos sqrt hs a b h)
  simp [Vector2.DirectionTo, fdiv, hd]

theorem sqrt_zero_of_isSqrt (sqrt : ℚ → ℚ) (hs : IsSqrt sqrt) : sqrt 0 = 0 := by
  simpa using hs.sqrt_mul_self 0 le_rfl

theorem DirectionTo_self (sqrt : ℚ → ℚ) (hs : IsSqrt sqrt) (a : Vector2) :
    a.DirectionTo sqrt a = none := by
  simp [Vector2.DirectionTo, Vector2.DistanceTo, fdiv, sqrt_zero_of_isSqrt sqrt hs]

theorem mouseButtonReleased_coincident (sqrt : ℚ → ℚ) (hs : IsSqrt sqrt) (g : Game) :
    g.mouseButtonReleased sqrt (g.heap g.playerBall).position.x (g.heap g.playerBall).position.y
      = none := by
  unfold Game.mouseButtonReleased
  have : (⟨(g.heap g.playerBall).position.x, (g.heap g.playerBall).position.y⟩ : Vector2)
      = (g.heap g.playerBall).position := rfl
  rw [this, DirectionTo_self sqrt hs]

theorem deinit_toShot (g : Game) : g.deinit.toShot = g.toShot := rfl

theorem init_toShot (g g' : Game) (pocketMesh ballMesh : ℕ → Mesh) (newBall : ℕ → Ptr)
    (h : g.init pocketMesh ballMesh newBall = some g') : g'.toShot = g.toShot := by
  unfold Game.init at h
  split at h
  · simp at h
  · simp only [Option.some.injEq] at h
    rw [← h]

theorem init_deinit_isSome (g : Game) (pocketMesh ballMesh : ℕ → Mesh) (newBall : ℕ → Ptr) :
    ∃ g', g.deinit.init pocketMesh ballMesh newBall = some g' := by
  have : g.deinit.table.init pocketMesh ballMesh =
      some { pockets := (List.range 6).map pocketMesh, balls := (List.range 7).map ballMesh } := by
    simp [Game.deinit, Table.init, Table.cleared]
  unfold Game.init
  rw [this]
  exact ⟨_, rfl⟩

theorem removeBallSlots_eq (l : List Mesh) (h : Mesh) :
    removeBallSlots l h = if h ∈ l then l.erase h ++ [0] else l := by
  induction l with
  | nil => simp [removeBallSlots]
  | cons b rest ih =>
    by_cases hb : b = h
    · subst hb
      simp [removeBallSlots]
    · have hb' : ¬ h = b := fun e => hb e.symm
      simp only [removeBallSlots, hb, if_false, ih, List.mem_cons, hb', false_or]
      split_ifs with hm
      · rw [List.erase_cons_tail (by simpa using hb)]
        rfl
      · rfl

theorem not_mem_erase_of_nodup_filter (l : List Mesh) (h : Mesh) (hh : h ≠ 0)
    (hnd : (l.filter (fun m => m ≠ 0)).Nodup) : h ∉ l.erase h := by
  induction l with
  | nil => simp
  | cons b rest ih =>
    by_cases hb : b = h
    · subst hb
      rw [List.erase_cons_head]
      simp only [List.filter_cons, hh, ne_eq, not_false_eq_true, decide_True, if_true,
        List.nodup_cons, List.mem_filter] at hnd
      intro hmem
      exact hnd.1 ⟨hmem, by simp [hh]⟩
    · rw [List.erase_cons_tail (by simpa using hb)]
      have hnd' : (rest.filter (fun m => m ≠ 0)).Nodup := by
        rw [List.filter_cons] at hnd
        split_ifs at hnd
        · exact (List.nodup_cons.1 hnd).2
        · exact hnd
      intro hmem
      rcases List.mem_cons.1 hmem with e | e
      · exact hb e.symm
      · exact ih hnd' e

theorem clusters_flatten (heap : Ptr → RigidBody2D) (rest : List Ptr) (stop : ℚ) (cur : List Ptr) :
    (clusters heap stop cur rest).flatten = cur ++ rest := by
  induction rest generalizing stop cur with
  | nil => simp [clusters]
  | cons p rest ih =>
    unfold clusters
    split_ifs
    · rw [ih]; simp
    · rw [List.flatten_cons, ih]; simp

theorem clusters_ne_nil (heap : Ptr → RigidBody2D) (rest : List Ptr) (stop : ℚ) (cur : List Ptr)
    (hcur : cur ≠ []) : ∀ c ∈ clusters heap stop cur rest, c ≠ [] := by
  induction rest generalizing stop cur with
  | nil => intro c hc; simp only [clusters, List.mem_singleton] at hc; rw [hc]; exact hcur
  | cons p rest ih =>
    unfold clusters
    split_ifs
    · exact ih _ _ (by simp)
    · intro c hc
      rcases List.mem_cons.1 hc with rfl | hc
      · exact hcur
      · exact ih _ _ (by simp) c hc

theorem mem_of_mem_clusters (heap : Ptr → RigidBody2D) (rest : List Ptr) (stop : ℚ)
    (cur : List Ptr) (c : List Ptr) (hc : c ∈ clusters heap stop cur rest) (b : Ptr) (hb : b ∈ c) :
    b ∈ cur ++ rest := by
  rw [← clusters_flatten heap rest stop cur]
  exact List.mem_flatten.2 ⟨c, hc, hb⟩

theorem clusters_separated (heap : Ptr → RigidBody2D) (r : ℚ) (rest : List Ptr) (stop : ℚ)
    (cur : List Ptr)
    (hinv : ∀ a ∈ cur, (heap a).position.x + r ≤ stop)
    (hsorted : (cur ++ rest).Pairwise (fun a b => (heap a).position.x ≤ (heap b).position.x))
    (hrad : ∀ a ∈ rest, (heap a).radius = r) :
    (clusters heap stop cur rest).Pairwise
      (fun c₁ c₂ => ∀ a ∈ c₁, ∀ b ∈ c₂, (heap a).position.x + r < (heap b).position.x - r) := by
  induction rest generalizing stop cur with
  | nil => simp [clusters]
  | cons p rest ih =>
    have hp : (heap p).radius = r := hrad p (List.mem_cons_self _ _)
    have hrad2 : ∀ a ∈ rest, (heap a).radius = r := fun a ha => hrad a (List.mem_cons_of_mem _ ha)
    unfold clusters
    rw [hp]
    split_ifs with hj
    · apply ih
      · intro c hc
        rcases List.mem_append.1 hc with hc | hc
        · have := (List.pairwise_append.1 hsorted).2.2 c hc p (List.mem_cons_self _ _)
          linarith
        · rw [List.mem_singleton.1 hc]
      · simpa using hsorted
      · exact hrad2
    · have hs2 : ([p] ++ rest).Pairwise
          (fun a b => (heap a).position.x ≤ (heap b).position.x) :=
        (List.pairwise_append.1 hsorted).2.1
      rw [List.pairwise_cons]
      refine ⟨?_, ih _ [p] (by intro c hc; rw [List.mem_singleton.1 hc]) hs2 hrad2⟩
      intro c₂ hc₂ a ha b hb
      have hbmem : b ∈ [p] ++ rest := mem_of_mem_clusters heap rest _ [p] c₂ hc₂ b hb
      have hpb : (heap p).position.x ≤ (heap b).position.x := by
        rcases List.mem_append.1 hbmem with h | h
        · rw [List.mem_singleton.1 h]
        · exact List.rel_of_pairwise_cons hs2 h
      have := hinv a ha
      push_neg at hj
      linarith

theorem DistanceTo_gt_of_far (sqrt : ℚ → ℚ) (hs : IsSqrt sqrt) (a b : Vector2) (d : ℚ)
    (h : d < b.x - a.x) : d < Vector2.DistanceTo sqrt a b := by
  unfold Vector2.DistanceTo
  have := hs.abs_le_sqrt (a.x - b.x) ((a.x - b.x) ^ 2 + (a.y - b.y) ^ 2)
    (by nlinarith [sq_nonneg (a.y - b.y)])
  have h2 : b.x - a.x ≤ |a.x - b.x| := by rw [abs_sub_comm]; exact le_abs_self _
  linarith

theorem cround_isInt (q : ℚ) : ∃ n : ℤ, cround q = n := by
  unfold cround
  split_ifs
  · exact ⟨_, rfl⟩
  · exact ⟨_, rfl⟩

theorem cround_err (q : ℚ) : |cround q - q| ≤ 1 / 2 := by
  unfold cround
  rw [abs_le]
  split_ifs with h
  · have h1 := Int.floor_le (q + 1 / 2)
    have h2 := Int.lt_floor_add_one (q + 1 / 2)
    constructor <;> linarith
  · have h1 := Int.le_ceil (q - 1 / 2)
    have h2 := Int.ceil_lt_add_one (q - 1 / 2)
    constructor <;> linarith

/-! ### Rounding to binary32 -/

theorem rne_spec (q : ℚ) :
    |q - rne q| < 1 / 2 ∨ (|q - rne q| = 1 / 2 ∧ rne q % 2 = 0) := by
  have h0 : (⌊q⌋ : ℚ) ≤ q := Int.floor_le q
  have h1 : q < ⌊q⌋ + 1 := Int.lt_floor_add_one q
  unfold rne
  split_ifs with ha hb hc
  · left
    rw [abs_lt]; constructor <;> linarith
  · left
    push_cast
    rw [abs_lt]; constructor <;> linarith
  · right
    have : q - ⌊q⌋ = 1 / 2 := le_antisymm (not_lt.1 hb) (not_lt.1 ha)
    refine ⟨?_, hc⟩
    rw [this]; norm_num
  · right
    have : q - ⌊q⌋ = 1 / 2 := le_antisymm (not_lt.1 hb) (not_lt.1 ha)
    refine ⟨?_, by omega⟩
    push_cast
    have e : q - (⌊q⌋ + 1) = -(1 / 2) := by linarith
    rw [e]; norm_num

theorem rne_unique (q : ℚ) (n : ℤ)
    (h : |q - n| < 1 / 2 ∨ (|q - n| = 1 / 2 ∧ n % 2 = 0)) : rne q = n := by
  have hs := rne_spec q
  have hn : |q - n| ≤ 1 / 2 := by rcases h with h | h; exact le_of_lt h; exact le_of_eq h.1
  have hr : |q - rne q| ≤ 1 / 2 := by rcases hs with h | h; exact le_of_lt h; exact le_of_eq h.1
  have hd : |((rne q - n : ℤ) : ℚ)| ≤ 1 := by
    push_cast
    have : (rne q : ℚ) - n = (q - n) - (q - rne q) := by ring
    rw [this]
    calc |(q - n) - (q - rne q)| ≤ |q - n| + |q - rne q| := abs_sub _ _
      _ ≤ 1 := by linarith
  have hd2 : |rne q - n| ≤ 1 := by exact_mod_cast hd
  rw [abs_le] at hd2
  by_contra hne
  have hcase : rne q - n = 1 ∨ rne q - n = -1 := by omega
  have hsum : (1 : ℚ) ≤ |q - n| + |q - rne q| := by
    have : |((rne q - n : ℤ) : ℚ)| = 1 := by
      rcases hcase with h | h <;> rw [h] <;> norm_num
    push_cast at this
    have e : (rne q : ℚ) - n = (q - n) - (q - rne q) := by ring
    rw [e] at this
    calc (1 : ℚ) = |(q - n) - (q - rne q)| := this.symm
      _ ≤ |q - n| + |q - rne q| := abs_sub _ _
  have e1 : |q - n| = 1 / 2 := by linarith
  have e2 : |q - rne q| = 1 / 2 := by linarith
  have p1 : n % 2 = 0 := by
    rcases h with h | h
    · linarith
    · exact h.2
  have p2 : rne q % 2 = 0 := by
    rcases hs with h | h
    · linarith
    · exact h.2
  omega

theorem rne_err (q : ℚ) : |q - rne q| ≤ 1 / 2 := by
  rcases rne_spec q with h | h
  · exact le_of_lt h
  · exact le_of_eq h.1

theorem rne_intCast (n : ℤ) : rne (n : ℚ) = n :=
  rne_unique _ n (Or.inl (by simp))

theorem rne_neg (q : ℚ) : rne (-q) = -rne q := by
  apply rne_unique
  have e : -q - ((-rne q : ℤ) : ℚ) = -(q - rne q) := by push_cast; ring
  rw [e, abs_neg]
  rcases rne_spec q with h | h
  · exact Or.inl h
  · exact Or.inr ⟨h.1, by omega⟩

theorem rne_mono {a b : ℚ} (h : a ≤ b) : rne a ≤ rne b := by
  by_contra hlt
  push_neg at hlt
  have h1 : rne b + 1 ≤ rne a := hlt
  have h1q : (rne b : ℚ) + 1 ≤ rne a := by exact_mod_cast h1
  have ha := abs_le.1 (rne_err a)
  have hb := abs_le.1 (rne_err b)
  have eab : a = b := by linarith
  subst eab
  omega

theorem log_abs_spec (q : ℚ) (hq : q ≠ 0) :
    (2 : ℚ) ^ Int.log 2 |q| ≤ |q| ∧ |q| < 2 ^ (Int.log 2 |q| + 1) :=
  ⟨Int.zpow_log_le_self (by norm_num) (abs_pos.2 hq), Int.lt_zpow_succ_log_self (by norm_num) _⟩

theorem log_abs_eq (q : ℚ) (e : ℤ) (h1 : (2 : ℚ) ^ e ≤ |q|) (h2 : |q| < 2 ^ (e + 1)) :
    Int.log 2 |q| = e := by
  have hpos : 0 < |q| := lt_of_lt_of_le (by positivity) h1
  have a := (Int.zpow_le_iff_le_log (by norm_num : 1 < 2) hpos).1 (by exact_mod_cast h1)
  have b := (Int.lt_zpow_iff_log_lt (by norm_num : 1 < 2) hpos).1 (by exact_mod_cast h2)
  omega

/-- Evaluation of `f32`. -/
theorem f32_eq (q : ℚ) (e m : ℤ) (h1 : (2 : ℚ) ^ e ≤ |q|) (h2 : |q| < 2 ^ (e + 1))
    (hm : |q / 2 ^ (e - 23) - m| < 1 / 2 ∨ (|q / 2 ^ (e - 23) - m| = 1 / 2 ∧ m % 2 = 0)) :
    f32 q = m * 2 ^ (e - 23) := by
  unfold f32
  rw [log_abs_eq q e h1 h2, rne_unique _ m hm]

theorem f32_zero : f32 0 = 0 := by
  simp [f32, rne]

theorem f32_neg (q : ℚ) : f32 (-q) = -f32 q := by
  unfold f32
  rw [abs_neg, neg_div, rne_neg]
  push_cast
  ring


theorem f32_bounds (q : ℚ) (hq : 0 < q) :
    (2 : ℚ) ^ Int.log 2 |q| ≤ f32 q ∧ f32 q ≤ 2 ^ (Int.log 2 |q| + 1) := by
  obtain ⟨h1, h2⟩ := log_abs_spec q (ne_of_gt hq)
  rw [abs_of_pos hq] at h1 h2
  rw [abs_of_pos hq]
  set e := Int.log 2 q with he
  have hu : (0 : ℚ) < 2 ^ (e - 23) := by positivity
  have e1 : (2 : ℚ) ^ e = 2 ^ (23 : ℤ) * 2 ^ (e - 23) := by
    rw [← zpow_add₀ (by norm_num : (2 : ℚ) ≠ 0)]; congr 1; ring
  have e2 : (2 : ℚ) ^ (e + 1) = 2 ^ (24 : ℤ) * 2 ^ (e - 23) := by
    rw [← zpow_add₀ (by norm_num : (2 : ℚ) ≠ 0)]; congr 1; ring
  have t1 : ((2 ^ 23 : ℤ) : ℚ) ≤ q / 2 ^ (e - 23) := by
    rw [le_div_iff₀ hu]; rw [e1] at h1; norm_num at h1 ⊢; linarith
  have t2 : q / 2 ^ (e - 23) ≤ ((2 ^ 24 : ℤ) : ℚ) := by
    rw [div_le_iff₀ hu]; rw [e2] at h2; norm_num at h2 ⊢; linarith
  have r1 := rne_mono t1
  have r2 := rne_mono t2
  rw [rne_intCast] at r1 r2
  have r1q : ((2 ^ 23 : ℤ) : ℚ) ≤ rne (q / 2 ^ (e - 23)) := by exact_mod_cast r1
  have r2q : (rne (q / 2 ^ (e - 23)) : ℚ) ≤ ((2 ^ 24 : ℤ) : ℚ) := by exact_mod_cast r2
  unfold f32
  rw [abs_of_pos hq, ← he, e1, e2]
  constructor
  · exact mul_le_mul_of_nonneg_right (by norm_num at r1q ⊢; linarith) hu.le
  · exact mul_le_mul_of_nonneg_right (by norm_num at r2q ⊢; linarith) hu.le

theorem f32_nonneg (q : ℚ) (hq : 0 ≤ q) : 0 ≤ f32 q := by
  rcases eq_or_lt_of_le hq with h | h
  · rw [← h, f32_zero]
  · exact le_trans (by positivity) (f32_bounds q h).1

theorem f32_mono_pos {a b : ℚ} (ha : 0 < a) (hab : a ≤ b) : f32 a ≤ f32 b := by
  have hb : 0 < b := lt_of_lt_of_le ha hab
  have hlog : Int.log 2 a ≤ Int.log 2 b := Int.log_mono_right ha hab
  rcases eq_or_lt_of_le hlog with h | h
  · unfold f32
    rw [abs_of_pos ha, abs_of_pos hb, ← h]
    have hu : (0 : ℚ) < 2 ^ (Int.log 2 a - 23) := by positivity
    apply mul_le_mul_of_nonneg_right _ hu.le
    have := rne_mono (div_le_div_of_nonneg_right hab hu.le)
    exact_mod_cast this
  · have h1 := (f32_bounds a ha).2
    have h2 := (f32_bounds b hb).1
    rw [abs_of_pos ha] at h1
    rw [abs_of_pos hb] at h2
    have h3 : (2 : ℚ) ^ (Int.log 2 a + 1) ≤ 2 ^ Int.log 2 b :=
      zpow_le_zpow_right₀ (by norm_num) (by omega)
    linarith

/-- Rounding to binary32 is monotone. -/
theorem f32_mono : Monotone f32 := by
  intro a b hab
  rcases lt_trichotomy 0 a with ha | ha | ha
  · exact f32_mono_pos ha hab
  · rw [← ha, f32_zero]; exact f32_nonneg b (by linarith)
  · rcases le_or_lt 0 b with hb | hb
    · have h1 := f32_nonneg (-a) (by linarith)
      rw [f32_neg] at h1
      have h2 := f32_nonneg b hb
      linarith
    · have := f32_mono_pos (a := -b) (b := -a) (by linarith) (by linarith)
      rw [f32_neg, f32_neg] at this
      linarith

/-- The relative error of rounding to binary32 is at most `2^-24`. -/
theorem f32_err (q : ℚ) : |f32 q - q| ≤ 2 ^ (-24 : ℤ) * |q| := by
  rcases eq_or_ne q 0 with rfl | hq
  · simp [f32_zero]
  obtain ⟨h1, -⟩ := log_abs_spec q hq
  set e := Int.log 2 |q| with he
  have hu : (0 : ℚ) < 2 ^ (e - 23) := by positivity
  have e1 : (2 : ℚ) ^ (-24 : ℤ) * 2 ^ e = 2 ^ (e - 23) * (1 / 2) := by
    have : (2 : ℚ) ^ (e - 23) = 2 ^ e * 2 ^ (-23 : ℤ) := by
      rw [← zpow_add₀ (by norm_num : (2 : ℚ) ≠ 0)]; congr 1
    rw [this]; norm_num; ring
  have key : f32 q - q = -(q / 2 ^ (e - 23) - rne (q / 2 ^ (e - 23))) * 2 ^ (e - 23) := by
    unfold f32
    rw [← he]
    field_simp
    ring
  rw [key, abs_mul, abs_neg, abs_of_pos hu]
  calc |q / 2 ^ (e - 23) - rne (q / 2 ^ (e - 23))| * 2 ^ (e - 23)
      ≤ 1 / 2 * 2 ^ (e - 23) := mul_le_mul_of_nonneg_right (rne_err _) hu.le
    _ = 2 ^ (-24 : ℤ) * 2 ^ e := by rw [e1]; ring
    _ ≤ 2 ^ (-24 : ℤ) * |q| := mul_le_mul_of_nonneg_left h1 (by positivity)

/-- A number with `24` significant bits is a float. -/
theorem f32_of_float (m k : ℤ) (h1 : 2 ^ 23 ≤ |m|) (h2 : |m| < 2 ^ 24) :
    f32 (m * 2 ^ k) = m * 2 ^ k := by
  have hu : (0 : ℚ) < 2 ^ k := by positivity
  have habs : |(m : ℚ) * 2 ^ k| = |(m : ℚ)| * 2 ^ k := by rw [abs_mul, abs_of_pos hu]
  have h1q : (2 : ℚ) ^ (23 : ℤ) ≤ |(m : ℚ)| := by
    have : ((2 ^ 23 : ℤ) : ℚ) ≤ ((|m| : ℤ) : ℚ) := by exact_mod_cast h1
    rw [Int.cast_abs] at this
    norm_num at this ⊢
    exact this
  have h2q : |(m : ℚ)| < (2 : ℚ) ^ (24 : ℤ) := by
    have : ((|m| : ℤ) : ℚ) < ((2 ^ 24 : ℤ) : ℚ) := by exact_mod_cast h2
    rw [Int.cast_abs] at this
    norm_num at this ⊢
    exact this
  have e : f32 (m * 2 ^ k) = m * 2 ^ (k + 23 - 23) := by
    apply f32_eq
    · rw [habs, zpow_add₀ (by norm_num : (2 : ℚ) ≠ 0), mul_comm]
      exact mul_le_mul_of_nonneg_right h1q hu.le
    · rw [habs]
      have : (2 : ℚ) ^ (k + 23 + 1) = 2 ^ (24 : ℤ) * 2 ^ k := by
        rw [← zpow_add₀ (by norm_num : (2 : ℚ) ≠ 0)]; congr 1; ring
      rw [this]
      exact mul_lt_mul_of_pos_right h2q hu
    · left
      have : (k + 23 - 23 : ℤ) = k := by ring
      rw [this, mul_div_assoc, div_self (ne_of_gt hu)]
      simp
  rw [e]
  congr 2
  ring

/-- The float `0.3f`. -/
theorem f32_three_tenths : f32 (3 / 10) = 10066330 * 2 ^ (-25 : ℤ) := by
  rw [f32_eq (3 / 10) (-2) 10066330 (by norm_num [abs_of_pos]) (by norm_num [abs_of_pos])
    (Or.inl (by norm_num [abs_lt]))]
  norm_num

/-- The float `-3.7f`. -/
theorem f32_neg_three_point_seven : f32 (-(37 / 10)) = -15518925 * 2 ^ (-22 : ℤ) := by
  rw [f32_eq (-(37 / 10)) 1 (-15518925) (by norm_num [abs_of_pos]) (by norm_num [abs_of_pos])
    (Or.inl (by norm_num [abs_lt]))]
  norm_num

/-- The float `1e-6f`. -/
theorem f32_millionth : f32 (1 / 1000000) = 8796093 * 2 ^ (-43 : ℤ) := by
  rw [f32_eq (1 / 1000000) (-20) 8796093 (by norm_num [abs_of_pos]) (by norm_num [abs_of_pos])
    (Or.inl (by norm_num [abs_lt]))]
  norm_num

/-- The float nearest to `1/60`. -/
theorem f32_sixtieth : f32 (1 / 60) = 8947849 * 2 ^ (-29 : ℤ) := by
  rw [f32_eq (1 / 60) (-6) 8947849 (by norm_num [abs_of_pos]) (by norm_num [abs_of_pos])
    (Or.inl (by norm_num [abs_lt]))]
  norm_num

/-! ### The sweep with its roundings -/

theorem foldl_sweepStepF_active (fl : ℚ → ℚ) (heap : Ptr → RigidBody2D) (rest : List Ptr)
    (s : Sweep) (done : List (List Ptr)) (cur : List Ptr)
    (hact : s.active = done ++ [cur]) (hit : s.globalIt = done.length) :
    (rest.foldl (sweepStepF fl heap) s).active = done ++ clustersF fl heap s.stop cur rest := by
  induction rest generalizing s done cur with
  | nil => simpa [clustersF] using hact
  | cons p rest ih =>
    rw [List.foldl_cons]
    by_cases hj : fl ((heap p).position.x - (heap p).radius) ≤ s.stop
    · rw [ih (sweepStepF fl heap s p) done (cur ++ [p])]
      · simp [sweepStepF, clustersF, hj]
      · simp [sweepStepF, hj, hact, hit, pushBackAt_append_length]
      · simp [sweepStepF, hj, hit]
    · rw [ih (sweepStepF fl heap s p) (done ++ [cur]) [p]]
      · simp [sweepStepF, clustersF, hj]
      · simp [sweepStepF, hj, hact]
      · simp [sweepStepF, hj, hit]

theorem broadPhaseF_cons (fl : ℚ → ℚ) (heap : Ptr → RigidBody2D) (p : Ptr) (rest : List Ptr) :
    broadPhaseF fl heap (p :: rest) =
      some (clustersF fl heap (fl ((heap p).position.x + (heap p).radius)) [p] rest) := by
  show some _ = some _
  rw [foldl_sweepStepF_active fl heap rest _ [] [p] rfl rfl]
  simp

theorem pairs_clustersF_subset (fl : ℚ → ℚ) (heap : Ptr → RigidBody2D) (rest : List Ptr)
    (stop : ℚ) (cur : List Ptr) (c : List Ptr) (hc : c ∈ clustersF fl heap stop cur rest)
    (a b : Ptr) (hab : (a, b) ∈ pairs c) : (a, b) ∈ pairs (cur ++ rest) := by
  induction rest generalizing stop cur with
  | nil =>
    simp only [clustersF, List.mem_singleton] at hc
    subst hc
    simpa using hab
  | cons p rest ih =>
    unfold clustersF at hc
    split_ifs at hc with hj
    · have := ih _ _ hc
      simpa using this
    · rcases List.mem_cons.1 hc with rfl | hc
      · exact (mem_pairs_append a b _ _).2 (Or.inl hab)
      · have := ih _ _ hc
        exact (mem_pairs_append a b _ _).2 (Or.inr (Or.inr this))

theorem pairs_clustersF_of_close (fl : ℚ → ℚ) (hmono : Monotone fl) (heap : Ptr → RigidBody2D)
    (r : ℚ) (rest : List Ptr) (stop : ℚ) (cur : List Ptr)
    (hinv : ∀ a ∈ cur, fl ((heap a).position.x + r) ≤ stop)
    (hsorted : (cur ++ rest).Pairwise (fun a b => (heap a).position.x ≤ (heap b).position.x))
    (hrad : ∀ a ∈ rest, (heap a).radius = r)
    (a b : Ptr) (hab : (a, b) ∈ pairs (cur ++ rest))
    (hclose : (heap b).position.x - r ≤ (heap a).position.x + r) :
    ∃ c ∈ clustersF fl heap stop cur rest, (a, b) ∈ pairs c := by
  induction rest generalizing stop cur with
  | nil => exact ⟨cur, by simp [clustersF], by simpa using hab⟩
  | cons p rest ih =>
    have hp : (heap p).radius = r := hrad p (List.mem_cons_self _ _)
    have hrad2 : ∀ a ∈ rest, (heap a).radius = r := fun a ha => hrad a (List.mem_cons_of_mem _ ha)
    unfold clustersF
    rw [hp]
    split_ifs with hj
    · apply ih
      · intro c hc
        rcases List.mem_append.1 hc with hc | hc
        · have := (List.pairwise_append.1 hsorted).2.2 c hc p (List.mem_cons_self _ _)
          exact hmono (by linarith)
        · rw [List.mem_singleton.1 hc]
      · simpa using hsorted
      · exact hrad2
      · simpa using hab
    · rcases (mem_pairs_append a b _ _).1 hab with h | ⟨ha, hb⟩ | h
      · exact ⟨cur, List.mem_cons_self _ _, h⟩
      · exfalso
        apply hj
        have h1 := hinv a ha
        have h2 : (heap p).position.x ≤ (heap b).position.x := by
          rcases List.mem_cons.1 hb with rfl | hb
          · exact le_refl _
          · exact List.rel_of_pairwise_cons (List.pairwise_append.1 hsorted).2.1 hb
        exact le_trans (hmono (by linarith)) h1
      · have hs2 : ([p] ++ rest).Pairwise
            (fun a b => (heap a).position.x ≤ (heap b).position.x) :=
          (List.pairwise_append.1 hsorted).2.1
        obtain ⟨c, hc, hcab⟩ := ih (fl ((heap p).position.x + r)) [p]
          (by intro c hc; rw [List.mem_singleton.1 hc]) hs2 hrad2 (by simpa using h)
        exact ⟨c, List.mem_cons_of_mem _ hc, hcab⟩

theorem mem_narrowPhaseF (fl sqrt : ℚ → ℚ) (heap : Ptr → RigidBody2D)
    (active : List (List Ptr)) (ab : Ptr × Ptr) :
    ab ∈ narrowPhaseF fl sqrt heap active ↔
      ∃ c ∈ active, ab ∈ pairs c ∧ overlapF fl sqrt heap ab = true := by
  induction active with
  | nil => simp [narrowPhaseF]
  | cons act rest ih =>
    simp only [narrowPhaseF, List.mem_append, List.mem_filter, ih, List.mem_cons]
    constructor
    · rintro (h | ⟨c, hc, h⟩)
      · exact ⟨act, Or.inl rfl, h⟩
      · exact ⟨c, Or.inr hc, h⟩
    · rintro ⟨c, rfl | hc, h⟩
      · exact Or.inl h
      · exact Or.inr ⟨c, hc, h⟩

theorem overlapF_symm (fl sqrt : ℚ → ℚ) (hodd : ∀ q, fl (-q) = -fl q)
    (heap : Ptr → RigidBody2D) (a b : Ptr) :
    overlapF fl sqrt heap (a, b) = overlapF fl sqrt heap (b, a) := by
  simp only [overlapF, PhysicBody2D.CheckCollisionF, Vector2.DistanceToF]
  have ex : fl ((heap a).position.x - (heap b).position.x) ^ 2 =
      fl ((heap b).position.x - (heap a).position.x) ^ 2 := by
    rw [← neg_sub, hodd]; ring
  have ey : fl ((heap a).position.y - (heap b).position.y) ^ 2 =
      fl ((heap b).position.y - (heap a).position.y) ^ 2 := by
    rw [← neg_sub, hodd]; ring
  simp only [ex, ey, add_comm (heap a).radius]

theorem trulyOverlaps_close (heap : Ptr → RigidBody2D) (r : ℚ) (hr : 0 ≤ r) (a b : Ptr)
    (ha : (heap a).radius = r) (hb : (heap b).radius = r) (h : TrulyOverlaps heap a b) :
    (heap b).position.x - r ≤ (heap a).position.x + r := by
  unfold TrulyOverlaps at h
  rw [ha, hb] at h
  nlinarith [sq_nonneg ((heap a).position.y - (heap b).position.y),
    sq_nonneg ((heap a).position.x - (heap b).position.x + (r + r))]

theorem trulyOverlaps_symm (heap : Ptr → RigidBody2D) (a b : Ptr)
    (h : TrulyOverlaps heap a b) : TrulyOverlaps heap b a := by
  unfold TrulyOverlaps at h ⊢
  nlinarith [h]

theorem clustersF_of_trulyOverlaps (fl : ℚ → ℚ) (hmono : Monotone fl)
    (heap : Ptr → RigidBody2D) (r : ℚ) (hr : 0 ≤ r) (p : Ptr) (rest : List Ptr)
    (hrad : ∀ q ∈ p :: rest, (heap q).radius = r)
    (hsorted : (p :: rest).Pairwise (fun a b => (heap a).position.x ≤ (heap b).position.x))
    (a b : Ptr) (hab : (a, b) ∈ pairs (p :: rest)) (hov : TrulyOverlaps heap a b) :
    ∃ c ∈ clustersF fl heap (fl ((heap p).position.x + (heap p).radius)) [p] rest,
      (a, b) ∈ pairs c := by
  have hm := mem_of_mem_pairs hab
  rw [hrad p (List.mem_cons_self _ _)]
  exact pairs_clustersF_of_close fl hmono heap r rest _ [p]
    (by intro c hc; rw [List.mem_singleton.1 hc])
    (by simpa using hsorted)
    (fun q hq => hrad q (List.mem_cons_of_mem _ hq))
    a b (by simpa using hab)
    (trulyOverlaps_close heap r hr a b (hrad a hm.1) (hrad b hm.2) hov)

/-! ### The definitions with roundings, at the rounding `id` -/

theorem UpdateF_id (b : RigidBody2D) (deltaTime : ℚ) : b.UpdateF id deltaTime = b.Update deltaTime :=
  rfl

theorem CheckCollisionF_id (sqrt : ℚ → ℚ) (a b : PhysicBody2D) :
    a.CheckCollisionF id sqrt b = a.CheckCollision sqrt b := rfl

theorem NormalizedF_id (sqrt : ℚ → ℚ) (a : Vector2) : a.NormalizedF id sqrt = a.Normalized sqrt :=
  rfl

theorem clustersF_id (heap : Ptr → RigidBody2D) (stop : ℚ) (cur rest : List Ptr) :
    clustersF id heap stop cur rest = clusters heap stop cur rest := by
  induction rest generalizing stop cur with
  | nil => rfl
  | cons p rest ih => simp only [clustersF, clusters, ih, id]

theorem broadPhaseF_id (heap : Ptr → RigidBody2D) (snp : List Ptr) :
    broadPhaseF id heap snp = broadPhase heap snp := by
  cases snp with
  | nil => rfl
  | cons p rest => rw [broadPhaseF_cons, broadPhase_cons, clustersF_id]; rfl

theorem narrowPhaseF_id (sqrt : ℚ → ℚ) (heap : Ptr → RigidBody2D) (active : List (List Ptr)) :
    narrowPhaseF id sqrt heap active = narrowPhase sqrt heap active := by
  induction active with
  | nil => rfl
  | cons act rest ih =>
    simp only [narrowPhaseF, narrowPhase, ih]
    rfl

theorem collisionCallsF_id (sqrt : ℚ → ℚ) (heap : Ptr → RigidBody2D) (snp : List Ptr) :
    collisionCallsF id sqrt heap snp = collisionCalls sqrt heap snp := by
  unfold collisionCallsF collisionCalls
  rw [broadPhaseF_id]
  cases broadPhase heap snp with
  | none => rfl
  | some a => simp [narrowPhaseF_id]

/-! ### The example states in binary32 -/

theorem absorbedBall_newPos :
    absorbedBall.GetNextFramePosF f32 (f32 (1 / 60)) = absorbedBall.position := by
  have hstep : f32 (f32 (1 / 1000000) * f32 (1 / 60)) = 9382500 * 2 ^ (-49 : ℤ) := by
    rw [f32_millionth, f32_sixtieth]
    rw [f32_eq _ (-26) 9382500 (by norm_num [abs_of_pos]) (by norm_num [abs_of_pos])
      (Or.inl (by norm_num [abs_lt]))]
    norm_num
  have hsum : f32 (-15518925 * 2 ^ (-22 : ℤ) + 9382500 * 2 ^ (-49 : ℤ)) =
      -15518925 * 2 ^ (-22 : ℤ) := by
    rw [f32_eq _ 1 (-15518925) (by norm_num [abs_of_pos]) (by norm_num [abs_of_pos])
      (Or.inl (by norm_num [abs_lt]))]
    norm_num
  simp only [RigidBody2D.GetNextFramePosF, absorbedBall, Vector2.eq_iff, zero_mul, f32_zero,
    add_zero, true_and]
  rw [hstep, f32_neg_three_point_seven, hsum]

theorem grazingHeap_x0 : (grazingHeap 0).position.x = -9210692 * 2 ^ (-23 : ℤ) := by
  show f32 (-(1098 / 1000)) = _
  rw [f32_eq _ 0 (-9210692) (by norm_num [abs_of_pos]) (by norm_num [abs_of_pos])
    (Or.inl (by norm_num [abs_lt]))]
  norm_num

theorem grazingHeap_x1 : (grazingHeap 1).position.x = -16710107 * 2 ^ (-25 : ℤ) := by
  show f32 (-(498 / 1000)) = _
  rw [f32_eq _ (-2) (-16710107) (by norm_num [abs_of_pos]) (by norm_num [abs_of_pos])
    (Or.inl (by norm_num [abs_lt]))]
  norm_num

theorem grazingHeap_x2 : (grazingHeap 2).position.x = 0 := rfl

theorem grazingHeap_y (p : Ptr) : (grazingHeap p).position.y = 0 := by
  unfold grazingHeap; split <;> rfl

theorem grazingHeap_radius (p : Ptr) : (grazingHeap p).radius = 10066330 * 2 ^ (-25 : ℤ) := by
  rw [← f32_three_tenths]
  unfold grazingHeap; split <;> rfl

theorem grazingHeap_right0 :
    f32 ((grazingHeap 0).position.x + (grazingHeap 0).radius) = -13388219 * 2 ^ (-24 : ℤ) := by
  rw [grazingHeap_x0, grazingHeap_radius]
  rw [f32_eq _ (-1) (-13388219) (by norm_num [abs_of_pos]) (by norm_num [abs_of_pos])
    (Or.inl (by norm_num [abs_lt]))]
  norm_num

theorem grazingHeap_left1 :
    f32 ((grazingHeap 1).position.x - (grazingHeap 1).radius) = -13388218 * 2 ^ (-24 : ℤ) := by
  rw [grazingHeap_x1, grazingHeap_radius]
  rw [f32_eq _ (-1) (-13388218) (by norm_num [abs_of_pos]) (by norm_num [abs_of_pos])
    (Or.inr ⟨by norm_num [abs_of_pos], by norm_num⟩)]
  norm_num

theorem grazingHeap_right1 :
    f32 ((grazingHeap 1).position.x + (grazingHeap 1).radius) = -6643777 * 2 ^ (-25 : ℤ) := by
  rw [grazingHeap_x1, grazingHeap_radius]
  rw [f32_eq _ (-3) (-13287554) (by norm_num [abs_of_pos]) (by norm_num [abs_of_pos])
    (Or.inl (by norm_num [abs_lt]))]
  norm_num

theorem grazingHeap_left2 :
    f32 ((grazingHeap 2).position.x - (grazingHeap 2).radius) = -10066330 * 2 ^ (-25 : ℤ) := by
  rw [grazingHeap_x2, grazingHeap_radius]
  rw [f32_eq _ (-2) (-10066330) (by norm_num [abs_of_pos]) (by norm_num [abs_of_pos])
    (Or.inl (by norm_num [abs_lt]))]
  norm_num

theorem grazingHeap_broadPhaseF : broadPhaseF f32 grazingHeap [0, 1, 2] = some [[0], [1, 2]] := by
  rw [broadPhaseF_cons]
  simp only [clustersF, grazingHeap_right0, grazingHeap_left1, grazingHeap_right1,
    grazingHeap_left2]
  norm_num

theorem isSortOf_grazing : IsSortOf grazingHeap [0, 1, 2] [0, 1, 2] := by
  refine ⟨List.Perm.refl _, ?_⟩
  simp only [List.pairwise_cons, List.mem_cons, List.mem_singleton, forall_eq_or_imp, forall_eq,
    List.not_mem_nil, false_implies, implies_true, List.Pairwise.nil, and_true, CompareByX,
    grazingHeap_x0, grazingHeap_x1, grazingHeap_x2]
  norm_num

theorem grazingHeap_overlapF (a b : Ptr) (d : ℚ) (hd : 0 ≤ d)
    (hx : f32 ((grazingHeap a).position.x - (grazingHeap b).position.x) = -d)
    (hf : f32 d = d) :
    overlapF f32 sqrtQ grazingHeap (a, b) = decide (d ≤ 10066330 * 2 ^ (-24 : ℤ)) := by
  have hrr : f32 ((10066330 : ℚ) * 2 ^ (-25 : ℤ) + 10066330 * 2 ^ (-25 : ℤ)) =
      10066330 * 2 ^ (-24 : ℤ) := by
    rw [f32_eq _ (-1) 10066330 (by norm_num [abs_of_pos]) (by norm_num [abs_of_pos])
      (Or.inl (by norm_num [abs_lt]))]
    norm_num
  simp only [overlapF, PhysicBody2D.CheckCollisionF, Vector2.DistanceToF, grazingHeap_y,
    grazingHeap_radius, hx, sub_self, f32_zero, hrr]
  rw [sqrtQ_of_sq d hd _ (by ring), hf]

theorem grazingHeap_overlapF_01 : overlapF f32 sqrtQ grazingHeap (0, 1) = true := by
  rw [grazingHeap_overlapF 0 1 (10066330 * 2 ^ (-24 : ℤ)) (by norm_num)]
  · norm_num
  · rw [grazingHeap_x0, grazingHeap_x1]
    rw [f32_eq _ (-1) (-10066330) (by norm_num [abs_of_pos]) (by norm_num [abs_of_pos])
      (Or.inr ⟨by norm_num [abs_of_pos], by norm_num⟩)]
    norm_num
  · exact_mod_cast f32_of_float 10066330 (-24) (by norm_num) (by norm_num)

theorem grazingHeap_overlapF_02 : overlapF f32 sqrtQ grazingHeap (0, 2) = false := by
  rw [grazingHeap_overlapF 0 2 (9210692 * 2 ^ (-23 : ℤ)) (by norm_num)]
  · norm_num
  · rw [grazingHeap_x0, grazingHeap_x2, sub_zero]
    have := f32_of_float (-9210692) (-23) (by norm_num) (by norm_num)
    push_cast at this
    rw [this]; ring
  · exact_mod_cast f32_of_float 9210692 (-23) (by norm_num) (by norm_num)

theorem grazingHeap_overlapF_12 : overlapF f32 sqrtQ grazingHeap (1, 2) = true := by
  rw [grazingHeap_overlapF 1 2 (16710107 * 2 ^ (-25 : ℤ)) (by norm_num)]
  · norm_num
  · rw [grazingHeap_x1, grazingHeap_x2, sub_zero]
    have := f32_of_float (-16710107) (-25) (by norm_num) (by norm_num)
    push_cast at this
    rw [this]; ring
  · exact_mod_cast f32_of_float 16710107 (-25) (by norm_num) (by norm_num)

/-! ### `Normalized` with its roundings -/

theorem cround_half (n : ℤ) (hn : 0 ≤ n) : cround (n + 1 / 2) = n + 1 := by
  unfold cround
  have h0 : (0 : ℚ) ≤ n := by exact_mod_cast hn
  rw [if_pos (by linarith)]
  have : (n : ℚ) + 1 / 2 + 1 / 2 = ((n + 1 : ℤ) : ℚ) := by push_cast; ring
  rw [this, Int.floor_intCast]
  push_cast
  rfl

/-- The accumulated error of one component of `Normalized`. -/
theorem component_error (ε κ u ρ a0 a b n c : ℝ)
    (hε0 : 0 ≤ ε) (hε : ε ≤ 1 / 1000) (hκ0 : 0 ≤ κ) (hκ : κ ≤ 1 / 400)
    (hu : |u| ≤ 1) (hρ : |ρ - 1| ≤ κ) (ha0 : a0 * ρ = u)
    (ha : |a - a0| ≤ ε * |a0|) (hb : |b - a * 1000| ≤ ε * |a * 1000|)
    (hn : |n - b| ≤ 1 / 2) (hc : |c - n / 1000| ≤ ε * |n / 1000|) :
    |c - u| ≤ 1 / 2000 + 303 / 100 * ε + 101 / 100 * κ := by
  have hρ1 := (abs_le.1 hρ).1
  have hρpos : 0 < ρ := by linarith
  -- |a0| ≤ 400/399
  have hA0 : |a0| ≤ 400 / 399 := by
    have h1 : |a0| * ρ = |u| := by rw [← ha0, abs_mul, abs_of_pos hρpos]
    have h2 : |a0| * (399 / 400) ≤ |a0| * ρ :=
      mul_le_mul_of_nonneg_left (by linarith) (abs_nonneg _)
    linarith
  have hd0 : |a0 - u| ≤ 400 / 399 * κ := by
    have e : a0 - u = a0 * (1 - ρ) := by rw [← ha0]; ring
    rw [e, abs_mul]
    have h3 : |1 - ρ| ≤ κ := by rw [abs_sub_comm]; exact hρ
    exact mul_le_mul hA0 h3 (abs_nonneg _) (by norm_num)
  have hd1 : |a - a0| ≤ ε * (400 / 399) :=
    le_trans ha (mul_le_mul_of_nonneg_left hA0 hε0)
  have hA : |a| ≤ 1005 / 1000 := by
    have : |a| ≤ |a - a0| + |a0| := by
      calc |a| = |(a - a0) + a0| := by ring_nf
        _ ≤ |a - a0| + |a0| := abs_add _ _
    nlinarith
  have hA1000 : |a * 1000| ≤ 1005 := by
    rw [abs_mul]; norm_num; linarith
  have hd2 : |b - a * 1000| ≤ ε * 1005 :=
    le_trans hb (mul_le_mul_of_nonneg_left hA1000 hε0)
  have hB : |b| ≤ 1007 := by
    have : |b| ≤ |b - a * 1000| + |a * 1000| := by
      calc |b| = |(b - a * 1000) + a * 1000| := by ring_nf
        _ ≤ _ := abs_add _ _
    nlinarith
  have hN : |n / 1000| ≤ 1008 / 1000 := by
    have : |n| ≤ |n - b| + |b| := by
      calc |n| = |(n - b) + b| := by ring_nf
        _ ≤ _ := abs_add _ _
    rw [abs_div]; norm_num
    linarith
  have hd4 : |c - n / 1000| ≤ ε * (1008 / 1000) :=
    le_trans hc (mul_le_mul_of_nonneg_left hN hε0)
  have e : c - u = (c - n / 1000) + (n - b) / 1000 + (b - a * 1000) / 1000 + (a - a0) + (a0 - u) := by
    ring
  have hnb : |(n - b) / 1000| ≤ 1 / 2000 := by
    rw [abs_div]; norm_num; linarith
  have hba : |(b - a * 1000) / 1000| ≤ ε * 1005 / 1000 := by
    rw [abs_div]; norm_num
    linarith
  rw [e]
  calc |(c - n / 1000) + (n - b) / 1000 + (b - a * 1000) / 1000 + (a - a0) + (a0 - u)|
      ≤ |c - n / 1000| + |(n - b) / 1000| + |(b - a * 1000) / 1000| + |a - a0| + |a0 - u| := by
        refine le_trans (abs_add _ _) ?_
        refine add_le_add_right ?_ _
        refine le_trans (abs_add _ _) ?_
        refine add_le_add_right ?_ _
        refine le_trans (abs_add _ _) ?_
        refine add_le_add_right ?_ _
        exact abs_add _ _
    _ ≤ 1 / 2000 + 303 / 100 * ε + 101 / 100 * κ := by nlinarith

/-- A vector within `η` of a unit vector in each component has a squared length within `3 η`
of `1`. -/
theorem unit_length_within (ux uy rx ry η : ℝ) (hu : ux ^ 2 + uy ^ 2 = 1)
    (hη : η ≤ 1 / 100) (hx : |rx - ux| ≤ η) (hy : |ry - uy| ≤ η) :
    |rx ^ 2 + ry ^ 2 - 1| ≤ 3 * η := by
  have hη0 : 0 ≤ η := le_trans (abs_nonneg _) hx
  have hs : |ux| + |uy| ≤ 1415 / 1000 := by
    have h1 : |ux| * |ux| = ux ^ 2 := by rw [abs_mul_abs_self]; ring
    have h2 : |uy| * |uy| = uy ^ 2 := by rw [abs_mul_abs_self]; ring
    nlinarith [sq_nonneg (|ux| - |uy|), abs_nonneg ux, abs_nonneg uy]
  have hex : |(rx - ux) * ux| ≤ η * |ux| := by
    rw [abs_mul]
    exact mul_le_mul_of_nonneg_right hx (abs_nonneg _)
  have hey : |(ry - uy) * uy| ≤ η * |uy| := by
    rw [abs_mul]
    exact mul_le_mul_of_nonneg_right hy (abs_nonneg _)
  have hsqx : (rx - ux) ^ 2 ≤ η * η := by
    have := abs_le.1 hx
    nlinarith
  have hsqy : (ry - uy) ^ 2 ≤ η * η := by
    have := abs_le.1 hy
    nlinarith
  have hηη : η * η ≤ η / 100 := by nlinarith
  have key : rx ^ 2 + ry ^ 2 - 1 =
      2 * ((rx - ux) * ux) + 2 * ((ry - uy) * uy) + (rx - ux) ^ 2 + (ry - uy) ^ 2 := by
    have : rx ^ 2 + ry ^ 2 - 1 = rx ^ 2 + ry ^ 2 - (ux ^ 2 + uy ^ 2) := by rw [hu]
    rw [this]; ring
  have hsum : η * (|ux| + |uy|) ≤ η * (1415 / 1000) := mul_le_mul_of_nonneg_left hs hη0
  rw [abs_le] at hex hey
  rw [key, abs_le]
  constructor
  · nlinarith [sq_nonneg (rx - ux), sq_nonneg (ry - uy)]
  · nlinarith [sq_nonneg (rx - ux), sq_nonneg (ry - uy)]

theorem fl_zero_of_err (fl : ℚ → ℚ) (ε : ℚ) (hfl : ∀ q, |fl q - q| ≤ ε * |q|) : fl 0 = 0 := by
  have := hfl 0
  simpa using this

theorem fl_cast_err (fl : ℚ → ℚ) (ε : ℚ) (hfl : ∀ q, |fl q - q| ≤ ε * |q|) (q : ℚ) :
    |((fl q : ℚ) : ℝ) - q| ≤ ε * |(q : ℝ)| := by
  have := (Rat.cast_le (K := ℝ)).2 (hfl q)
  push_cast at this
  exact this

theorem length_error (ε δ M S L : ℝ) (hε0 : 0 ≤ ε) (hL : 0 ≤ L)
    (hMS : |M - S| ≤ ε * |S|) (hSL : |S - L| ≤ δ * L) :
    |M - L| ≤ (ε + δ + ε * δ) * L := by
  have hS : |S| ≤ (1 + δ) * L := by
    have := abs_le.1 hSL
    rw [abs_le]
    constructor <;> nlinarith
  have h2 : ε * |S| ≤ ε * ((1 + δ) * L) := mul_le_mul_of_nonneg_left hS hε0
  have h3 := abs_le.1 (le_trans hMS h2)
  have h4 := abs_le.1 hSL
  rw [abs_le]
  constructor <;> nlinarith

theorem NormalizedF_component (fl : ℚ → ℚ) (ε δ : ℚ)
    (hε0 : 0 ≤ ε) (hε : ε ≤ 1 / 1000) (hδ0 : 0 ≤ δ) (hδ : δ ≤ 1 / 1000)
    (hfl : ∀ q, |fl q - q| ≤ ε * |q|) (x M : ℚ) (L : ℝ) (hL : 0 < L)
    (hx : |(x : ℝ)| ≤ L) (hM : |(M : ℝ) - L| ≤ (ε + δ + ε * δ) * L) :
    |((fl (cround (fl (fl (x / M) * 1000)) / 1000) : ℚ) : ℝ) - x / L| ≤
      1 / 2000 + 5 * ε + 2 * δ := by
  have hε0r : (0 : ℝ) ≤ ε := by exact_mod_cast hε0
  have hεr : (ε : ℝ) ≤ 1 / 1000 := by
    have := (Rat.cast_le (K := ℝ)).2 hε
    push_cast at this
    exact this
  have hδ0r : (0 : ℝ) ≤ δ := by exact_mod_cast hδ0
  have hδr : (δ : ℝ) ≤ 1 / 1000 := by
    have := (Rat.cast_le (K := ℝ)).2 hδ
    push_cast at this
    exact this
  have hflr : ∀ q : ℚ, |((fl q : ℚ) : ℝ) - q| ≤ ε * |(q : ℝ)| := by
    intro q
    exact_mod_cast hfl q
  have hκ0 : (0 : ℝ) ≤ ε + δ + ε * δ := by positivity
  have hκ : (ε : ℝ) + δ + ε * δ ≤ 1 / 400 := by nlinarith
  have hρ : |(M : ℝ) / L - 1| ≤ ε + δ + ε * δ := by
    have e : (M : ℝ) / L - 1 = (M - L) / L := by field_simp
    rw [e, abs_div, abs_of_pos hL, div_le_iff₀ hL]
    exact hM
  have hMpos : (0 : ℝ) < M := by
    have := (abs_le.1 hM).1
    nlinarith
  have hu : |(x : ℝ) / L| ≤ 1 := by
    rw [abs_div, abs_of_pos hL, div_le_one hL]
    exact hx
  have ha0 : ((x / M : ℚ) : ℝ) * ((M : ℝ) / L) = x / L := by
    push_cast
    field_simp
  have hn := cround_err (fl (fl (x / M) * 1000))
  have hnr : |((cround (fl (fl (x / M) * 1000)) : ℚ) : ℝ) - ((fl (fl (x / M) * 1000) : ℚ) : ℝ)|
      ≤ 1 / 2 := by
    have := (Rat.cast_le (K := ℝ)).2 hn
    push_cast at this
    exact this
  have hb := hflr (fl (x / M) * 1000)
  have hc := hflr (cround (fl (fl (x / M) * 1000)) / 1000)
  push_cast at hb hc
  have key := component_error ε (ε + δ + ε * δ) (x / L) (M / L) ((x / M : ℚ) : ℝ)
    ((fl (x / M) : ℚ) : ℝ) ((fl (fl (x / M) * 1000) : ℚ) : ℝ)
    ((cround (fl (fl (x / M) * 1000)) : ℚ) : ℝ)
    ((fl (cround (fl (fl (x / M) * 1000)) / 1000) : ℚ) : ℝ)
    hε0r hεr hκ0 hκ hu hρ ha0 (hflr (x / M)) hb hnr hc
  refine le_trans key ?_
  nlinarith

theorem NormalizedF_zero (fl sqrt : ℚ → ℚ) (h0 : fl 0 = 0) :
    Vector2.NormalizedF fl sqrt ⟨0, 0⟩ = ⟨0, 0⟩ := by
  have hc : cround 0 = 0 := by simpa using cround_natCast 0
  simp only [Vector2.NormalizedF]
  split_ifs with h
  · simp [h0, hc]
  · rfl

theorem pythagorean_LengthF : Vector2.LengthF f32 sqrtQ ⟨7245, 11948⟩ = 13973 := by
  simp only [Vector2.LengthF]
  rw [sqrtQ_of_sq 13973 (by norm_num) _ (by norm_num)]
  rw [f32_eq 13973 13 14308352 (by norm_num [abs_of_pos]) (by norm_num [abs_of_pos])
    (Or.inl (by norm_num [abs_lt]))]
  norm_num

theorem pythagorean_NormalizedF_x :
    (Vector2.NormalizedF f32 sqrtQ ⟨7245, 11948⟩).x = 8707375 * 2 ^ (-24 : ℤ) := by
  have ha : f32 (7245 / 13973) = 8698986 * 2 ^ (-24 : ℤ) := by
    rw [f32_eq _ (-1) 8698986 (by norm_num [abs_of_pos]) (by norm_num [abs_of_pos])
      (Or.inl (by norm_num [abs_lt]))]
    norm_num
  have hb : f32 (8698986 * 2 ^ (-24 : ℤ) * 1000) = 518 + 1 / 2 := by
    rw [f32_eq _ 9 8495104 (by norm_num [abs_of_pos]) (by norm_num [abs_of_pos])
      (Or.inl (by norm_num [abs_lt]))]
    norm_num
  have hn : cround (518 + 1 / 2) = 519 := by
    have := cround_half 518 (by norm_num)
    norm_num at this ⊢
    exact this
  have hc : f32 (519 / 1000) = 8707375 * 2 ^ (-24 : ℤ) := by
    rw [f32_eq _ (-1) 8707375 (by norm_num [abs_of_pos]) (by norm_num [abs_of_pos])
      (Or.inl (by norm_num [abs_lt]))]
    norm_num
  simp only [Vector2.NormalizedF, pythagorean_LengthF]
  rw [if_pos (by norm_num)]
  simp only [ha, hb, hn, hc]

theorem sqrtD_two : sqrtD (1 ^ 2 + 1 ^ 2) = 6369051672525772 / 2 ^ 52 := by
  have h1 : ⌊((1 : ℚ) ^ 2 + 1 ^ 2) * 4 ^ 52⌋₊ = 2 * 4 ^ 52 := by
    have : ((1 : ℚ) ^ 2 + 1 ^ 2) * 4 ^ 52 = ((2 * 4 ^ 52 : ℕ) : ℚ) := by norm_num
    rw [this, Nat.floor_natCast]
  have h2 : Nat.sqrt (2 * 4 ^ 52) = 6369051672525772 := by
    symm
    rw [Nat.eq_sqrt]
    constructor <;> norm_num
  unfold sqrtD
  rw [h1, h2]
  norm_num

theorem sqrtD_two_error :
    |((sqrtD (1 ^ 2 + 1 ^ 2) : ℚ) : ℝ) - Real.sqrt (((1 : ℚ) : ℝ) ^ 2 + ((1 : ℚ) : ℝ) ^ 2)| ≤
      ((1 / 10 ^ 15 : ℚ) : ℝ) * Real.sqrt (((1 : ℚ) : ℝ) ^ 2 + ((1 : ℚ) : ℝ) ^ 2) := by
  rw [sqrtD_two]
  have e : (((1 : ℚ) : ℝ) ^ 2 + ((1 : ℚ) : ℝ) ^ 2) = 2 := by norm_num
  rw [e]
  have h0 : (0 : ℝ) ≤ Real.sqrt 2 := Real.sqrt_nonneg _
  have hsq : Real.sqrt 2 ^ 2 = 2 := Real.sq_sqrt (by norm_num)
  have hlo : (6369051672525772 / 2 ^ 52 : ℝ) ≤ Real.sqrt 2 := by
    apply Real.le_sqrt_of_sq_le
    norm_num
  have hhi : Real.sqrt 2 ≤ 6369051672525773 / 2 ^ 52 := by
    rw [Real.sqrt_le_left (by norm_num)]
    norm_num
  push_cast
  rw [abs_le]
  constructor <;> nlinarith

theorem diagonal_NormalizedF :
    Vector2.NormalizedF f32 sqrtD ⟨1, 1⟩ = ⟨f32 (707 / 1000), f32 (707 / 1000)⟩ := by
  have hl : Vector2.LengthF f32 sqrtD ⟨1, 1⟩ = 11863283 * 2 ^ (-23 : ℤ) := by
    simp only [Vector2.LengthF, sqrtD_two]
    rw [f32_eq _ 0 11863283 (by norm_num [abs_of_pos]) (by norm_num [abs_of_pos])
      (Or.inl (by norm_num [abs_lt]))]
    norm_num
  have ha : f32 (1 / (11863283 * 2 ^ (-23 : ℤ))) = 11863283 * 2 ^ (-24 : ℤ) := by
    rw [f32_eq _ (-1) 11863283 (by norm_num [abs_of_pos]) (by norm_num [abs_of_pos])
      (Or.inl (by norm_num [abs_lt]))]
    norm_num
  have hb : f32 (11863283 * 2 ^ (-24 : ℤ) * 1000) = 11585237 * 2 ^ (-14 : ℤ) := by
    rw [f32_eq _ 9 11585237 (by norm_num [abs_of_pos]) (by norm_num [abs_of_pos])
      (Or.inl (by norm_num [abs_lt]))]
    norm_num
  have hn : cround (11585237 * 2 ^ (-14 : ℤ)) = 707 := by
    unfold cround
    rw [if_pos (by norm_num)]
    have h : ⌊(11585237 : ℚ) * 2 ^ (-14 : ℤ) + 1 / 2⌋ = 707 := by
      rw [Int.floor_eq_iff]
      constructor <;> norm_num
    rw [h]; norm_num
  simp only [Vector2.NormalizedF, hl]
  rw [if_pos (by norm_num)]
  simp only [ha, hb, hn]

/-! ## Sweep and prune (lines 446-475) -/

/-- Claim C1 as stated fails for unequal positive radii: with radius `3` at `x = 0`, radius
`1/2` at `x = 1` and radius `1` at `x = 3` the clusters are `[[0, 1], [2]]`, the only call is
on `(0, 1)`, and the exhaustive test also finds the pair `(0, 2)`. -/
theorem sweep_misses_overlap_of_unequal_radii :
    (∀ p ∈ [0, 1, 2], 0 < (unequalHeap p).radius) ∧
      IsSortOf unequalHeap [0, 1, 2] [0, 1, 2] ∧
      broadPhase unequalHeap [0, 1, 2] = some [[0, 1], [2]] ∧
      collisionCalls sqrtQ unequalHeap [0, 1, 2] = some [(0, 1)] ∧
      (0, 2) ∈ exhaustivePairs sqrtQ unequalHeap [0, 1, 2] := by
  have h1 : sqrtQ 1 = 1 := sqrtQ_of_sq 1 (by norm_num) 1 (by norm_num)
  have h4 : sqrtQ 4 = 2 := sqrtQ_of_sq 2 (by norm_num) 4 (by norm_num)
  have h9 : sqrtQ 9 = 3 := sqrtQ_of_sq 3 (by norm_num) 9 (by norm_num)
  have hb : broadPhase unequalHeap [0, 1, 2] = some [[0, 1], [2]] := by
    norm_num [broadPhase, sweepStep, pushBackAt, unequalHeap]
  refine ⟨?_, isSortOf_unequal, hb, ?_, ?_⟩
  · simp [unequalHeap]
  · rw [collisionCalls, hb]
    norm_num [narrowPhase, pairs, overlap, PhysicBody2D.CheckCollision, Vector2.DistanceTo,
      unequalHeap, h1, h4, h9]
  · norm_num [exhaustivePairs, pairs, overlap, PhysicBody2D.CheckCollision, Vector2.DistanceTo,
      unequalHeap, h1, h4, h9]

/-- Claim C1, for equal radii and with the roundings of the program: for a non-empty list of
live balls that all have the radius `r > 0`, a rounding `fl` that is monotone and odd, and any
result `snp` of the sort, the sweep puts every pair of balls that truly overlaps (exact
distance of the centres at most the sum of the radii) into one cluster; every pair on which
`UpdateVelocity` is called is, as an unordered pair, one that the exhaustive test of all
pairs finds; and every pair that the exhaustive test finds and that truly overlaps gets its
call.  A pair that `CheckCollision` accepts through a rounding only can be left without a
call: see the example. -/
theorem sweepF_keeps_true_overlaps (fl sqrt : ℚ → ℚ) (hmono : Monotone fl)
    (hodd : ∀ q, fl (-q) = -fl q)
    (heap : Ptr → RigidBody2D) (balls snp : List Ptr) (r : ℚ) (hr : 0 < r)
    (hne : balls ≠ []) (hrad : ∀ p ∈ balls, (heap p).radius = r)
    (hsort : IsSortOf heap balls snp) :
    ∃ active calls, broadPhaseF fl heap snp = some active ∧
      collisionCallsF fl sqrt heap snp = some calls ∧
      (∀ a b, (a, b) ∈ pairs balls → TrulyOverlaps heap a b → ∃ c ∈ active, a ∈ c ∧ b ∈ c) ∧
      (∀ a b, (a, b) ∈ calls →
        (a, b) ∈ exhaustivePairsF fl sqrt heap balls ∨
          (b, a) ∈ exhaustivePairsF fl sqrt heap balls) ∧
      (∀ a b, (a, b) ∈ exhaustivePairsF fl sqrt heap balls → TrulyOverlaps heap a b →
        (a, b) ∈ calls ∨ (b, a) ∈ calls) := by
  have hperm := hsort.1
  have hsorted := isSortOf_pairwise_le hsort
  cases snp with
  | nil => exact absurd (List.Perm.eq_nil (hperm.symm)) hne
  | cons p rest =>
  have hrad2 : ∀ q ∈ p :: rest, (heap q).radius = r := fun q hq => hrad q (hperm.mem_iff.1 hq)
  have hK := clustersF_of_trulyOverlaps fl hmono heap r hr.le p rest hrad2 hsorted
  have hsub : ∀ c ∈ clustersF fl heap (fl ((heap p).position.x + (heap p).radius)) [p] rest,
      ∀ a b, (a, b) ∈ pairs c → (a, b) ∈ pairs (p :: rest) := by
    intro c hc a b hab
    simpa using pairs_clustersF_subset fl heap rest _ [p] c hc a b hab
  refine ⟨clustersF fl heap (fl ((heap p).position.x + (heap p).radius)) [p] rest,
    narrowPhaseF fl sqrt heap
      (clustersF fl heap (fl ((heap p).position.x + (heap p).radius)) [p] rest),
    broadPhaseF_cons fl heap p rest, by simp [collisionCallsF, broadPhaseF_cons], ?_, ?_, ?_⟩
  · intro a b hab hov
    rcases (pairs_perm hperm a b).2 (Or.inl hab) with h | h
    · obtain ⟨c, hc, hcab⟩ := hK a b h hov
      exact ⟨c, hc, mem_of_mem_pairs hcab⟩
    · obtain ⟨c, hc, hcab⟩ := hK b a h (trulyOverlaps_symm heap a b hov)
      exact ⟨c, hc, (mem_of_mem_pairs hcab).2, (mem_of_mem_pairs hcab).1⟩
  · intro a b hab
    obtain ⟨c, hc, hcab, hov⟩ := (mem_narrowPhaseF _ _ _ _ _).1 hab
    simp only [exhaustivePairsF, List.mem_filter]
    rcases (pairs_perm hperm a b).1 (Or.inl (hsub c hc a b hcab)) with h | h
    · exact Or.inl ⟨h, hov⟩
    · exact Or.inr ⟨h, by rw [← overlapF_symm fl sqrt hodd]; exact hov⟩
  · intro a b hab hov
    simp only [exhaustivePairsF, List.mem_filter] at hab
    rcases (pairs_perm hperm a b).2 (Or.inl hab.1) with h | h
    · obtain ⟨c, hc, hcab⟩ := hK a b h hov
      exact Or.inl ((mem_narrowPhaseF _ _ _ _ _).2 ⟨c, hc, hcab, hab.2⟩)
    · obtain ⟨c, hc, hcab⟩ := hK b a h (trulyOverlaps_symm heap a b hov)
      exact Or.inr ((mem_narrowPhaseF _ _ _ _ _).2
        ⟨c, hc, hcab, by rw [← overlapF_symm fl sqrt hodd]; exact hab.2⟩)

/-- An instance of claim C1 in binary32: three balls of radius `0.3f` at `x = -1.098f`,
`x = -0.498f` and `x = 0`.  The clusters are `[[0], [1, 2]]` and the only call is on `(1, 2)`,
which truly overlaps.  The exhaustive test also finds `(0, 1)`: the distance of the centres
exceeds the sum of the radii by `2^-25`, the rounded difference of the `x` is the rounded sum
of the radii, and `CheckCollision` accepts the pair, whereas the right edge of ball `0`
(`-13388219 * 2^-24`) is left of the rounded left edge of ball `1` (`-13388218 * 2^-24`). -/
theorem sweepF_keeps_true_overlaps_example :
    IsSortOf grazingHeap [0, 1, 2] [0, 1, 2] ∧
      broadPhaseF f32 grazingHeap [0, 1, 2] = some [[0], [1, 2]] ∧
      collisionCallsF f32 sqrtQ grazingHeap [0, 1, 2] = some [(1, 2)] ∧
      exhaustivePairsF f32 sqrtQ grazingHeap [0, 1, 2] = [(0, 1), (1, 2)] ∧
      ¬ TrulyOverlaps grazingHeap 0 1 ∧ TrulyOverlaps grazingHeap 1 2 ∧
      ∃ active calls, broadPhaseF f32 grazingHeap [0, 1, 2] = some active ∧
        collisionCallsF f32 sqrtQ grazingHeap [0, 1, 2] = some calls ∧
        (∀ a b, (a, b) ∈ pairs [0, 1, 2] → TrulyOverlaps grazingHeap a b →
          ∃ c ∈ active, a ∈ c ∧ b ∈ c) ∧
        (∀ a b, (a, b) ∈ calls →
          (a, b) ∈ exhaustivePairsF f32 sqrtQ grazingHeap [0, 1, 2] ∨
            (b, a) ∈ exhaustivePairsF f32 sqrtQ grazingHeap [0, 1, 2]) ∧
        (∀ a b, (a, b) ∈ exhaustivePairsF f32 sqrtQ grazingHeap [0, 1, 2] →
          TrulyOverlaps grazingHeap a b → (a, b) ∈ calls ∨ (b, a) ∈ calls) := by
  refine ⟨isSortOf_grazing, grazingHeap_broadPhaseF, ?_, ?_, ?_, ?_,
    sweepF_keeps_true_overlaps f32 sqrtQ f32_mono f32_neg grazingHeap [0, 1, 2] [0, 1, 2]
      (10066330 * 2 ^ (-25 : ℤ)) (by norm_num) (by simp) (fun p _ => grazingHeap_radius p)
      isSortOf_grazing⟩
  · rw [collisionCallsF, grazingHeap_broadPhaseF]
    simp [narrowPhaseF, pairs, grazingHeap_overlapF_12]
  · simp [exhaustivePairsF, pairs, grazingHeap_overlapF_01, grazingHeap_overlapF_02,
      grazingHeap_overlapF_12]
  · simp only [TrulyOverlaps, grazingHeap_x0, grazingHeap_x1, grazingHeap_y, grazingHeap_radius]
    norm_num
  · simp only [TrulyOverlaps, grazingHeap_x1, grazingHeap_x2, grazingHeap_y, grazingHeap_radius]
    norm_num

/-! ## Wall collisions (`RigidBody2D::Update`) -/

/-- Claim C3, at its own example: the ball at `(7.4, 0)` with radius `0.3` and velocity `(5, 0)`
gets, for `dt = 0.1`, the velocity `(-4.9, 0)` and the position `(7.9, 0)`, whose right
edge `8.2` is beyond the wall at `7.5`. -/
theorem Update_right_wall_example :
    RigidBody2D.Update ⟨⟨⟨74 / 10, 0⟩, 3 / 10, 1⟩, ⟨5, 0⟩⟩ (1 / 10) =
        ⟨⟨-(49 / 10), 0⟩, some ⟨79 / 10, 0⟩⟩ ∧
      ¬ ((79 / 10 : ℚ) + 3 / 10 ≤ Params.width / 2) := by
  constructor
  · norm_num [RigidBody2D.Update, RigidBody2D.GetNextFramePos, RigidBody2D.box, RigidBody2D.Move,
      Vector2.add, Vector2.smul, fdiv, LerpV, Lerp, Params.width, Params.height,
      Params.speedModificatory]
    rw [abs_of_pos (by norm_num)]; norm_num
  · norm_num [Params.width]

/-! ## Elastic collision (`Game::UpdateVelocity`) -/

/-- Claim C4: two bodies with distinct centres, velocities `v` and `-v`, and `v` parallel to the
line through the centres leave `UpdateVelocity` with the velocities `-v` and `v`. -/
theorem UpdateVelocity_head_on (rb1 rb2 : RigidBody2D) (v : Vector2)
    (hx : rb1.position ≠ rb2.position)
    (h1 : rb1.velocity = v) (h2 : rb2.velocity = ⟨-v.x, -v.y⟩)
    (hpar : v.x * (rb1.position.y - rb2.position.y) = v.y * (rb1.position.x - rb2.position.x)) :
    UpdateVelocity rb1 rb2 = some (⟨-v.x, -v.y⟩, v) := by
  have ha := LengthPow2_sub_ne_zero hx
  have hb := LengthPow2_sub_ne_zero (Ne.symm hx)
  rw [UpdateVelocity_of_ne rb1 rb2 hx, h1, h2]
  simp only [Vector2.LengthPow2, Vector2.sub, Vector2.smul, Vector2.Dot] at ha hb ⊢
  simp only [Option.some.injEq, Prod.mk.injEq, Vector2.eq_iff]
  refine ⟨⟨?_, ?_⟩, ?_, ?_⟩
  · field_simp
    linear_combination (2 * (rb1.position.y - rb2.position.y)) * hpar
  · field_simp
    linear_combination (-2 * (rb1.position.x - rb2.position.x)) * hpar
  · field_simp
    linear_combination (-2 * (rb1.position.y - rb2.position.y)) * hpar
  · field_simp
    linear_combination (2 * (rb1.position.x - rb2.position.x)) * hpar

/-- The example of claim C4: centres `(0, 0)` and `(0.5, 0)`, velocities `(2, 0)` and `(-2, 0)`. -/
theorem UpdateVelocity_head_on_example :
    UpdateVelocity ⟨⟨⟨0, 0⟩, 3 / 10, 1⟩, ⟨2, 0⟩⟩ ⟨⟨⟨1 / 2, 0⟩, 3 / 10, 2⟩, ⟨-2, 0⟩⟩ =
      some (⟨-2, 0⟩, ⟨2, 0⟩) := by
  have h := UpdateVelocity_head_on ⟨⟨⟨0, 0⟩, 3 / 10, 1⟩, ⟨2, 0⟩⟩ ⟨⟨⟨1 / 2, 0⟩, 3 / 10, 2⟩, ⟨-2, 0⟩⟩
    ⟨2, 0⟩ (by simp [Vector2.eq_iff]) rfl (by simp) (by simp)
  simpa using h

/-- Claim C5: for distinct centres `UpdateVelocity` returns velocities with the same sum and
the same sum of squared lengths as the velocities it was given. -/
theorem UpdateVelocity_conserves (rb1 rb2 : RigidBody2D) (hx : rb1.position ≠ rb2.position) :
    ∃ v1 v2 : Vector2, UpdateVelocity rb1 rb2 = some (v1, v2) ∧
      v1.add v2 = rb1.velocity.add rb2.velocity ∧
      v1.LengthPow2 + v2.LengthPow2 = rb1.velocity.LengthPow2 + rb2.velocity.LengthPow2 := by
  have ha := LengthPow2_sub_ne_zero hx
  have hb := LengthPow2_sub_ne_zero (Ne.symm hx)
  refine ⟨_, _, UpdateVelocity_of_ne rb1 rb2 hx, ?_, ?_⟩
  · simp only [Vector2.LengthPow2, Vector2.sub, Vector2.smul, Vector2.Dot, Vector2.add,
      Vector2.eq_iff] at ha hb ⊢
    constructor <;> (field_simp; ring)
  · simp only [Vector2.LengthPow2, Vector2.sub, Vector2.smul, Vector2.Dot, Vector2.add] at ha hb ⊢
    field_simp
    ring

/-- An instance of claim C5: centres `(0, 0)` and `(0.5, 1)`, velocities `(2, 1)` and `(-3, 5)`. -/
theorem UpdateVelocity_conserves_example :
    (⟨0, 0⟩ : Vector2) ≠ ⟨1 / 2, 1⟩ ∧
    ∃ v1 v2 : Vector2,
      UpdateVelocity ⟨⟨⟨0, 0⟩, 3 / 10, 1⟩, ⟨2, 1⟩⟩ ⟨⟨⟨1 / 2, 1⟩, 3 / 10, 2⟩, ⟨-3, 5⟩⟩ = some (v1, v2) ∧
      v1.add v2 = (⟨2, 1⟩ : Vector2).add ⟨-3, 5⟩ ∧
      v1.LengthPow2 + v2.LengthPow2 = (⟨2, 1⟩ : Vector2).LengthPow2 + (⟨-3, 5⟩ : Vector2).LengthPow2 :=
  ⟨by simp [Vector2.eq_iff],
   UpdateVelocity_conserves ⟨⟨⟨0, 0⟩, 3 / 10, 1⟩, ⟨2, 1⟩⟩ ⟨⟨⟨1 / 2, 1⟩, 3 / 10, 2⟩, ⟨-3, 5⟩⟩
     (by simp [Vector2.eq_iff])⟩

/-- Claim C6, at two balls with the common centre `(1, 2)`: `UpdateVelocity` does not skip the
update, it divides by `|x1 - x2|^2 = 0` and neither velocity is kept. -/
theorem UpdateVelocity_coincident_example :
    (⟨1, 2⟩ : Vector2).sub ⟨1, 2⟩ = ⟨0, 0⟩ ∧
    fdiv (((⟨2, 0⟩ : Vector2).sub ⟨-2, 0⟩).Dot ((⟨1, 2⟩ : Vector2).sub ⟨1, 2⟩))
      ((⟨1, 2⟩ : Vector2).sub ⟨1, 2⟩).LengthPow2 = none ∧
    UpdateVelocity ⟨⟨⟨1, 2⟩, 3 / 10, 1⟩, ⟨2, 0⟩⟩ ⟨⟨⟨1, 2⟩, 3 / 10, 2⟩, ⟨-2, 0⟩⟩ = none := by
  refine ⟨?_, ?_, UpdateVelocity_of_eq _ _ rfl⟩ <;>
    simp [fdiv, Vector2.sub, Vector2.LengthPow2]

/-! ## Pocket capture (`Game::HandlePocketCollision`) -/

/-- Claim C7: with the six pockets of radius `0.4` at their fixed positions, for a live ball
of radius `0.3` that overlaps a pocket, `HandlePocketCollision` leaves the list of live
balls with that ball erased and nothing else changed, so one shorter, and appends that
ball's mesh handle once to the log of `destroyMesh` calls. -/
theorem HandlePocketCollision_captures (sqrt : ℚ → ℚ) (hs : IsSqrt sqrt) (g : Game) (ball : Ptr)
    (hpos : g.pocketObjects.map (fun p => p.position) = Params.pocketsPositions)
    (hrad : ∀ p ∈ g.pocketObjects, p.radius = Params.pocketRadius)
    (hball : (g.heap ball).radius = Params.radius)
    (hlive : ball ∈ g.ballsObjects) (hnd : g.ballsObjects.Nodup)
    (hhit : ∃ p ∈ g.pocketObjects, (g.heap ball).toPhysicBody2D.CheckCollision sqrt p = true) :
    (HandlePocketCollision sqrt g ball).ballsObjects = g.ballsObjects.erase ball ∧
      (HandlePocketCollision sqrt g ball).ballsObjects.length + 1 = g.ballsObjects.length ∧
      (HandlePocketCollision sqrt g ball).destroyed = g.destroyed ++ [(g.heap ball).mesh] := by
  have hfilter : g.ballsObjects.filter (fun q => q ≠ ball) = g.ballsObjects.erase ball := by
    rw [List.Nodup.erase_eq_filter hnd]
    congr 1
    funext q
    by_cases hq : q = ball <;> simp [hq]
  rw [HandlePocketCollision_of_hit sqrt hs g ball hpos hrad hball hhit]
  refine ⟨hfilter, ?_, rfl⟩
  show (g.ballsObjects.filter (fun q => q ≠ ball)).length + 1 = g.ballsObjects.length
  rw [hfilter, List.length_erase_of_mem hlive]
  have := List.length_pos_of_mem hlive
  omega

/-- The example of claim C7: ball `0` of seven is centred on a pocket; the count goes from 7
to 6 and the handle `1` of that ball is destroyed once. -/
theorem HandlePocketCollision_captures_example :
    sevenBallGame.ballsObjects.length = 7 ∧
      (sevenBallGame.heap 0).position ∈ Params.pocketsPositions ∧
      (HandlePocketCollision sqrtQ sevenBallGame 0).ballsObjects = [1, 2, 3, 4, 5, 6] ∧
      (HandlePocketCollision sqrtQ sevenBallGame 0).ballsObjects.length = 6 ∧
      (HandlePocketCollision sqrtQ sevenBallGame 0).destroyed = [1] := by
  have h := HandlePocketCollision_captures sqrtQ isSqrt_sqrtQ sevenBallGame 0
    sixPockets_position sixPockets_radius rfl (by simp [sevenBallGame])
    (by simp [sevenBallGame])
    ⟨⟨⟨0, -(1 / 2) * Params.height⟩, Params.pocketRadius, 9⟩,
      by simp [sevenBallGame, sixPockets, Params.pocketsPositions],
      by norm_num [sevenBallGame, PhysicBody2D.CheckCollision, Vector2.DistanceTo, Params.height,
        Params.radius, Params.pocketRadius, sqrtQ_zero]⟩
  refine ⟨rfl, ?_, ?_, ?_, ?_⟩
  · norm_num [sevenBallGame, Params.pocketsPositions, Params.height, Vector2.eq_iff]
  · rw [h.1]; simp [sevenBallGame]
  · rw [h.1]; simp [sevenBallGame]
  · rw [h.2.2]; simp [sevenBallGame]

/-! ## The per-ball loop of `Game::update` (lines 438-441) -/

/-- Claim C8, at three live balls of which the first overlaps a pocket: the loop of lines 438-441
visits ball `0`, then ball `2` twice; ball `1`, live before and after the tick, is not
visited. -/
theorem ballLoop_threeBallGame :
    threeBallGame.ballsObjects = [0, 1, 2] ∧
    ∃ s : LoopState, ballLoop sqrtQ threeBallGame (1 / 10) = some s ∧
      s.game.ballsObjects = [1, 2] ∧ s.visited = [0, 2, 2] := by
  refine ⟨rfl, ?_⟩
  -- at rest, `Update` leaves each of the three balls as it is
  have hU : ∀ p, (threeBallGame.heap p).Update (1 / 10) =
      ⟨(threeBallGame.heap p).velocity, some (threeBallGame.heap p).position⟩ := by
    intro p
    by_cases h0 : p = 0
    · subst h0
      norm_num [threeBallGame, RigidBody2D.Update, RigidBody2D.GetNextFramePos, RigidBody2D.box,
        RigidBody2D.Move, Vector2.add, Vector2.smul, Params.width, Params.height, Params.radius]
    · by_cases h1 : p = 1
      · subst h1
        norm_num [threeBallGame, RigidBody2D.Update, RigidBody2D.GetNextFramePos, RigidBody2D.box,
          RigidBody2D.Move, Vector2.add, Vector2.smul, Params.width, Params.height, Params.radius]
      · norm_num [threeBallGame, h0, h1, RigidBody2D.Update, RigidBody2D.GetNextFramePos,
          RigidBody2D.box, RigidBody2D.Move, Vector2.add, Vector2.smul, Params.width,
          Params.height, Params.radius]
  have hfar : HandlePocketCollision sqrtQ
      { threeBallGame with
        table := threeBallGame.table.removeBall (threeBallGame.heap 0).mesh
        destroyed := threeBallGame.destroyed ++ [(threeBallGame.heap 0).mesh]
        ballsObjects := threeBallGame.ballsObjects.filter (fun q => q ≠ 0) } 2 =
      { threeBallGame with
        table := threeBallGame.table.removeBall (threeBallGame.heap 0).mesh
        destroyed := threeBallGame.destroyed ++ [(threeBallGame.heap 0).mesh]
        ballsObjects := threeBallGame.ballsObjects.filter (fun q => q ≠ 0) } := by
    apply HandlePocketCollision_of_far sqrtQ isSqrt_sqrtQ
    intro p hp
    simp only [threeBallGame, sixPockets, Params.pocketsPositions, List.zipWith, List.mem_cons,
      List.mem_singleton, List.not_mem_nil, or_false] at hp
    rcases hp with rfl | rfl | rfl | rfl | rfl | rfl <;>
      norm_num [threeBallGame, Params.width, Params.height, Params.radius, Params.pocketRadius]
  have hhit : HandlePocketCollision sqrtQ threeBallGame 0 =
      { threeBallGame with
        table := threeBallGame.table.removeBall (threeBallGame.heap 0).mesh
        destroyed := threeBallGame.destroyed ++ [(threeBallGame.heap 0).mesh]
        ballsObjects := threeBallGame.ballsObjects.filter (fun q => q ≠ 0) } :=
    HandlePocketCollision_of_hit sqrtQ isSqrt_sqrtQ threeBallGame 0 sixPockets_position
      sixPockets_radius rfl
      ⟨⟨⟨0, 1 / 2 * Params.height⟩, Params.pocketRadius, 12⟩,
        by simp [threeBallGame, sixPockets, Params.pocketsPositions],
        by norm_num [threeBallGame, PhysicBody2D.CheckCollision, Vector2.DistanceTo, Params.height,
          Params.radius, Params.pocketRadius, sqrtQ_quarter]⟩
  have hfilter : threeBallGame.ballsObjects.filter (fun q => q ≠ 0) = [1, 2] := by
    simp [threeBallGame]
  have hlen : threeBallGame.ballsObjects.length = 3 := rfl
  have hsto : threeBallGame.ballsObjects = [0, 1, 2] := rfl
  have hrange : List.range 3 = [0, 1, 2] := rfl
  have step0 := ballLoopStep_of_unmoved sqrtQ (1 / 10)
    { game := threeBallGame, storage := [0, 1, 2], visited := [] } 0 0 rfl (hU 0)
  have step1 := ballLoopStep_of_unmoved sqrtQ (1 / 10)
    { game := { threeBallGame with
        table := threeBallGame.table.removeBall (threeBallGame.heap 0).mesh
        destroyed := threeBallGame.destroyed ++ [(threeBallGame.heap 0).mesh]
        ballsObjects := [1, 2] },
      storage := [1, 2, 2], visited := [0] } 1 2 rfl (hU 2)
  have step2 := ballLoopStep_of_unmoved sqrtQ (1 / 10)
    { game := { threeBallGame with
        table := threeBallGame.table.removeBall (threeBallGame.heap 0).mesh
        destroyed := threeBallGame.destroyed ++ [(threeBallGame.heap 0).mesh]
        ballsObjects := [1, 2] },
      storage := [1, 2, 2], visited := [0, 2] } 2 2 rfl (hU 2)
  rw [hfilter] at hhit hfar
  simp only [hhit] at step0
  simp only [hfar] at step1 step2
  unfold ballLoop
  rw [hlen, hsto, hrange, List.foldl_cons, List.foldl_cons, List.foldl_cons, List.foldl_nil, step0]
  simp only [List.length_cons, List.length_nil, List.drop, List.cons_append, List.nil_append,
    List.append_nil] at step1 step2 ⊢
  rw [step1, step2]
  exact ⟨_, rfl, rfl, rfl⟩

/-! ## Shot controller -/

/-- Claim C9: after any sequence of presses, releases and updates with `dt ≥ 0` from the initial
state, `shotChargeProgress` lies in `[0, 1]`, and one more update with any `dt` whatever
leaves it at most `1`. -/
theorem shotChargeProgress_mem_unit (events : List Shot.Event) (dt : ℚ)
    (h : Shot.NonnegTicks events) :
    0 ≤ (Shot.init.run events).shotChargeProgress ∧
      (Shot.init.run events).shotChargeProgress ≤ 1 ∧
      ((Shot.init.run events).update dt).shotChargeProgress ≤ 1 := by
  have hi := Shot.run_invariant events Shot.init h (by simp [Shot.init]) (by simp [Shot.init])
  exact ⟨hi.1, hi.2, Shot.update_le_one _ _ hi.2⟩

/-- An instance of claim C9: press, update `0.5`, update `100`, release, press, update `3`,
followed by one update with `dt = 1000000`. -/
theorem shotChargeProgress_mem_unit_example :
    Shot.NonnegTicks
        [.pressed 0 0, .tick (1 / 2), .tick 100, .released 1 1, .pressed 0 0, .tick 3] ∧
      (0 ≤ (Shot.init.run
          [.pressed 0 0, .tick (1 / 2), .tick 100, .released 1 1, .pressed 0 0,
            .tick 3]).shotChargeProgress ∧
        (Shot.init.run
          [.pressed 0 0, .tick (1 / 2), .tick 100, .released 1 1, .pressed 0 0,
            .tick 3]).shotChargeProgress ≤ 1 ∧
        ((Shot.init.run
          [.pressed 0 0, .tick (1 / 2), .tick 100, .released 1 1, .pressed 0 0,
            .tick 3]).update 1000000).shotChargeProgress ≤ 1) :=
  have h : Shot.NonnegTicks
      [.pressed 0 0, .tick (1 / 2), .tick 100, .released 1 1, .pressed 0 0, .tick 3] := by
    intro dt hdt
    simp only [List.mem_cons, List.mem_singleton, List.not_mem_nil, or_false] at hdt
    rcases hdt with h | h | h | h | h | h <;> simp at h <;> subst h <;> norm_num
  ⟨h, shotChargeProgress_mem_unit _ 1000000 h⟩

/-- Claim C10: a release at `(p.x + d, p.y)` with `d > 0`, where `p` is the position of the
player ball, sets the velocity of the player ball to `(c * maxSpeed, 0)` for the charge
progress `c` of the state, clears `isChargingShot` and resets `shotChargeProgress` to `0`. -/
theorem mouseButtonReleased_right (sqrt : ℚ → ℚ) (hs : IsSqrt sqrt) (g : Game) (d : ℚ)
    (hd : 0 < d) :
    ∃ g' : Game,
      Game.mouseButtonReleased sqrt g ((g.heap g.playerBall).position.x + d)
        (g.heap g.playerBall).position.y = some g' ∧
      (g'.heap g'.playerBall).velocity = ⟨g.shotChargeProgress * Params.maxSpeed, 0⟩ ∧
      g'.isChargingShot = false ∧ g'.shotChargeProgress = 0 := by
  unfold Game.mouseButtonReleased
  rw [DirectionTo_right sqrt hs _ d hd]
  refine ⟨_, rfl, ?_, ?_, ?_⟩
  · simp [Normalized_unit_x sqrt hs, Vector2.smul]
  · simp [Shot.mouseButtonReleased]
  · simp [Shot.mouseButtonReleased]

/-- The example of claim C10: after a press and two updates with `dt = 0.5` the progress is `1`,
and a release one unit to the right of the player ball gives the velocity `(19, 0)`. -/
theorem mouseButtonReleased_right_example :
    chargedGame.shotChargeProgress = 1 ∧
    ∃ g' : Game, Game.mouseButtonReleased sqrtQ chargedGame (-(9 / 2) + 1) 0 = some g' ∧
      (g'.heap g'.playerBall).velocity = ⟨19, 0⟩ ∧
      g'.isChargingShot = false ∧ g'.shotChargeProgress = 0 := by
  have hc : chargedGame.shotChargeProgress = 1 := by
    norm_num [chargedGame, Shot.run, Shot.step, Shot.update, Shot.init, Shot.mouseButtonPressed,
      Params.chargeTime]
  have h := mouseButtonReleased_right sqrtQ isSqrt_sqrtQ chargedGame 1 one_pos
  rw [hc] at h
  refine ⟨hc, ?_⟩
  simpa [chargedGame, Params.maxSpeed] using h

/-! ## Shot controller: idle states and degenerate releases -/

/-- Claim C11: in a state reached from the initial state by any sequence of presses, releases
and updates in which `isChargingShot` is false, `shotChargeProgress` is `0`; and a press
followed at once by a release at a point other than the position of the player ball sets
the velocity of the player ball to `(0, 0)`. -/
theorem press_release_zero (sqrt : ℚ → ℚ) (hs : IsSqrt sqrt) (events : List Shot.Event)
    (g : Game) (px py x y : ℚ)
    (hreach : g.toShot = Shot.init.run events) (hidle : g.isChargingShot = false)
    (hne : (g.heap g.playerBall).position ≠ ⟨x, y⟩) :
    g.shotChargeProgress = 0 ∧
      ∃ g' : Game, (g.mouseButtonPressed px py).mouseButtonReleased sqrt x y = some g' ∧
        (g'.heap g'.playerBall).velocity = ⟨0, 0⟩ := by
  have h0 : g.shotChargeProgress = 0 := by
    have := Shot.run_idle events Shot.init (fun _ => rfl)
    rw [← hreach] at this
    exact this hidle
  refine ⟨h0, ?_⟩
  unfold Game.mouseButtonReleased
  have hp : ((g.mouseButtonPressed px py).heap (g.mouseButtonPressed px py).playerBall).position
      = (g.heap g.playerBall).position := rfl
  rw [hp, DirectionTo_of_ne sqrt hs _ _ hne]
  refine ⟨_, rfl, ?_⟩
  have hc : (g.mouseButtonPressed px py).shotChargeProgress = 0 := h0
  simp [hc, Vector2.smul]

/-- An instance of claim C11: after press, update `0.5`, release the controller is idle with
progress `0`, and a press and release at `(3, 4)` leave the player ball with velocity
`(0, 0)`. -/
theorem press_release_zero_example :
    releasedGame.toShot = Shot.init.run [.pressed 0 0, .tick (1 / 2), .released 1 1] ∧
      releasedGame.isChargingShot = false ∧
      releasedGame.shotChargeProgress = 0 ∧
      ∃ g' : Game, (releasedGame.mouseButtonPressed 3 4).mouseButtonReleased sqrtQ 3 4 = some g' ∧
        (g'.heap g'.playerBall).velocity = ⟨0, 0⟩ :=
  have hidle : releasedGame.isChargingShot = false := by
    simp [releasedGame, Shot.run, Shot.step, Shot.mouseButtonReleased]
  ⟨rfl, hidle,
    press_release_zero sqrtQ isSqrt_sqrtQ [.pressed 0 0, .tick (1 / 2), .released 1 1]
      releasedGame 3 4 3 4 rfl hidle (by simp [releasedGame, Vector2.eq_iff])⟩

/-- Claim C12, at a release on the position `(-4.5, 0)` of the player ball: the distance is `0`,
`DirectionTo` divides by it, and the velocity that `mouseButtonReleased` stores is not a
pair of numbers. -/
theorem mouseButtonReleased_coincident_example :
    (chargedGame.heap chargedGame.playerBall).position = ⟨-(9 / 2), 0⟩ ∧
      Vector2.DistanceTo sqrtQ (chargedGame.heap chargedGame.playerBall).position ⟨-(9 / 2), 0⟩ = 0 ∧
      (chargedGame.heap chargedGame.playerBall).position.DirectionTo sqrtQ ⟨-(9 / 2), 0⟩ = none ∧
      chargedGame.mouseButtonReleased sqrtQ (-(9 / 2)) 0 = none := by
  refine ⟨rfl, ?_, DirectionTo_self sqrtQ isSqrt_sqrtQ _, mouseButtonReleased_coincident sqrtQ isSqrt_sqrtQ chargedGame⟩
  simp [Vector2.DistanceTo, chargedGame, sqrtQ_zero]

/-! ## Restart (`Game::deinit`, `Game::init`) -/

/-- Claim C13, at a restart while a shot is charged with progress `1/2`: after `deinit` and
`init` the seven balls are new, `isChargingShot` is still set and `shotChargeProgress` is
still `1/2`. -/
theorem restart_keeps_charge :
    halfChargedGame.isChargingShot = true ∧ halfChargedGame.shotChargeProgress = 1 / 2 ∧
      ∃ g' : Game,
        halfChargedGame.deinit.init (fun i => 20 + i) (fun i => 30 + i) (fun i => 100 + i) = some g' ∧
        g'.ballsObjects = [100, 101, 102, 103, 104, 105, 106] ∧
        g'.isChargingShot = true ∧ g'.shotChargeProgress = 1 / 2 := by
  have hc : halfChargedGame.isChargingShot = true := by
    simp [halfChargedGame, Shot.run, Shot.step, Shot.update, Shot.init, Shot.mouseButtonPressed]
  have hp : halfChargedGame.shotChargeProgress = 1 / 2 := by
    norm_num [halfChargedGame, Shot.run, Shot.step, Shot.update, Shot.init,
      Shot.mouseButtonPressed, Params.chargeTime]
  obtain ⟨g', hg'⟩ := init_deinit_isSome halfChargedGame (fun i => 20 + i) (fun i => 30 + i)
    (fun i => 100 + i)
  have hs := init_toShot _ _ _ _ _ hg'
  rw [deinit_toShot] at hs
  refine ⟨hc, hp, g', hg', ?_, ?_, ?_⟩
  · unfold Game.init at hg'
    simp [Game.deinit, Table.init, Table.cleared] at hg'
    rw [← hg']
    rfl
  · show g'.toShot.isChargingShot = true
    rw [hs]; exact hc
  · show g'.toShot.shotChargeProgress = 1 / 2
    rw [hs]; exact hp

/-! ## Ball registry (`Table::removeBall`) -/

/-- Claim C14 as stated fails for the handle `nullptr`: in the registry `[1, 0, 2, 0, 3, 4, 5]`,
whose non-null handles are distinct, the first `removeBall(nullptr)` gives
`[1, 2, 0, 3, 4, 5, 0]` and the second changes the registry again, to
`[1, 2, 3, 4, 5, 0, 0]`. -/
theorem removeBall_nullptr_twice :
    (([1, 0, 2, 0, 3, 4, 5] : List Mesh).filter (fun m => m ≠ 0)).Nodup ∧
      ((⟨[1, 0, 2, 0, 3, 4, 5], []⟩ : Table).removeBall 0).balls = [1, 2, 0, 3, 4, 5, 0] ∧
      (((⟨[1, 0, 2, 0, 3, 4, 5], []⟩ : Table).removeBall 0).removeBall 0).balls =
        [1, 2, 3, 4, 5, 0, 0] ∧
      ((⟨[1, 0, 2, 0, 3, 4, 5], []⟩ : Table).removeBall 0).removeBall 0 ≠
        (⟨[1, 0, 2, 0, 3, 4, 5], []⟩ : Table).removeBall 0 := by
  decide

/-- Claim C14, for a handle `h` other than `nullptr`: in a registry of 7 slots whose non-null
handles are pairwise distinct, `removeBall(h)` yields the registry with `h` erased, the
other slots in their order moved up, and `nullptr` in the last slot; it leaves a registry
without `h` as it is; the result has 7 slots and does not hold `h`, so a second
`removeBall(h)` changes nothing. -/
theorem removeBall_spec (t : Table) (h : Mesh) (hlen : t.balls.length = 7)
    (hnd : (t.balls.filter (fun m => m ≠ 0)).Nodup) (hh : h ≠ 0) :
    (h ∈ t.balls → (t.removeBall h).balls = t.balls.erase h ++ [0]) ∧
      (h ∉ t.balls → t.removeBall h = t) ∧
      (t.removeBall h).balls.length = 7 ∧
      h ∉ (t.removeBall h).balls ∧
      (t.removeBall h).removeBall h = t.removeBall h := by
  have hnot : h ∉ (t.removeBall h).balls := by
    simp only [Table.removeBall, removeBallSlots_eq]
    split_ifs with hm
    · simp only [List.mem_append, List.mem_singleton, not_or]
      exact ⟨not_mem_erase_of_nodup_filter _ h hh hnd, hh⟩
    · exact hm
  refine ⟨?_, ?_, ?_, hnot, ?_⟩
  · intro hm
    simp [Table.removeBall, removeBallSlots_eq, hm]
  · intro hm
    simp [Table.removeBall, removeBallSlots_eq, hm]
  · simp only [Table.removeBall, removeBallSlots_eq]
    split_ifs with hm
    · rw [List.length_append, List.length_erase_of_mem hm, hlen]; rfl
    · exact hlen
  · have : removeBallSlots (t.removeBall h).balls h = (t.removeBall h).balls := by
      rw [removeBallSlots_eq, if_neg hnot]
    simp only [Table.removeBall] at this ⊢
    rw [this]

/-- An instance of claim C14: removing handle `3` from `[1, ..., 7]`, once and twice. -/
theorem removeBall_spec_example :
    (([1, 2, 3, 4, 5, 6, 7] : List Mesh).filter (fun m => m ≠ 0)).Nodup ∧
      ((⟨[1, 2, 3, 4, 5, 6, 7], []⟩ : Table).removeBall 3).balls = [1, 2, 4, 5, 6, 7, 0] ∧
      ((⟨[1, 2, 3, 4, 5, 6, 7], []⟩ : Table).removeBall 3).removeBall 3 =
        (⟨[1, 2, 3, 4, 5, 6, 7], []⟩ : Table).removeBall 3 := by
  have h := removeBall_spec ⟨[1, 2, 3, 4, 5, 6, 7], []⟩ 3 rfl (by decide) (by decide)
  exact ⟨by decide, by rw [h.1 (by decide)]; decide, h.2.2.2.2⟩

/-! ## Normalization (`Vector2::Normalized`) -/

/-- Claim C15 as stated fails in binary32 at the vector `(7245, 11948)`, whose length is
`13973`: `x / |v| = 0.5184999642...` rounded to three decimal places is `0.518`, but the float
quotient `x / mag` times `1000` rounds to the float `518.5`, `round` makes it `519`, and
`Normalized` returns the float nearest to `0.519`, which is more than `0.0005` away from
`x / |v|`. -/
theorem Normalized_error_exceeds :
    (7245 : ℚ) ^ 2 + 11948 ^ 2 = 13973 ^ 2 ∧
      Vector2.LengthF f32 sqrtQ ⟨7245, 11948⟩ = 13973 ∧
      cround (7245 / 13973 * 1000) = 518 ∧
      (Vector2.NormalizedF f32 sqrtQ ⟨7245, 11948⟩).x = f32 (519 / 1000) ∧
      1 / 2000 < (Vector2.NormalizedF f32 sqrtQ ⟨7245, 11948⟩).x - 7245 / 13973 := by
  have hc : f32 (519 / 1000) = 8707375 * 2 ^ (-24 : ℤ) := by
    rw [f32_eq _ (-1) 8707375 (by norm_num [abs_of_pos]) (by norm_num [abs_of_pos])
      (Or.inl (by norm_num [abs_lt]))]
    norm_num
  refine ⟨by norm_num, pythagorean_LengthF, ?_, ?_, ?_⟩
  · unfold cround
    rw [if_pos (by norm_num)]
    have h : ⌊(7245 : ℚ) / 13973 * 1000 + 1 / 2⌋ = 518 := by
      rw [Int.floor_eq_iff]
      constructor <;> norm_num
    rw [h]; norm_num
  · rw [pythagorean_NormalizedF_x, hc]
  · rw [pythagorean_NormalizedF_x]
    norm_num

/-- Claim C15 with the roundings of the program, for a rounding `fl` of relative error at most
`ε ≤ 0.001` (binary32: `ε = 2^-24`): `Normalized` returns `(0, 0)` for `(0, 0)`; for every
`v ≠ (0, 0)` at which the computed root is within the relative error `δ ≤ 0.001` of the real
square root of `x^2 + y^2`, the computed length is positive, the components of the result are
the roundings of `n / 1000` and `m / 1000` for integers `n`, `m`, each component is within
`0.0005 + 5 ε + 2 δ` of the component `x / |v|`, `y / |v|` of the exact unit vector, and the
squared length of the result is within three times that bound of `1`. -/
theorem NormalizedF_spec (fl sqrt : ℚ → ℚ) (ε δ : ℚ)
    (hε0 : 0 ≤ ε) (hε : ε ≤ 1 / 1000) (hδ0 : 0 ≤ δ) (hδ : δ ≤ 1 / 1000)
    (hfl : ∀ q, |fl q - q| ≤ ε * |q|) :
    Vector2.NormalizedF fl sqrt ⟨0, 0⟩ = ⟨0, 0⟩ ∧
      ∀ v : Vector2, v ≠ ⟨0, 0⟩ →
        |((sqrt (v.x ^ 2 + v.y ^ 2) : ℚ) : ℝ) - Real.sqrt ((v.x : ℝ) ^ 2 + (v.y : ℝ) ^ 2)| ≤
          δ * Real.sqrt ((v.x : ℝ) ^ 2 + (v.y : ℝ) ^ 2) →
        0 < v.LengthF fl sqrt ∧
        (∃ n m : ℤ, v.NormalizedF fl sqrt = ⟨fl (n / 1000), fl (m / 1000)⟩) ∧
        |(((v.NormalizedF fl sqrt).x : ℚ) : ℝ) -
            v.x / Real.sqrt ((v.x : ℝ) ^ 2 + (v.y : ℝ) ^ 2)| ≤ (1 / 2000 + 5 * ε + 2 * δ : ℝ) ∧
        |(((v.NormalizedF fl sqrt).y : ℚ) : ℝ) -
            v.y / Real.sqrt ((v.x : ℝ) ^ 2 + (v.y : ℝ) ^ 2)| ≤ (1 / 2000 + 5 * ε + 2 * δ : ℝ) ∧
        |(((v.NormalizedF fl sqrt).x : ℚ) : ℝ) ^ 2 +
            (((v.NormalizedF fl sqrt).y : ℚ) : ℝ) ^ 2 - (1 : ℝ)| ≤
          (3 * (1 / 2000 + 5 * ε + 2 * δ) : ℝ) := by
  refine ⟨NormalizedF_zero fl sqrt (fl_zero_of_err fl ε hfl), fun v hv hs => ?_⟩
  have hε0r : (0 : ℝ) ≤ ε := by exact_mod_cast hε0
  have hδ0r : (0 : ℝ) ≤ δ := by exact_mod_cast hδ0
  have hεr : (ε : ℝ) ≤ 1 / 1000 := by
    have := (Rat.cast_le (K := ℝ)).2 hε
    push_cast at this
    exact this
  have hδr : (δ : ℝ) ≤ 1 / 1000 := by
    have := (Rat.cast_le (K := ℝ)).2 hδ
    push_cast at this
    exact this
  have hspos : (0 : ℝ) < (v.x : ℝ) ^ 2 + (v.y : ℝ) ^ 2 := by
    have hne : v.x ≠ 0 ∨ v.y ≠ 0 := by
      by_contra hcon
      push_neg at hcon
      exact hv ((Vector2.eq_iff _ _).2 ⟨hcon.1, hcon.2⟩)
    rcases hne with h | h
    · have : (0 : ℝ) < (v.x : ℝ) ^ 2 := by positivity
      nlinarith [sq_nonneg (v.y : ℝ)]
    · have : (0 : ℝ) < (v.y : ℝ) ^ 2 := by positivity
      nlinarith [sq_nonneg (v.x : ℝ)]
  have hL : 0 < Real.sqrt ((v.x : ℝ) ^ 2 + (v.y : ℝ) ^ 2) := Real.sqrt_pos.2 hspos
  have hLsq : Real.sqrt ((v.x : ℝ) ^ 2 + (v.y : ℝ) ^ 2) ^ 2 = (v.x : ℝ) ^ 2 + (v.y : ℝ) ^ 2 :=
    Real.sq_sqrt hspos.le
  have hM := length_error ε δ ((v.LengthF fl sqrt : ℚ) : ℝ)
    ((sqrt (v.x ^ 2 + v.y ^ 2) : ℚ) : ℝ) _ hε0r hL.le
    (fl_cast_err fl ε hfl (sqrt (v.x ^ 2 + v.y ^ 2))) hs
  have hκ : (ε : ℝ) + δ + ε * δ ≤ 1 / 400 := by nlinarith
  have hMpos : (0 : ℝ) < ((v.LengthF fl sqrt : ℚ) : ℝ) := by
    have h1 := (abs_le.1 hM).1
    have h2 := mul_le_mul_of_nonneg_right hκ hL.le
    linarith
  have hMposq : 0 < v.LengthF fl sqrt := by exact_mod_cast hMpos
  have hx : |(v.x : ℝ)| ≤ Real.sqrt ((v.x : ℝ) ^ 2 + (v.y : ℝ) ^ 2) :=
    Real.abs_le_sqrt (by nlinarith [sq_nonneg (v.y : ℝ)])
  have hy : |(v.y : ℝ)| ≤ Real.sqrt ((v.x : ℝ) ^ 2 + (v.y : ℝ) ^ 2) :=
    Real.abs_le_sqrt (by nlinarith [sq_nonneg (v.x : ℝ)])
  have hN : v.NormalizedF fl sqrt =
      ⟨fl (cround (fl (fl (v.x / v.LengthF fl sqrt) * 1000)) / 1000),
       fl (cround (fl (fl (v.y / v.LengthF fl sqrt) * 1000)) / 1000)⟩ := by
    simp only [Vector2.NormalizedF]
    rw [if_pos (ne_of_gt hMposq)]
  have ex := NormalizedF_component fl ε δ hε0 hε hδ0 hδ hfl v.x (v.LengthF fl sqrt) _ hL hx hM
  have ey := NormalizedF_component fl ε δ hε0 hε hδ0 hδ hfl v.y (v.LengthF fl sqrt) _ hL hy hM
  obtain ⟨n, hn⟩ := cround_isInt (fl (fl (v.x / v.LengthF fl sqrt) * 1000))
  obtain ⟨m, hm⟩ := cround_isInt (fl (fl (v.y / v.LengthF fl sqrt) * 1000))
  refine ⟨hMposq, ⟨n, m, by rw [hN, hn, hm]⟩, ?_, ?_, ?_⟩
  · rw [hN]; exact ex
  · rw [hN]; exact ey
  · rw [hN]
    apply unit_length_within _ _ _ _ _ _ (by nlinarith) ex ey
    rw [div_pow, div_pow, ← add_div, hLsq]
    exact div_self (ne_of_gt hspos)

/-- An instance of claim C15 in binary32: the vector `(1, 1)`, whose length is irrational, with
the root `sqrtD`, which is within `10^-15` of the real root of `2`, is normalized to
`(0.707f, 0.707f)`. -/
theorem NormalizedF_spec_example :
    Vector2.NormalizedF f32 sqrtD ⟨1, 1⟩ = ⟨f32 (707 / 1000), f32 (707 / 1000)⟩ ∧
      0 < Vector2.LengthF f32 sqrtD ⟨1, 1⟩ ∧
      (∃ n m : ℤ, Vector2.NormalizedF f32 sqrtD ⟨1, 1⟩ = ⟨f32 (n / 1000), f32 (m / 1000)⟩) ∧
      |(((Vector2.NormalizedF f32 sqrtD ⟨1, 1⟩).x : ℚ) : ℝ) -
          ((1 : ℚ) : ℝ) / Real.sqrt (((1 : ℚ) : ℝ) ^ 2 + ((1 : ℚ) : ℝ) ^ 2)| ≤
        (1 / 2000 + 5 * ((2 ^ (-24 : ℤ) : ℚ) : ℝ) + 2 * ((1 / 10 ^ 15 : ℚ) : ℝ) : ℝ) ∧
      |(((Vector2.NormalizedF f32 sqrtD ⟨1, 1⟩).y : ℚ) : ℝ) -
          ((1 : ℚ) : ℝ) / Real.sqrt (((1 : ℚ) : ℝ) ^ 2 + ((1 : ℚ) : ℝ) ^ 2)| ≤
        (1 / 2000 + 5 * ((2 ^ (-24 : ℤ) : ℚ) : ℝ) + 2 * ((1 / 10 ^ 15 : ℚ) : ℝ) : ℝ) ∧
      |(((Vector2.NormalizedF f32 sqrtD ⟨1, 1⟩).x : ℚ) : ℝ) ^ 2 +
          (((Vector2.NormalizedF f32 sqrtD ⟨1, 1⟩).y : ℚ) : ℝ) ^ 2 - (1 : ℝ)| ≤
        (3 * (1 / 2000 + 5 * ((2 ^ (-24 : ℤ) : ℚ) : ℝ) + 2 * ((1 / 10 ^ 15 : ℚ) : ℝ)) : ℝ) :=
  ⟨diagonal_NormalizedF,
    (NormalizedF_spec f32 sqrtD (2 ^ (-24 : ℤ)) (1 / 10 ^ 15) (by norm_num) (by norm_num)
      (by norm_num) (by norm_num) f32_err).2 ⟨1, 1⟩ (by simp [Vector2.eq_iff]) sqrtD_two_error⟩

/-! ## Wall collisions: the collision point -/

/-- Claim C16, in the top, left and right branch: for a ball of radius `0.3` that moves by `0.5`
into the wall, the collision point has the coordinate `4.3` instead of `3.7` (top), `-3.7`
instead of `-7.2` (left) and `4.3` instead of `7.2` (right). -/
theorem collisionPoint_wrong_line :
    (RigidBody2D.wall ⟨⟨⟨0, 36 / 10⟩, 3 / 10, 1⟩, ⟨0, 5⟩⟩ (1 / 10) = some Wall.top ∧
      RigidBody2D.collisionPoint ⟨⟨⟨0, 36 / 10⟩, 3 / 10, 1⟩, ⟨0, 5⟩⟩ (1 / 10) Wall.top =
        some ⟨0, 43 / 10⟩ ∧
      RigidBody2D.touchLine ⟨⟨⟨0, 36 / 10⟩, 3 / 10, 1⟩, ⟨0, 5⟩⟩ Wall.top = 37 / 10) ∧
    (RigidBody2D.wall ⟨⟨⟨-(71 / 10), 0⟩, 3 / 10, 1⟩, ⟨-5, 0⟩⟩ (1 / 10) = some Wall.left ∧
      RigidBody2D.collisionPoint ⟨⟨⟨-(71 / 10), 0⟩, 3 / 10, 1⟩, ⟨-5, 0⟩⟩ (1 / 10) Wall.left =
        some ⟨-(37 / 10), 0⟩ ∧
      RigidBody2D.touchLine ⟨⟨⟨-(71 / 10), 0⟩, 3 / 10, 1⟩, ⟨-5, 0⟩⟩ Wall.left = -(72 / 10)) ∧
    (RigidBody2D.wall ⟨⟨⟨74 / 10, 0⟩, 3 / 10, 1⟩, ⟨5, 0⟩⟩ (1 / 10) = some Wall.right ∧
      RigidBody2D.collisionPoint ⟨⟨⟨74 / 10, 0⟩, 3 / 10, 1⟩, ⟨5, 0⟩⟩ (1 / 10) Wall.right =
        some ⟨43 / 10, 0⟩ ∧
      RigidBody2D.touchLine ⟨⟨⟨74 / 10, 0⟩, 3 / 10, 1⟩, ⟨5, 0⟩⟩ Wall.right = 72 / 10) := by
  refine ⟨⟨?_, ?_, ?_⟩, ⟨?_, ?_, ?_⟩, ⟨?_, ?_, ?_⟩⟩ <;>
    norm_num [RigidBody2D.wall, RigidBody2D.collisionPoint, RigidBody2D.collideTime,
      RigidBody2D.divisor, RigidBody2D.touchLine, RigidBody2D.GetNextFramePos, RigidBody2D.box,
      Vector2.add, Vector2.smul, fdiv, LerpV, Lerp, Params.width, Params.height]

/-- The bottom branch in exact arithmetic: for `velocity.y ≠ 0`, `deltaTime > 0` and
`newPos.y - radius ≤ -height/2`, `Update` without roundings stores the position
`(newPos.x, 2 * (-height/2 + radius) - newPos.y)`, and that position has
`y - radius ≥ -height/2`. -/
theorem Update_bottom_mirror (b : RigidBody2D) (deltaTime : ℚ)
    (hv : b.velocity.y ≠ 0) (hdt : 0 < deltaTime)
    (hcross : (b.GetNextFramePos deltaTime).y - b.radius ≤ -(Params.height / 2)) :
    (b.Update deltaTime).position =
        some ⟨(b.GetNextFramePos deltaTime).x,
          2 * (-(Params.height / 2) + b.radius) - (b.GetNextFramePos deltaTime).y⟩ ∧
      -(Params.height / 2) ≤
        (2 * (-(Params.height / 2) + b.radius) - (b.GetNextFramePos deltaTime).y) - b.radius := by
  have hdiv : b.divisor deltaTime Wall.bottom ≠ 0 := by
    simp only [RigidBody2D.divisor, RigidBody2D.GetNextFramePos, Vector2.add, Vector2.smul]
    have : b.velocity.y * deltaTime ≠ 0 := mul_ne_zero hv (ne_of_gt hdt)
    intro h0
    apply this
    linarith
  obtain ⟨cp, hcp, hy⟩ := collisionPoint_axisCoord b deltaTime Wall.bottom hdiv
  simp only [RigidBody2D.axisCoord, box_three] at hy
  rw [Update_of_wall b deltaTime Wall.bottom (wall_bottom b deltaTime hcross), hcp]
  have habs : |(b.GetNextFramePos deltaTime).y - cp.y| = cp.y - (b.GetNextFramePos deltaTime).y := by
    rw [abs_of_nonpos (by rw [hy]; linarith)]
    ring
  refine ⟨?_, by linarith⟩
  simp only [Option.map_some', RigidBody2D.reposition, Option.some.injEq, Vector2.eq_iff]
  refine ⟨trivial, ?_⟩
  rw [habs, hy]
  ring

/-- The bottom branch in exact arithmetic, at an example: the ball at `(0, -3.6)` with radius
`0.3` and velocity `(0, -5)` is at `(0, -3.3)` after an update with `dt = 0.1`. -/
theorem Update_bottom_mirror_example :
    (⟨⟨⟨0, -(36 / 10)⟩, 3 / 10, 1⟩, ⟨0, -5⟩⟩ : RigidBody2D).velocity.y ≠ 0 ∧
      (RigidBody2D.Update ⟨⟨⟨0, -(36 / 10)⟩, 3 / 10, 1⟩, ⟨0, -5⟩⟩ (1 / 10)).position =
        some ⟨0, -(33 / 10)⟩ := by
  have h := Update_bottom_mirror ⟨⟨⟨0, -(36 / 10)⟩, 3 / 10, 1⟩, ⟨0, -5⟩⟩ (1 / 10)
    (by norm_num) (by norm_num)
    (by norm_num [RigidBody2D.GetNextFramePos, Vector2.add, Vector2.smul, Params.height])
  refine ⟨by norm_num, ?_⟩
  rw [h.1]
  norm_num [RigidBody2D.GetNextFramePos, Vector2.add, Vector2.smul, Params.height]

/-- Claim C17, in binary32 at the ball of radius `0.3f` at `(0, -3.7f)` with the velocity
`(0, 1e-6f)` and `deltaTime` the float nearest to `1/60`: `velocity.y ≠ 0` and `deltaTime > 0`,
but the step `velocity.y * deltaTime` is lost in the rounding of the sum, so that `newPos.y` is
`position.y`; `newPos.y - radius` is at most `-height/2` and rounds to `box[3] = -4`, so
`Update` takes the bottom branch; the divisor `position.y - newPos.y` of `collideTime` is `0`,
and the position that `Update` stores is not a pair of numbers. -/
theorem Update_absorbed_step :
    absorbedBall.velocity.y ≠ 0 ∧ 0 < f32 (1 / 60) ∧
      (absorbedBall.GetNextFramePosF f32 (f32 (1 / 60))).y = absorbedBall.position.y ∧
      (absorbedBall.GetNextFramePosF f32 (f32 (1 / 60))).y - absorbedBall.radius ≤
        -(Params.height / 2) ∧
      f32 ((absorbedBall.GetNextFramePosF f32 (f32 (1 / 60))).y - absorbedBall.radius) =
        RigidBody2D.box 3 ∧
      f32 (absorbedBall.position.y - (absorbedBall.GetNextFramePosF f32 (f32 (1 / 60))).y) = 0 ∧
      (absorbedBall.UpdateF f32 (f32 (1 / 60))).position = none := by
  have hedge : f32 (-15518925 * 2 ^ (-22 : ℤ) - 10066330 * 2 ^ (-25 : ℤ)) = -4 := by
    rw [f32_eq _ 2 (-8388608) (by norm_num [abs_of_pos]) (by norm_num [abs_of_pos])
      (Or.inl (by norm_num [abs_lt]))]
    norm_num
  have hpos : absorbedBall.position.y = -15518925 * 2 ^ (-22 : ℤ) := by
    simp only [absorbedBall, f32_neg_three_point_seven]
  have hrad : absorbedBall.radius = 10066330 * 2 ^ (-25 : ℤ) := by
    simp only [absorbedBall, f32_three_tenths]
  have hbox : RigidBody2D.box 3 = -4 := by norm_num [RigidBody2D.box, Params.height]
  have htest : f32 ((absorbedBall.GetNextFramePosF f32 (f32 (1 / 60))).y - absorbedBall.radius) =
      RigidBody2D.box 3 := by
    rw [absorbedBall_newPos, hpos, hrad, hedge, hbox]
  have hdiv : f32 (absorbedBall.position.y - (absorbedBall.GetNextFramePosF f32 (f32 (1 / 60))).y)
      = 0 := by
    rw [absorbedBall_newPos, sub_self, f32_zero]
  refine ⟨?_, ?_, ?_, ?_, htest, hdiv, ?_⟩
  · simp only [absorbedBall, f32_millionth]; norm_num
  · rw [f32_sixtieth]; norm_num
  · rw [absorbedBall_newPos]
  · rw [absorbedBall_newPos, hpos, hrad]; norm_num [Params.height]
  · unfold RigidBody2D.UpdateF
    simp only [htest, le_refl, if_true, hdiv, fdivF, RigidBody2D.MoveF, Option.map_none']

/-- Claim C20, at a ball of radius `0.3` at `(0, -3.7)`, its edge on the bottom boundary, with
velocity `(1, 0)` and `dt = 0.1`: `Update` takes the bottom branch, the divisor of
`collideTime` is `0`, and the position it stores is not a pair of numbers. -/
theorem Update_zero_divisor :
    RigidBody2D.wall ⟨⟨⟨0, -(37 / 10)⟩, 3 / 10, 1⟩, ⟨1, 0⟩⟩ (1 / 10) = some Wall.bottom ∧
      RigidBody2D.divisor ⟨⟨⟨0, -(37 / 10)⟩, 3 / 10, 1⟩, ⟨1, 0⟩⟩ (1 / 10) Wall.bottom = 0 ∧
      RigidBody2D.collideTime ⟨⟨⟨0, -(37 / 10)⟩, 3 / 10, 1⟩, ⟨1, 0⟩⟩ (1 / 10) Wall.bottom = none ∧
      (RigidBody2D.Update ⟨⟨⟨0, -(37 / 10)⟩, 3 / 10, 1⟩, ⟨1, 0⟩⟩ (1 / 10)).position = none := by
  refine ⟨?_, ?_, ?_, ?_⟩ <;>
    norm_num [RigidBody2D.wall, RigidBody2D.collideTime, RigidBody2D.Update, RigidBody2D.Move,
      RigidBody2D.divisor, RigidBody2D.GetNextFramePos, RigidBody2D.box,
      Vector2.add, Vector2.smul, fdiv, Params.width, Params.height]

/-! ## Sweep and prune: the clusters -/

/-- Claim C18: for a non-empty list of live balls that all have the radius `r` and any result
`snp` of the sort, the clusters are non-empty consecutive runs of `snp` (their
concatenation is `snp`, a permutation of the live balls), and two bodies of different
clusters have a centre distance greater than the sum of their radii. -/
theorem clusters_runs_separated (sqrt : ℚ → ℚ) (hs : IsSqrt sqrt)
    (heap : Ptr → RigidBody2D) (balls snp : List Ptr) (r : ℚ)
    (hne : balls ≠ []) (hrad : ∀ p ∈ balls, (heap p).radius = r)
    (hsort : IsSortOf heap balls snp) :
    ∃ active, broadPhase heap snp = some active ∧
      active.flatten = snp ∧ snp.Perm balls ∧
      (∀ c ∈ active, c ≠ []) ∧
      active.Pairwise (fun c₁ c₂ => ∀ a ∈ c₁, ∀ b ∈ c₂,
        (heap a).radius + (heap b).radius <
          Vector2.DistanceTo sqrt (heap a).position (heap b).position) := by
  have hperm := hsort.1
  have hsorted := isSortOf_pairwise_le hsort
  cases snp with
  | nil => exact absurd (List.Perm.eq_nil (hperm.symm)) hne
  | cons p rest =>
  have hrad2 : ∀ q ∈ p :: rest, (heap q).radius = r := fun q hq => hrad q (hperm.mem_iff.1 hq)
  have hp := hrad2 p (List.mem_cons_self _ _)
  refine ⟨_, broadPhase_cons heap p rest, ?_, hperm, ?_, ?_⟩
  · simpa using clusters_flatten heap rest _ [p]
  · exact clusters_ne_nil heap rest _ [p] (by simp)
  · have hsep := clusters_separated heap r rest ((heap p).position.x + (heap p).radius) [p]
      (by intro c hc; rw [List.mem_singleton.1 hc, hp])
      (by simpa using hsorted)
      (fun q hq => hrad2 q (List.mem_cons_of_mem _ hq))
    have hmem : ∀ c ∈ clusters heap ((heap p).position.x + (heap p).radius) [p] rest,
        ∀ b ∈ c, b ∈ p :: rest := by
      intro c hc b hb
      simpa using mem_of_mem_clusters heap rest _ [p] c hc b hb
    refine List.Pairwise.imp_of_mem ?_ hsep
    intro c₁ c₂ hc₁ hc₂ hgap a ha b hb
    rw [hrad2 a (hmem c₁ hc₁ a ha), hrad2 b (hmem c₂ hc₂ b hb)]
    apply DistanceTo_gt_of_far sqrt hs
    have := hgap a ha b hb
    linarith

/-- An instance of claim C18: three balls of radius `0.3` at `x = 0`, `1/2`, `3`, stored in the
order `2, 0, 1`. -/
theorem clusters_runs_separated_example :
    IsSortOf equalHeap [2, 0, 1] [0, 1, 2] ∧
      ∃ active, broadPhase equalHeap [0, 1, 2] = some active ∧
        active.flatten = [0, 1, 2] ∧ [0, 1, 2].Perm [2, 0, 1] ∧
        (∀ c ∈ active, c ≠ []) ∧
        active.Pairwise (fun c₁ c₂ => ∀ a ∈ c₁, ∀ b ∈ c₂,
          (equalHeap a).radius + (equalHeap b).radius <
            Vector2.DistanceTo sqrtQ (equalHeap a).position (equalHeap b).position) :=
  ⟨isSortOf_equal,
    clusters_runs_separated sqrtQ isSqrt_sqrtQ equalHeap [2, 0, 1] [0, 1, 2] (3 / 10)
      (by simp) (by simp [equalHeap]) isSortOf_equal⟩

/-- Claim C19, at the capture of the last live ball: after the per-ball loop `ballsObjects` is
empty, so the sorted snapshot is empty and the read of `snp[0]` in line 448 is out of
bounds. -/
theorem update_reads_empty_snapshot :
    lastBallGame.ballsObjects = [0] ∧
      ∃ s : LoopState, ballLoop sqrtQ lastBallGame (1 / 10) = some s ∧
        s.game.ballsObjects = [] ∧
        sortSnp s.game.heap s.game.ballsObjects = [] ∧
        broadPhase s.game.heap (sortSnp s.game.heap s.game.ballsObjects) = none ∧
        collisionCalls sqrtQ s.game.heap (sortSnp s.game.heap s.game.ballsObjects) = none := by
  refine ⟨rfl, ?_⟩
  have hU : (lastBallGame.heap 0).Update (1 / 10) =
      ⟨(lastBallGame.heap 0).velocity, some (lastBallGame.heap 0).position⟩ := by
    norm_num [lastBallGame, RigidBody2D.Update, RigidBody2D.GetNextFramePos, RigidBody2D.box,
      RigidBody2D.Move, Vector2.add, Vector2.smul, Params.width, Params.height, Params.radius]
  have hhit : HandlePocketCollision sqrtQ lastBallGame 0 =
      { lastBallGame with
        table := lastBallGame.table.removeBall (lastBallGame.heap 0).mesh
        destroyed := lastBallGame.destroyed ++ [(lastBallGame.heap 0).mesh]
        ballsObjects := lastBallGame.ballsObjects.filter (fun q => q ≠ 0) } :=
    HandlePocketCollision_of_hit sqrtQ isSqrt_sqrtQ lastBallGame 0 sixPockets_position
      sixPockets_radius rfl
      ⟨⟨⟨0, 1 / 2 * Params.height⟩, Params.pocketRadius, 12⟩,
        by simp [lastBallGame, sixPockets, Params.pocketsPositions],
        by norm_num [lastBallGame, PhysicBody2D.CheckCollision, Vector2.DistanceTo, Params.height,
          Params.radius, Params.pocketRadius, sqrtQ_quarter]⟩
  have hfilter : lastBallGame.ballsObjects.filter (fun q => q ≠ 0) = [] := by
    simp [lastBallGame]
  have step0 := ballLoopStep_of_unmoved sqrtQ (1 / 10)
    { game := lastBallGame, storage := [0], visited := [] } 0 0 rfl hU
  rw [hfilter] at hhit
  simp only [hhit] at step0
  have hlen : lastBallGame.ballsObjects.length = 1 := rfl
  have hsto : lastBallGame.ballsObjects = [0] := rfl
  have hrange : List.range 1 = [0] := rfl
  unfold ballLoop
  rw [hlen, hsto, hrange, List.foldl_cons, List.foldl_nil, step0]
  refine ⟨_, rfl, rfl, ?_, ?_, ?_⟩ <;> simp [sortSnp, broadPhase, collisionCalls]

end Billiards
